import Mathlib

/-! # The acoustic MAC manager of libamac (`acomms/libamac/mac_manager.cpp`)

A shallow embedding of `goby::acomms::MACManager`: the slot table
(`id2slot_`, a multimap from `src` to `Slot`), the cycle order (`slot_order_`,
a list of references into the table), the cursor (`current_slot_`), the
scheduler (`next_cycle_time`, `position_blank`), discovery and expiry, and the
tick handler `send_poll`. The Internet checksum `net_checksum` of
`acomms/ip_codecs.cpp` is embedded after the manager.

Conventions of the embedding.

* A multimap iterator is a handle (`Nat`), handed out in increasing order by
  `next_handle`; `slot_order_` holds handles, and `Cursor.node h` is the list
  iterator standing on the list node that holds handle `h`.
* A `boost::posix_time::ptime` is an `Int`: microseconds since 1970-01-01 00:00:00 UTC. Every
  operation that reads `goby_time()` takes the reading as the argument `now`
  (one reading per call). `last_heard_time`, a string in the source that is
  written from and parsed back to a `ptime`, is kept as the `ptime`.
* An operation whose C++ has no defined result on some input (integer division
  by zero, dereferencing `end()`, using a reference that is no longer in a
  container, such as the iterator the loop of `expire_ids` has just erased)
  returns `none` there.
* The list `slot_order_` is the circular list it is built as: the step after
  `end()` arrives at `begin()` (see `position_blank`).
* Sums and products of `unsigned` values of the manager are taken in `Nat`; the
  32-bit wrap-around is written out in `blank_pos`, where it is reached by small
  values, in the product of `expired`, and in the sum of `net_checksum`.
-/

namespace MAC

/-- Modelled from the spec: the values of `protobuf::MACType` (the `.proto` file is
not part of the sources at hand). `MAC_NONE` stands for every value that takes the
`default:` arm of the switches on `cfg_.type()`. -/
inductive MACType where
  | MAC_NONE
  | MAC_FIXED_DECENTRALIZED
  | MAC_AUTO_DECENTRALIZED
  | MAC_POLLED
deriving DecidableEq, Repr

/-- Modelled from the spec: the values of `protobuf::SlotType` ("one of `DATA`,
`PING`, `REMUS_LBL`"). -/
inductive SlotType where
  | SLOT_DATA
  | SLOT_PING
  | SLOT_REMUS_LBL
deriving DecidableEq, Repr

/-- Modelled from the spec: the fields of `protobuf::Slot`. -/
structure Slot where
  src : Nat
  dest : Int
  rate : Nat
  type : SlotType
  slot_seconds : Nat
  last_heard_time : Int
deriving DecidableEq, Repr

/-- Modelled from the spec: the fields of `protobuf::MACConfig`. -/
structure MACConfig where
  type : MACType
  modem_id : Nat
  slot_seconds : Nat
  rate : Nat
  expire_cycles : Nat
  cycle : List Slot
deriving DecidableEq, Repr

/-- The fields of `protobuf::ModemMsgBase` that the MAC reads or writes; `rate` is
`none` when the MAC leaves it unset. -/
structure ModemMsgBase where
  src : Nat
  dest : Int
  rate : Option Nat
deriving DecidableEq, Repr

/-- Values of `protobuf::ModemRangingRequest::type` set by the MAC. -/
inductive RangingType where
  | MODEM_TWO_WAY_PING
  | REMUS_LBL_RANGING
deriving DecidableEq, Repr

/-- The request handed to `signal_initiate_ranging`. -/
structure ModemRangingRequest where
  base : ModemMsgBase
  type : RangingType
deriving DecidableEq, Repr

/-- The two outbound signals. -/
inductive Signal where
  | initiate_transmission (m : ModemMsgBase)
  | initiate_ranging (m : ModemRangingRequest)
deriving DecidableEq, Repr

/-- The status handed to the timer handler. -/
inductive ErrorCode where
  | success
  | operation_aborted
deriving DecidableEq, Repr

/-- `acomms::BROADCAST_ID`. -/
def BROADCAST_ID : Nat := 0

/-- Modelled from the spec: `acomms::QUERY_DESTINATION_ID`, "an implementation-chosen
reserved integer (e.g. -1)"; the constants header is not part of the sources at hand. -/
def QUERY_DESTINATION_ID : Int := -1

/-- One node of `id2slot_`: its address (`handle`) and the slot stored in it. The key
of the node is `slot.src`: both insertions pair `s.src()` with `s`, and nothing writes
`src` afterwards, so `it->first` is read as `slot.src`. -/
structure Entry where
  handle : Nat
  slot : Slot
deriving DecidableEq, Repr

/-- A `std::list<id2slot_it>::iterator`: on the node holding handle `h`, or `end()`. -/
inductive Cursor where
  | node (h : Nat)
  | end_
deriving DecidableEq, Repr

/-- State of `MACManager`. `ENTROPY` is the class constant of that name, declared in
the header (not part of the sources at hand); no operation writes it. `timer_` is the
expiry time of the pending `async_wait`, if any. -/
structure MACManager where
  ENTROPY : Nat
  cfg_ : MACConfig
  timer_ : Option Int
  timer_is_running_ : Bool
  next_slot_t_ : Int
  id2slot_ : List Entry
  slot_order_ : List Nat
  current_slot_ : Cursor
  cycles_since_day_start_ : Nat
  blank_it_ : Option Nat
  startup_done_ : Bool
  next_handle : Nat
deriving DecidableEq, Repr

/-- Microseconds in a day. -/
def usec_per_day : Int := 86400000000

/-- Microseconds in a second. -/
def usec_per_sec : Int := 1000000

/-- `boost::posix_time::seconds(n)` as a duration in microseconds. -/
def seconds (n : Nat) : Int := (n : Int) * usec_per_sec

/-- `goby_time().time_of_day().total_seconds()`: whole seconds since midnight UTC. -/
def since_day_start (now : Int) : Nat := ((now % usec_per_day) / usec_per_sec).toNat

/-- `ptime(day_clock::universal_day(), seconds(0))`: midnight UTC of the day of `now`. -/
def universal_day (now : Int) : Int := now - now % usec_per_day

/-- `std::multimap::insert`: after every node whose key is not larger. -/
def multimap_insert (e : Entry) : List Entry → List Entry
  | [] => [e]
  | x :: xs => if e.slot.src < x.slot.src then e :: x :: xs else x :: multimap_insert e xs

/-- Dereference of a multimap iterator: the slot in the node with handle `h`. -/
def slot_at (tbl : List Entry) (h : Nat) : Option Slot :=
  (tbl.find? (fun e => e.handle = h)).map (fun e => e.slot)

/-- `id2slot_.erase(it)`. -/
def multimap_erase (tbl : List Entry) (h : Nat) : List Entry :=
  tbl.filter (fun e => e.handle ≠ h)

/-- `slot_order_.remove(it)`: every list node equal to `it` goes. -/
def list_remove (order : List Nat) (h : Nat) : List Nat :=
  order.filter (fun x => x ≠ h)

/-- `it->second.src()` for a reference held in `slot_order_`. -/
def src_of (tbl : List Entry) (h : Nat) : Nat :=
  ((slot_at tbl h).map (fun s => s.src)).getD 0

/-- `it->second.slot_seconds()` for a reference held in `slot_order_`. -/
def slot_seconds_of (tbl : List Entry) (h : Nat) : Nat :=
  ((slot_at tbl h).map (fun s => s.slot_seconds)).getD 0

/-- Modelled from the spec: `slot_order_.sort()`, "re-sort the sequence by `src`
ascending" (the comparison of references is declared in the header, not part of the
sources at hand). `std::list::sort` is stable, as is this insertion sort. -/
def list_sort (tbl : List Entry) (order : List Nat) : List Nat :=
  order.insertionSort (fun a b => src_of tbl a ≤ src_of tbl b)

/-- Modelled from the spec: `operator==` on slots, "two slots are equal iff all
attributes except `last_heard_time` match" (declared in the header, not part of the
sources at hand). -/
def slot_eq (a b : Slot) : Bool :=
  a.src = b.src && a.dest = b.dest && a.rate = b.rate && a.type = b.type
    && a.slot_seconds = b.slot_seconds

/-- `slot_order_.begin()`. -/
def list_begin : List Nat → Cursor
  | [] => Cursor.end_
  | h :: _ => Cursor.node h

/-- The list iterator after the node holding `h`. -/
def list_next (h : Nat) : List Nat → Cursor
  | [] => Cursor.end_
  | x :: rest => if x = h then list_begin rest else list_next h rest

/-- `++current_slot_`. -/
def cursor_incr (order : List Nat) : Cursor → Cursor
  | Cursor.node h => list_next h order
  | Cursor.end_ => Cursor.end_

namespace MACManager

/-- The manager as constructed: no slots, timer idle, `current_slot_ = begin() = end()`.
The members the constructor leaves unset (`cfg_`, `next_slot_t_`,
`cycles_since_day_start_`, `blank_it_`) get a default configuration, 0, 0 and no reference. -/
def idle (entropy : Nat) : MACManager :=
  { ENTROPY := entropy
    cfg_ := { type := MACType.MAC_NONE, modem_id := 0, slot_seconds := 0, rate := 0,
              expire_cycles := 0, cycle := [] }
    timer_ := none
    timer_is_running_ := false
    next_slot_t_ := 0
    id2slot_ := []
    slot_order_ := []
    current_slot_ := Cursor.end_
    cycles_since_day_start_ := 0
    blank_it_ := none
    startup_done_ := false
    next_handle := 0 }

/-- `MACManager::restart_timer`. -/
def restart_timer (m : MACManager) : MACManager :=
  { m with timer_ := some m.next_slot_t_, timer_is_running_ := true }

/-- `MACManager::stop_timer`. -/
def stop_timer (m : MACManager) : MACManager :=
  { m with timer_is_running_ := false, timer_ := none }

/-- `MACManager::cycle_sum`. -/
def cycle_sum (m : MACManager) : Nat :=
  (m.slot_order_.map (src_of m.id2slot_)).sum

/-- `MACManager::cycle_length`. -/
def cycle_length (m : MACManager) : Nat :=
  (m.slot_order_.map (slot_seconds_of m.id2slot_)).sum

/-- `(*current_slot_)->second`: defined when the cursor stands on a node of
`slot_order_` whose reference is in `id2slot_`. -/
def current_slot (m : MACManager) : Option Slot :=
  match m.current_slot_ with
  | Cursor.end_ => none
  | Cursor.node h => if h ∈ m.slot_order_ then slot_at m.id2slot_ h else none

/-- `MACManager::next_cycle_time`: writes `cycles_since_day_start_` and returns the
start of the next cycle. The division is an integer division (`int / unsigned`), so
`floor` changes nothing; it has no result when `cycle_length()` is 0. -/
def next_cycle_time (m : MACManager) (now : Int) : Option (MACManager × Int) :=
  if cycle_length m = 0 then none
  else
    let c := since_day_start now / cycle_length m + 1
    let secs_to_next := c * cycle_length m
    some ({ m with cycles_since_day_start_ := c }, universal_day now + seconds secs_to_next)

/-- The value of `blank_pos` in `position_blank`, an `unsigned`. -/
def blank_pos (m : MACManager) : Nat :=
  (((cycle_length m : Int)
      - (if m.cycles_since_day_start_ % m.ENTROPY = cycle_sum m % m.ENTROPY then 1 else 0)
      - 1) % 4294967296).toNat

/-- The position on which the walk of `position_blank` stops, in the list without the
blank `b`: `blank_pos` steps from `begin()` through a list that is circular through its
`end()` node, that is `blank_pos` modulo the number of positions (the nodes and `end()`). -/
def blank_index (m : MACManager) (b : Nat) : Nat :=
  blank_pos m % ((list_remove m.slot_order_ b).length + 1)

/-- `MACManager::position_blank`. The walk of `blank_pos` steps from `begin()` goes
through the list without the blank and on past `end()`: the list is circular through its
`end()` node, so the step after `end()` arrives at `begin()` again, and the walk stops on
position `blank_pos` modulo the number of its positions (the nodes and `end()`). The blank
is inserted before that position. It has no result when `blank_it_` holds no reference
into `id2slot_`. -/
def position_blank (m : MACManager) : Option MACManager :=
  match m.blank_it_ with
  | none => none
  | some b =>
    if (slot_at m.id2slot_ b).isNone then none
    else
      let rest := list_remove m.slot_order_ b
      let pos := blank_index m b
      let order := rest.take pos ++ b :: rest.drop pos
      some { m with slot_order_ := order, current_slot_ := list_begin order }

/-- `MACManager::process_cycle_size_change`. -/
def process_cycle_size_change (m : MACManager) (now : Int) : Option MACManager :=
  match next_cycle_time m now with
  | none => none
  | some (m1, t) =>
    let m2 := { m1 with next_slot_t_ := t }
    if m2.cfg_.type = MACType.MAC_AUTO_DECENTRALIZED ∧ m2.slot_order_.length > 1 then
      (position_blank m2).map restart_timer
    else some (restart_timer m2)

/-- `MACManager::add_slot`; the returned handle is the iterator it returns. -/
def add_slot (m : MACManager) (s : Slot) (now : Int) : Option (MACManager × Nat) :=
  let h := m.next_handle
  let order := m.slot_order_ ++ [h]
  let m1 := { m with id2slot_ := multimap_insert { handle := h, slot := s } m.id2slot_,
                     next_handle := h + 1,
                     slot_order_ := order,
                     current_slot_ := list_begin order }
  (process_cycle_size_change m1 now).map (fun m2 => (m2, h))

/-- The test of the `if` in `expire_ids` for the entry `it`. The product
`cycle_length()*cfg_.expire_cycles()` is one of 32-bit `unsigned` values. -/
def expired (m : MACManager) (now : Int) (it : Entry) : Bool :=
  decide (it.slot.last_heard_time
      < now - seconds ((cycle_length m * m.cfg_.expire_cycles) % 4294967296))
    && decide (it.slot.src ≠ m.cfg_.modem_id)
    && decide (it.slot.src ≠ BROADCAST_ID)

/-- The first entry, in the order of the multimap, for which the test of the loop of
`expire_ids` holds: the entries before it are passed over with the state unchanged. -/
def expire_first (m : MACManager) (now : Int) : Option Entry :=
  m.id2slot_.find? (fun it => expired m now it)

/-- The two statements of the body of the loop of `expire_ids` for the entry `it`:
`id2slot_.erase(it)` and `slot_order_.remove(it)`. -/
def expire_erase (m : MACManager) (it : Entry) : MACManager :=
  { m with id2slot_ := multimap_erase m.id2slot_ it.handle,
           slot_order_ := list_remove m.slot_order_ it.handle }

/-- The loop of `expire_ids`, with the flag `reset`. The entries of `id2slot_` are
examined in the order of the multimap. For the first entry that passes the test the body
erases the node under `it`; the loop then goes on to `++it` with the iterator of the
erased node, which has no defined result (a build either stops there, when the walk from
the freed node leaves the tree, or goes on from whatever the freed node still links to).
So the loop has a result only when no entry passes the test, and then `reset` is unset. -/
def expire_scan (m : MACManager) (now : Int) : Option (MACManager × Bool) :=
  match expire_first m now with
  | none => some (m, false)
  | some _ => none

/-- `MACManager::expire_ids`. -/
def expire_ids (m : MACManager) (now : Int) : Option MACManager :=
  match expire_scan m now with
  | none => none
  | some r => if r.2 then process_cycle_size_change r.1 now else some r.1

/-- The decision `send_poll` of the tick handler for the slot `s` under the cursor. -/
def should_transmit (cfg : MACConfig) (s : Slot) : Bool :=
  match cfg.type with
  | MACType.MAC_FIXED_DECENTRALIZED => decide (s.src = cfg.modem_id)
  | MACType.MAC_AUTO_DECENTRALIZED => decide (s.src = cfg.modem_id)
  | MACType.MAC_POLLED => decide (s.src ≠ BROADCAST_ID)
  | MACType.MAC_NONE => true

/-- The signal raised for slot `s` by the `switch(s.type())` of the tick handler. -/
def slot_signal (s : Slot) : Signal :=
  match s.type with
  | SlotType.SLOT_DATA =>
    Signal.initiate_transmission { src := s.src, dest := s.dest, rate := some s.rate }
  | SlotType.SLOT_REMUS_LBL =>
    Signal.initiate_ranging { base := { src := s.src, dest := s.dest, rate := none },
                              type := RangingType.REMUS_LBL_RANGING }
  | SlotType.SLOT_PING =>
    Signal.initiate_ranging { base := { src := s.src, dest := s.dest, rate := none },
                              type := RangingType.MODEM_TWO_WAY_PING }

/-- The signals raised by one tick on slot `s`. -/
def poll_signals (cfg : MACConfig) (s : Slot) : List Signal :=
  if should_transmit cfg s then [slot_signal s] else []

/-- The lines of the tick handler that follow `expire_ids()` in auto-discovery mode: the
wrap of the cursor through `position_blank`, `next_slot_t_ += seconds(cfg_.slot_seconds())`
and `restart_timer()`. -/
def finish_auto_tick (m2 : MACManager) : Option MACManager :=
  let m3 :=
    if m2.current_slot_ = Cursor.end_ then
      position_blank { m2 with cycles_since_day_start_ := m2.cycles_since_day_start_ + 1 }
    else some m2
  m3.map (fun m4 =>
    restart_timer { m4 with next_slot_t_ := m4.next_slot_t_ + seconds m4.cfg_.slot_seconds })

/-- The part of the tick handler after the signals: advance the cursor, then the
`switch` on the mode, then `restart_timer`. `s` is the slot the tick fired on. -/
def advance (m : MACManager) (s : Slot) (now : Int) : Option MACManager :=
  let m1 := { m with current_slot_ := cursor_incr m.slot_order_ m.current_slot_ }
  match m1.cfg_.type with
  | MACType.MAC_AUTO_DECENTRALIZED =>
    match expire_ids m1 now with
    | none => none
    | some m2 => finish_auto_tick m2
  | MACType.MAC_FIXED_DECENTRALIZED =>
    let m2 :=
      if m1.current_slot_ = Cursor.end_ then
        { m1 with current_slot_ := list_begin m1.slot_order_ }
      else m1
    some (restart_timer { m2 with next_slot_t_ := m2.next_slot_t_ + seconds s.slot_seconds })
  | MACType.MAC_POLLED =>
    let m2 :=
      if m1.current_slot_ = Cursor.end_ then
        { m1 with current_slot_ := list_begin m1.slot_order_ }
      else m1
    some (restart_timer { m2 with next_slot_t_ := m2.next_slot_t_ + seconds s.slot_seconds })
  | MACType.MAC_NONE => some (restart_timer m1)

/-- `MACManager::send_poll`, the tick handler: the new state and the signals raised,
in order. -/
def send_poll (m : MACManager) (e : ErrorCode) (now : Int) :
    Option (MACManager × List Signal) :=
  match e with
  | ErrorCode.operation_aborted => some (m, [])
  | ErrorCode.success =>
    match current_slot m with
    | none => none
    | some s => (advance m s now).map (fun m1 => (m1, poll_signals m.cfg_ s))

/-- The slot synthesized for `src` by `startup` and `handle_modem_all_incoming`. -/
def auto_slot (cfg : MACConfig) (src : Nat) (now : Int) : Slot :=
  { src := src, dest := QUERY_DESTINATION_ID, rate := cfg.rate, type := SlotType.SLOT_DATA,
    slot_seconds := cfg.slot_seconds, last_heard_time := now }

/-- The branch `else` of `handle_modem_all_incoming`: stamp every slot of `id`. -/
def touch (tbl : List Entry) (id : Nat) (now : Int) : List Entry :=
  tbl.map (fun e => if e.slot.src = id then
    { e with slot := { e.slot with last_heard_time := now } } else e)

/-- The insertion of `handle_modem_all_incoming` for a new `id`, up to and including
`slot_order_.sort()`. -/
def discover_id (m : MACManager) (id : Nat) (now : Int) : MACManager :=
  let h := m.next_handle
  let tbl := multimap_insert { handle := h, slot := auto_slot m.cfg_ id now } m.id2slot_
  { m with id2slot_ := tbl,
           next_handle := h + 1,
           slot_order_ := list_sort tbl (m.slot_order_ ++ [h]) }

/-- `MACManager::handle_modem_all_incoming`. -/
def handle_modem_all_incoming (m : MACManager) (msg : ModemMsgBase) (now : Int) :
    Option MACManager :=
  let id := msg.src
  if m.cfg_.type ≠ MACType.MAC_AUTO_DECENTRALIZED then some m
  else if (m.id2slot_.filter (fun e => e.slot.src = id)).length = 0 then
    process_cycle_size_change (discover_id m id now) now
  else some { m with id2slot_ := touch m.id2slot_ id now }

/-- `MACManager::remove_slot`, with its return value. -/
def remove_slot (m : MACManager) (s : Slot) (now : Int) : Option (MACManager × Bool) :=
  let found := m.id2slot_.find? (fun e => slot_eq s e.slot)
  let m1 :=
    match found with
    | some e => { m with slot_order_ := list_remove m.slot_order_ e.handle,
                         id2slot_ := multimap_erase m.id2slot_ e.handle }
    | none => m
  match process_cycle_size_change m1 now with
  | none => none
  | some m2 =>
    let m3 := if m2.slot_order_ = [] then stop_timer m2 else m2
    let m4 := if found.isSome then { m3 with current_slot_ := list_begin m3.slot_order_ } else m3
    some (m4, found.isSome)

/-- The tail of `startup`: start the timer if there is a slot, set `startup_done_`. -/
def startup_finish (m : MACManager) : MACManager :=
  let m1 := if m.slot_order_ = [] then m else restart_timer m
  { m1 with startup_done_ := true }

/-- The loop of `startup` over `cfg_.cycle`. -/
def add_slots (m : MACManager) (now : Int) : List Slot → Option MACManager
  | [] => some m
  | s :: rest =>
    match add_slot m s now with
    | none => none
    | some (m1, _) => add_slots m1 now rest

/-- `MACManager::startup`. -/
def startup (m : MACManager) (cfg : MACConfig) (now : Int) : Option MACManager :=
  if m.startup_done_ then some m
  else
    let m0 := { m with cfg_ := cfg }
    match cfg.type with
    | MACType.MAC_AUTO_DECENTRALIZED =>
      match add_slot m0 (auto_slot cfg BROADCAST_ID now) now with
      | none => none
      | some (m1, hb) =>
        match add_slot { m1 with blank_it_ := some hb } (auto_slot cfg cfg.modem_id now) now with
        | none => none
        | some (m2, _) =>
          let m3 := { m2 with slot_order_ := list_sort m2.id2slot_ m2.slot_order_ }
          match next_cycle_time m3 now with
          | none => none
          | some (m4, t) =>
            (position_blank { m4 with next_slot_t_ := t }).map startup_finish
    | MACType.MAC_POLLED => (add_slots m0 now cfg.cycle).map startup_finish
    | MACType.MAC_FIXED_DECENTRALIZED => (add_slots m0 now cfg.cycle).map startup_finish
    | MACType.MAC_NONE => some m0

/-- `MACManager::shutdown`. -/
def shutdown (m : MACManager) : MACManager :=
  let m1 := stop_timer m
  { m1 with slot_order_ := [], id2slot_ := [], current_slot_ := Cursor.end_,
            startup_done_ := false }

/-- Whether the pending wait of the timer has expired at `now`. -/
def timer_due (m : MACManager) (now : Int) : Bool :=
  match m.timer_ with
  | some t => decide (t ≤ now)
  | none => false

/-- `io_.poll()`: run the handler of the pending wait while it is due (the handler
restarts the timer, and the new wait may be due at once). `fuel` bounds the handlers one
call runs: the call has no result when a handler is still due once the bound is used up.
The handlers of cancelled waits are not kept in the state: called with
`operation_aborted`, `send_poll` returns at once. -/
def poll : Nat → MACManager → Int → Option (MACManager × List Signal)
  | 0, m, now => if timer_due m now then none else some (m, [])
  | fuel + 1, m, now =>
    if timer_due m now then
      match send_poll m ErrorCode.success now with
      | none => none
      | some r => (poll fuel r.1 now).map (fun r2 => (r2.1, r.2 ++ r2.2))
    else some (m, [])

/-- `MACManager::do_work`: the new state and the signals raised, in order. -/
def do_work (fuel : Nat) (m : MACManager) (now : Int) : Option (MACManager × List Signal) :=
  if m.timer_is_running_ then poll fuel m now else some (m, [])

/-! ## Predicates used to state the theorems -/

/-- Every handle in use was handed out before `next_handle`: handles are the addresses
of distinct nodes, and a new node gets an address no live node has. -/
def handles_fresh (m : MACManager) : Prop :=
  (∀ e ∈ m.id2slot_, e.handle < m.next_handle) ∧ (∀ x ∈ m.slot_order_, x < m.next_handle)

instance (m : MACManager) : Decidable (handles_fresh m) := by
  unfold handles_fresh
  infer_instance

/-- The state `add_slot` reaches before it calls `process_cycle_size_change`. -/
def with_slot (m : MACManager) (s : Slot) : MACManager :=
  { m with id2slot_ := multimap_insert { handle := m.next_handle, slot := s } m.id2slot_,
           next_handle := m.next_handle + 1,
           slot_order_ := m.slot_order_ ++ [m.next_handle],
           current_slot_ := list_begin (m.slot_order_ ++ [m.next_handle]) }

/-- The manager `m` with the node `h` erased from the table and its references removed
from the sequence, as `remove_slot` does for the entry it finds. -/
def without_slot (m : MACManager) (h : Nat) : MACManager :=
  { m with slot_order_ := list_remove m.slot_order_ h,
           id2slot_ := multimap_erase m.id2slot_ h }

/-- How `touch` relates an entry to its image: same node, same attributes but for
`last_heard_time`, which is `now` when `src = id` and untouched otherwise. -/
def touched (id : Nat) (now : Int) (e e' : Entry) : Prop :=
  e'.handle = e.handle ∧ e'.slot.src = e.slot.src ∧ e'.slot.dest = e.slot.dest
    ∧ e'.slot.rate = e.slot.rate ∧ e'.slot.type = e.slot.type
    ∧ e'.slot.slot_seconds = e.slot.slot_seconds
    ∧ (e.slot.src = id → e'.slot.last_heard_time = now)
    ∧ (e.slot.src ≠ id → e' = e)

/-- The manager after ticks at the clock readings `ts`, one after the other. -/
def after_ticks (m : MACManager) : List Int → Option MACManager
  | [] => some m
  | now :: rest =>
    match send_poll m ErrorCode.success now with
    | none => none
    | some r => after_ticks r.1 rest

/-- The manager `m0` with the cursor moved to the node holding `h` and the next slot
`secs` seconds later. -/
def shifted (m0 : MACManager) (h : Nat) (secs : Nat) : MACManager :=
  { m0 with current_slot_ := Cursor.node h,
            next_slot_t_ := m0.next_slot_t_ + seconds secs,
            timer_ := some (m0.next_slot_t_ + seconds secs),
            timer_is_running_ := true }

/-- The states of a started manager in which `next_slot_t_` is followed, with the clock
reading `t` of the last call that set it from `next_cycle_time()`: `startup` of an idle
manager in one of the three modes, then any interleaving of `add_slot` (in
auto-discovery mode of slots that last `cfg.slot_seconds`), `remove_slot` (in polled and
fixed modes the calls that remove a slot), further `startup` calls, inbound frames and
timer handler calls, each of them with a result. `startup`, `add_slot`, `remove_slot` and the admission of a new `src`
set `next_slot_t_` from `next_cycle_time()`; the other calls do not. -/
inductive reachable_aligned : Int → MACManager → Prop where
  | from_idle (E : Nat) (cfg : MACConfig) (now : Int) (m : MACManager) :
      cfg.type ≠ MACType.MAC_NONE →
      startup (idle E) cfg now = some m → reachable_aligned now m
  | again (t : Int) (m : MACManager) (cfg : MACConfig) (now : Int) (m' : MACManager) :
      reachable_aligned t m → startup m cfg now = some m' → reachable_aligned t m'
  | added (t : Int) (m : MACManager) (s : Slot) (now : Int) (m' : MACManager) (h : Nat) :
      reachable_aligned t m →
      (m.cfg_.type = MACType.MAC_AUTO_DECENTRALIZED →
        s.slot_seconds = m.cfg_.slot_seconds) →
      add_slot m s now = some (m', h) → reachable_aligned now m'
  | removed (t : Int) (m : MACManager) (s : Slot) (now : Int) (m' : MACManager)
      (r : Bool) :
      reachable_aligned t m →
      (r = true ∨ m.cfg_.type = MACType.MAC_AUTO_DECENTRALIZED) →
      remove_slot m s now = some (m', r) → reachable_aligned now m'
  | admitted (t : Int) (m : MACManager) (msg : ModemMsgBase) (now : Int) (m' : MACManager) :
      reachable_aligned t m → m.cfg_.type = MACType.MAC_AUTO_DECENTRALIZED →
      (∀ e ∈ m.id2slot_, e.slot.src ≠ msg.src) →
      handle_modem_all_incoming m msg now = some m' → reachable_aligned now m'
  | heard (t : Int) (m : MACManager) (msg : ModemMsgBase) (now : Int) (m' : MACManager) :
      reachable_aligned t m →
      (m.cfg_.type ≠ MACType.MAC_AUTO_DECENTRALIZED
        ∨ ∃ e ∈ m.id2slot_, e.slot.src = msg.src) →
      handle_modem_all_incoming m msg now = some m' → reachable_aligned t m'
  | ticked (t : Int) (m : MACManager) (e : ErrorCode) (now : Int) (m' : MACManager)
      (sigs : List Signal) :
      reachable_aligned t m → send_poll m e now = some (m', sigs) → reachable_aligned t m'

/-- The invariant of `reachable_aligned` in polled and fixed modes: the mode, fresh and
distinct references, and `next_slot_t_` standing, past midnight of the day of `t`, a whole
number of cycles plus the slots before the cursor. -/
def fixed_inv (t : Int) (m : MACManager) : Prop :=
  (m.cfg_.type = MACType.MAC_POLLED ∨ m.cfg_.type = MACType.MAC_FIXED_DECENTRALIZED)
    ∧ m.startup_done_ = true
    ∧ handles_fresh m
    ∧ m.slot_order_.Nodup
    ∧ (m.slot_order_ = []
        ∨ ∃ (pre post : List Nat) (h : Nat) (k : Nat),
            m.slot_order_ = pre ++ h :: post ∧ m.current_slot_ = Cursor.node h
              ∧ m.next_slot_t_ = universal_day t
                  + seconds (k * cycle_length m + (pre.map (slot_seconds_of m.id2slot_)).sum))

/-- A table of distinct nodes handed out before `nh`, whose slots all last `ss`, with a
sequence that refers to every node exactly once. -/
def uniform_table (ss nh : Nat) (tbl : List Entry) (order : List Nat) : Prop :=
  (∀ e ∈ tbl, e.handle < nh)
    ∧ (tbl.map (fun e => e.handle)).Nodup
    ∧ order.Perm (tbl.map (fun e => e.handle))
    ∧ (∀ e ∈ tbl, e.slot.slot_seconds = ss)

/-- The invariant of `reachable_aligned` in auto-discovery mode: slots of one length, and
`next_slot_t_` standing, past midnight of the day of `t`, a whole number of cycles plus
the slots before the cursor. -/
def auto_aligned (t : Int) (m : MACManager) : Prop :=
  m.cfg_.type = MACType.MAC_AUTO_DECENTRALIZED
    ∧ m.startup_done_ = true
    ∧ uniform_table m.cfg_.slot_seconds m.next_handle m.id2slot_ m.slot_order_
    ∧ ∃ (pre post : List Nat) (h : Nat) (k : Nat),
        m.slot_order_ = pre ++ h :: post ∧ m.current_slot_ = Cursor.node h
          ∧ m.next_slot_t_ = universal_day t
              + seconds ((k * m.slot_order_.length + pre.length) * m.cfg_.slot_seconds)

/-- Calls of `do_work` at the clock readings `ts`, one after the other: the last state
and all the signals raised, in order. -/
def do_work_calls (fuel : Nat) (m : MACManager) : List Int → Option (MACManager × List Signal)
  | [] => some (m, [])
  | now :: rest =>
    match do_work fuel m now with
    | none => none
    | some r => (do_work_calls fuel r.1 rest).map (fun r2 => (r2.1, r.2 ++ r2.2))

/-- The states of an auto-discovery manager: `startup` of an idle manager, then any
sequence of inbound frames and timer handler calls. -/
inductive reachable_auto : MACManager → Prop where
  | from_idle (E : Nat) (cfg : MACConfig) (now : Int) (m : MACManager) :
      cfg.type = MACType.MAC_AUTO_DECENTRALIZED →
      startup (idle E) cfg now = some m → reachable_auto m
  | heard (m : MACManager) (msg : ModemMsgBase) (now : Int) (m' : MACManager) :
      reachable_auto m → handle_modem_all_incoming m msg now = some m' → reachable_auto m'
  | ticked (m : MACManager) (e : ErrorCode) (now : Int) (m' : MACManager) (sigs : List Signal) :
      reachable_auto m → send_poll m e now = some (m', sigs) → reachable_auto m'

/-- The shape of table and sequence in auto-discovery mode, with `b` the node of the
blank slot and `nh` the next handle: distinct nodes handed out before `nh`; the node `b`
holds a slot of `src` 0; the sequence refers to every node exactly once; all slots last
`cfg.slot_seconds`; and, unless the modem's own id is 0, no two slots have the same
`src`. -/
def auto_base (cfg : MACConfig) (nh b : Nat) (tbl : List Entry) (order : List Nat) : Prop :=
  (∀ e ∈ tbl, e.handle < nh)
    ∧ (tbl.map (fun e => e.handle)).Nodup
    ∧ (∃ e ∈ tbl, e.handle = b ∧ e.slot.src = BROADCAST_ID)
    ∧ order.Perm (tbl.map (fun e => e.handle))
    ∧ (∀ e ∈ tbl, e.slot.slot_seconds = cfg.slot_seconds)
    ∧ (cfg.modem_id ≠ BROADCAST_ID → (tbl.map (fun e => e.slot.src)).Nodup)

/-- The sequence without the reference `b` is in ascending order of `src`. -/
def sorted_rest (b : Nat) (tbl : List Entry) (order : List Nat) : Prop :=
  ((list_remove order b).map (src_of tbl)).Pairwise (fun x y => x ≤ y)

/-- The invariant of `reachable_auto`. -/
def auto_inv (m : MACManager) : Prop :=
  m.cfg_.type = MACType.MAC_AUTO_DECENTRALIZED
    ∧ ∃ b, m.blank_it_ = some b
        ∧ auto_base m.cfg_ m.next_handle b m.id2slot_ m.slot_order_
        ∧ sorted_rest b m.id2slot_ m.slot_order_

/-- The part of `auto_inv` that holds before the sequence is sorted. -/
def auto_base_inv (m : MACManager) : Prop :=
  m.cfg_.type = MACType.MAC_AUTO_DECENTRALIZED
    ∧ ∃ b, m.blank_it_ = some b
        ∧ auto_base m.cfg_ m.next_handle b m.id2slot_ m.slot_order_

/-- The sequence `order` with the reference `b` taken out and put back at index `pos`,
as `position_blank` does. -/
def reinsert (order : List Nat) (b pos : Nat) : List Nat :=
  (list_remove order b).take pos ++ b :: (list_remove order b).drop pos

/-- What the tick handler relies on: every reference of the sequence is to a node of the
table; unless the sequence is empty the cursor stands on one of its nodes; and the timer
runs only over a sequence that is not empty. -/
def live_core (m : MACManager) : Prop :=
  (∀ x ∈ m.slot_order_, (slot_at m.id2slot_ x).isSome = true)
    ∧ (m.slot_order_ = [] ∨ ∃ h, m.current_slot_ = Cursor.node h ∧ h ∈ m.slot_order_)
    ∧ (m.timer_is_running_ = true → m.slot_order_ ≠ [])

/-- The states of a started manager: `startup` of an idle manager in one of the three
modes, then any interleaving of `add_slot`, `remove_slot` (whatever it returns), further
`startup` calls, inbound frames and timer handler calls, each of them with a result. -/
inductive reachable_started : MACManager → Prop where
  | from_idle (E : Nat) (cfg : MACConfig) (now : Int) (m : MACManager) :
      cfg.type ≠ MACType.MAC_NONE →
      startup (idle E) cfg now = some m → reachable_started m
  | again (m : MACManager) (cfg : MACConfig) (now : Int) (m' : MACManager) :
      reachable_started m → startup m cfg now = some m' → reachable_started m'
  | added (m : MACManager) (s : Slot) (now : Int) (m' : MACManager) (h : Nat) :
      reachable_started m → add_slot m s now = some (m', h) → reachable_started m'
  | removed (m : MACManager) (s : Slot) (now : Int) (m' : MACManager) (r : Bool) :
      reachable_started m → remove_slot m s now = some (m', r) → reachable_started m'
  | heard (m : MACManager) (msg : ModemMsgBase) (now : Int) (m' : MACManager) :
      reachable_started m → handle_modem_all_incoming m msg now = some m' →
      reachable_started m'
  | ticked (m : MACManager) (e : ErrorCode) (now : Int) (m' : MACManager) (sigs : List Signal) :
      reachable_started m → send_poll m e now = some (m', sigs) → reachable_started m'

/-- The invariant of `reachable_started` in polled and fixed modes. -/
def cycle_live (m : MACManager) : Prop :=
  (m.cfg_.type = MACType.MAC_POLLED ∨ m.cfg_.type = MACType.MAC_FIXED_DECENTRALIZED)
    ∧ m.startup_done_ = true ∧ live_core m

/-- The invariant of `reachable_started` in auto-discovery mode: the sequence is never
empty there. -/
def auto_live (m : MACManager) : Prop :=
  m.cfg_.type = MACType.MAC_AUTO_DECENTRALIZED
    ∧ m.startup_done_ = true ∧ live_core m ∧ m.slot_order_ ≠ []

/-- The manager inside `startup` in auto-discovery mode, when the first `add_slot` (the
blank slot) has returned and `blank_it_` has been set to the node it returned. -/
def blank_added (E : Nat) (cfg : MACConfig) (now : Int) : MACManager :=
  { idle E with
    cfg_ := cfg
    id2slot_ := [{ handle := 0, slot := auto_slot cfg BROADCAST_ID now }]
    next_handle := 1
    slot_order_ := [0]
    current_slot_ := Cursor.node 0
    cycles_since_day_start_ := since_day_start now / cfg.slot_seconds + 1
    next_slot_t_ := universal_day now
      + seconds ((since_day_start now / cfg.slot_seconds + 1) * cfg.slot_seconds)
    timer_ := some (universal_day now
      + seconds ((since_day_start now / cfg.slot_seconds + 1) * cfg.slot_seconds))
    timer_is_running_ := true
    blank_it_ := some 0 }

/-! ## Concrete managers used to instantiate the theorems -/

/-- First slot of scenario S1: `src` 1 to `dest` 2, data, 10 s. -/
def S1_slot_a : Slot :=
  { src := 1, dest := 2, rate := 0, type := SlotType.SLOT_DATA, slot_seconds := 10,
    last_heard_time := 0 }

/-- Second slot of scenario S1: `src` 3 to `dest` 0, data, 10 s. -/
def S1_slot_b : Slot :=
  { src := 3, dest := 0, rate := 0, type := SlotType.SLOT_DATA, slot_seconds := 10,
    last_heard_time := 0 }

/-- Configuration of scenario S1 (fixed polled cycle). -/
def S1_cfg : MACConfig :=
  { type := MACType.MAC_POLLED, modem_id := 1, slot_seconds := 10, rate := 0,
    expire_cycles := 5, cycle := [S1_slot_a, S1_slot_b] }

/-- The manager of scenario S1 after `startup` at 1970-01-01 00:00:00. -/
def S1_started : MACManager :=
  { ENTROPY := 5039, cfg_ := S1_cfg, timer_ := some 20000000, timer_is_running_ := true,
    next_slot_t_ := 20000000,
    id2slot_ := [{ handle := 0, slot := S1_slot_a }, { handle := 1, slot := S1_slot_b }],
    slot_order_ := [0, 1], current_slot_ := Cursor.node 0, cycles_since_day_start_ := 1,
    blank_it_ := none, startup_done_ := true, next_handle := 2 }

/-- An auto-discovery configuration with one-second slots: modem 1, peers expire after
one silent cycle. -/
def auto_cfg : MACConfig :=
  { type := MACType.MAC_AUTO_DECENTRALIZED, modem_id := 1, slot_seconds := 1, rate := 0,
    expire_cycles := 1, cycle := [] }

/-- The manager after `startup` with `auto_cfg` at 1970-01-01 00:00:00: blank and self. -/
def auto_started : MACManager :=
  { ENTROPY := 5039, cfg_ := auto_cfg, timer_ := some 2000000, timer_is_running_ := true,
    next_slot_t_ := 2000000,
    id2slot_ := [{ handle := 0, slot := auto_slot auto_cfg 0 0 },
                 { handle := 1, slot := auto_slot auto_cfg 1 0 }],
    slot_order_ := [0, 1], current_slot_ := Cursor.node 0, cycles_since_day_start_ := 1,
    blank_it_ := some 0, startup_done_ := true, next_handle := 2 }

/-- `auto_started` after a frame from modem 2 at 00:00:00. -/
def auto_peer2 : MACManager :=
  { auto_started with
    timer_ := some 3000000, next_slot_t_ := 3000000,
    id2slot_ := [{ handle := 0, slot := auto_slot auto_cfg 0 0 },
                 { handle := 1, slot := auto_slot auto_cfg 1 0 },
                 { handle := 2, slot := auto_slot auto_cfg 2 0 }],
    slot_order_ := [1, 2, 0], current_slot_ := Cursor.node 1, next_handle := 3 }

/-- `auto_peer2` after a frame from modem 3 at 00:00:01.5. -/
def auto_peer23 : MACManager :=
  { auto_started with
    timer_ := some 4000000, next_slot_t_ := 4000000,
    id2slot_ := [{ handle := 0, slot := auto_slot auto_cfg 0 0 },
                 { handle := 1, slot := auto_slot auto_cfg 1 0 },
                 { handle := 2, slot := auto_slot auto_cfg 2 0 },
                 { handle := 3, slot := auto_slot auto_cfg 3 1500000 }],
    slot_order_ := [1, 2, 3, 0], current_slot_ := Cursor.node 1, next_handle := 4 }

/-- A slot that scenario S1 does not configure. -/
def S1_absent : Slot :=
  { src := 9, dest := 2, rate := 0, type := SlotType.SLOT_DATA, slot_seconds := 10,
    last_heard_time := 0 }

/-- Scenario S1 after: the tick at 00:00:20, `remove_slot(S1_absent)` at 00:00:25, the
tick at 00:00:40. -/
def S1_misaligned : MACManager :=
  { S1_started with
    timer_ := some 50000000, next_slot_t_ := 50000000, current_slot_ := Cursor.node 0,
    cycles_since_day_start_ := 2 }

/-- Configuration of scenario S1 without its slots. -/
def S1_cfg_no_cycle : MACConfig := { S1_cfg with cycle := [] }

/-- Scenario S1 after the tick at 00:00:20: cursor on the second slot, due at 00:00:30. -/
def S1_second : MACManager :=
  { S1_started with
    timer_ := some 30000000, next_slot_t_ := 30000000, current_slot_ := Cursor.node 1 }

/-- `S1_second` after `remove_slot(S1_absent)` at 00:00:25. -/
def S1_realigned : MACManager :=
  { S1_second with
    timer_ := some 40000000, next_slot_t_ := 40000000, cycles_since_day_start_ := 2 }

/-- Scenario S1 with its first slot only. -/
def S1_cfg_single : MACConfig := { S1_cfg with cycle := [S1_slot_a] }

/-- The manager after `startup` with `S1_cfg_single` at 1970-01-01 00:00:00. -/
def S1_single : MACManager :=
  { ENTROPY := 5039, cfg_ := S1_cfg_single, timer_ := some 10000000,
    timer_is_running_ := true, next_slot_t_ := 10000000,
    id2slot_ := [{ handle := 0, slot := S1_slot_a }],
    slot_order_ := [0], current_slot_ := Cursor.node 0, cycles_since_day_start_ := 1,
    blank_it_ := none, startup_done_ := true, next_handle := 1 }

/-- Scenario S1 with `cfg.slot_seconds = 0`; the slots keep their own 10 s. -/
def S1_cfg_zero : MACConfig := { S1_cfg with slot_seconds := 0 }

/-- The configuration `auto_cfg` with `slot_seconds = 0`. -/
def auto_cfg_zero : MACConfig := { auto_cfg with slot_seconds := 0 }

/-- A configuration whose mode is none of the three. -/
def none_cfg : MACConfig := { S1_cfg with type := MACType.MAC_NONE }

/-- The configuration `auto_cfg` for a modem whose own id is `BROADCAST_ID`. -/
def auto_cfg_id0 : MACConfig := { auto_cfg with modem_id := 0 }

/-- The manager of modem 0 after `startup` with `auto_cfg_id0` at 1970-01-01 00:00:00 and
a frame from modem 5 at 00:00:00: the table holds the blank slot, the own slot (both of
`src` 0) and the slot of modem 5. -/
def auto_id0_peer5 : MACManager :=
  { ENTROPY := 5039, cfg_ := auto_cfg_id0, timer_ := some 3000000,
    timer_is_running_ := true, next_slot_t_ := 3000000,
    id2slot_ := [{ handle := 0, slot := auto_slot auto_cfg_id0 0 0 },
                 { handle := 1, slot := auto_slot auto_cfg_id0 0 0 },
                 { handle := 2, slot := auto_slot auto_cfg_id0 5 0 }],
    slot_order_ := [1, 2, 0], current_slot_ := Cursor.node 1, cycles_since_day_start_ := 1,
    blank_it_ := some 0, startup_done_ := true, next_handle := 3 }

/-- The configuration `auto_cfg` for modem 5. -/
def auto_cfg_id5 : MACConfig := { auto_cfg with modem_id := 5 }

/-- The manager of modem 5 after `startup` with `auto_cfg_id5` at 1970-01-01 00:00:00:
blank and self. -/
def auto_id5_started : MACManager :=
  { ENTROPY := 5039, cfg_ := auto_cfg_id5, timer_ := some 2000000,
    timer_is_running_ := true, next_slot_t_ := 2000000,
    id2slot_ := [{ handle := 0, slot := auto_slot auto_cfg_id5 0 0 },
                 { handle := 1, slot := auto_slot auto_cfg_id5 5 0 }],
    slot_order_ := [1, 0], current_slot_ := Cursor.node 1, cycles_since_day_start_ := 1,
    blank_it_ := some 0, startup_done_ := true, next_handle := 2 }

/-- The configuration `auto_cfg` for modem 2. -/
def auto_cfg_id2 : MACConfig := { auto_cfg with modem_id := 2 }

/-- The manager of modem 2 after `startup` with `auto_cfg_id2` at 1970-01-01 00:00:00 and
a frame from modem 1 at 00:00:00. -/
def auto_id2_peer1 : MACManager :=
  { ENTROPY := 5039, cfg_ := auto_cfg_id2, timer_ := some 3000000,
    timer_is_running_ := true, next_slot_t_ := 3000000,
    id2slot_ := [{ handle := 0, slot := auto_slot auto_cfg_id2 0 0 },
                 { handle := 2, slot := auto_slot auto_cfg_id2 1 0 },
                 { handle := 1, slot := auto_slot auto_cfg_id2 2 0 }],
    slot_order_ := [2, 1, 0], current_slot_ := Cursor.node 2, cycles_since_day_start_ := 1,
    blank_it_ := some 0, startup_done_ := true, next_handle := 3 }

/-- Configuration of scenario S3: auto-discovery, modem 1, slots of 10 s, peers expire
after three silent cycles. -/
def S3_cfg : MACConfig :=
  { type := MACType.MAC_AUTO_DECENTRALIZED, modem_id := 1, slot_seconds := 10, rate := 0,
    expire_cycles := 3, cycle := [] }

/-- Scenario S3 inside the second `add_slot` of `startup` (the own slot), where
`process_cycle_size_change` calls `position_blank`: two slots of 10 s, `next_slot_t_`
at 00:00:20. -/
def S3_two_slots : MACManager :=
  { ENTROPY := 5039, cfg_ := S3_cfg, timer_ := some 10000000, timer_is_running_ := true,
    next_slot_t_ := 20000000,
    id2slot_ := [{ handle := 0, slot := auto_slot S3_cfg 0 0 },
                 { handle := 1, slot := auto_slot S3_cfg 1 0 }],
    slot_order_ := [0, 1], current_slot_ := Cursor.node 0, cycles_since_day_start_ := 1,
    blank_it_ := some 0, startup_done_ := false, next_handle := 2 }

/-- The state `auto_started`, shut down, after a frame from modem 2 at 00:00:00. -/
def auto_revived : MACManager :=
  { ENTROPY := 5039, cfg_ := auto_cfg, timer_ := some 1000000, timer_is_running_ := true,
    next_slot_t_ := 1000000,
    id2slot_ := [{ handle := 2, slot := auto_slot auto_cfg 2 0 }],
    slot_order_ := [2], current_slot_ := Cursor.end_, cycles_since_day_start_ := 1,
    blank_it_ := some 0, startup_done_ := false, next_handle := 3 }

/-- Scenario S3 after `startup` at 1970-01-01 00:00:00: blank and self, slots of 10 s. -/
def S3_started : MACManager :=
  { ENTROPY := 5039, cfg_ := S3_cfg, timer_ := some 20000000, timer_is_running_ := true,
    next_slot_t_ := 20000000,
    id2slot_ := [{ handle := 0, slot := auto_slot S3_cfg 0 0 },
                 { handle := 1, slot := auto_slot S3_cfg 1 0 }],
    slot_order_ := [0, 1], current_slot_ := Cursor.node 0, cycles_since_day_start_ := 1,
    blank_it_ := some 0, startup_done_ := true, next_handle := 2 }

/-- Scenario S3 after the frame from modem 7 at 00:00:00: the sequence is self, modem 7,
blank. -/
def S3_peer7 : MACManager :=
  { S3_started with
    timer_ := some 30000000, next_slot_t_ := 30000000,
    id2slot_ := [{ handle := 0, slot := auto_slot S3_cfg 0 0 },
                 { handle := 1, slot := auto_slot S3_cfg 1 0 },
                 { handle := 2, slot := auto_slot S3_cfg 7 0 }],
    slot_order_ := [1, 2, 0], current_slot_ := Cursor.node 1, next_handle := 3 }

/-- `S3_peer7` after the tick at 00:00:30, which evicts nothing. -/
def S3_peer7_ticked : MACManager :=
  { S3_peer7 with
    timer_ := some 40000000, next_slot_t_ := 40000000, current_slot_ := Cursor.node 2 }

/-- Scenario S4: `S3_peer7` after the ticks at 00:00:30, 00:00:40 and so on up to
00:01:30, with no further frame from modem 7: the cursor is on the slot of modem 7, due
at 00:01:40. -/
def S3_silent : MACManager :=
  { S3_peer7 with
    timer_ := some 100000000, next_slot_t_ := 100000000, current_slot_ := Cursor.node 2,
    cycles_since_day_start_ := 3 }

/-- `auto_peer23` after a second frame from modem 3, at 00:00:04.5. -/
def auto_peer23_fresh : MACManager :=
  { auto_peer23 with
    id2slot_ := [{ handle := 0, slot := auto_slot auto_cfg 0 0 },
                 { handle := 1, slot := auto_slot auto_cfg 1 0 },
                 { handle := 2, slot := auto_slot auto_cfg 2 0 },
                 { handle := 3, slot := auto_slot auto_cfg 3 4500000 }] }

/-- What `expire_ids` makes of `auto_peer23_fresh` in the tick run at 00:00:05, once the
node of modem 2 is erased and `process_cycle_size_change` has run: modem 3 is left,
the cycle of 3 s starts next at 00:00:06, the cursor is on the first slot. -/
def auto_peer3_realigned : MACManager :=
  { auto_started with
    timer_ := some 6000000, next_slot_t_ := 6000000,
    id2slot_ := [{ handle := 0, slot := auto_slot auto_cfg 0 0 },
                 { handle := 1, slot := auto_slot auto_cfg 1 0 },
                 { handle := 3, slot := auto_slot auto_cfg 3 4500000 }],
    slot_order_ := [1, 3, 0], current_slot_ := Cursor.node 1, cycles_since_day_start_ := 2,
    next_handle := 4 }

/-- The configuration of scenario S3 for modem 7. -/
def S3_cfg_id7 : MACConfig := { S3_cfg with modem_id := 7 }

/-- The manager of modem 7 after `startup` with `S3_cfg_id7` at 1970-01-01 00:00:00 and a
frame from modem 1 at 00:00:00. -/
def S3_id7_peer1 : MACManager :=
  { ENTROPY := 5039, cfg_ := S3_cfg_id7, timer_ := some 30000000,
    timer_is_running_ := true, next_slot_t_ := 30000000,
    id2slot_ := [{ handle := 0, slot := auto_slot S3_cfg_id7 0 0 },
                 { handle := 2, slot := auto_slot S3_cfg_id7 1 0 },
                 { handle := 1, slot := auto_slot S3_cfg_id7 7 0 }],
    slot_order_ := [2, 1, 0], current_slot_ := Cursor.node 2, cycles_since_day_start_ := 1,
    blank_it_ := some 0, startup_done_ := true, next_handle := 3 }

/-- The configuration `auto_cfg` with `expire_cycles = 2^30 + 1`: times a cycle of 4 s
the product is `2^32 + 4`. -/
def auto_cfg_wrap : MACConfig := { auto_cfg with expire_cycles := 1073741825 }

/-- The manager of modem 1 after `startup` with `auto_cfg_wrap` at 1970-01-01 00:00:00
and frames from modem 2 at 00:00:00 and modem 3 at 00:00:01.5. -/
def auto_wrap_peer23 : MACManager := { auto_peer23 with cfg_ := auto_cfg_wrap }

/-- A slot of 5 s for modem 9, shorter than the slots of scenario S3. -/
def S3_short_slot : Slot :=
  { src := 9, dest := 0, rate := 0, type := SlotType.SLOT_DATA, slot_seconds := 5,
    last_heard_time := 0 }

/-- `S3_peer7` after the ticks at 00:00:30, 00:00:40 and 00:00:50, one full cycle: the
cursor is back on the first slot, due at 00:01:00. -/
def S3_peer7_cycled : MACManager :=
  { S3_peer7 with
    timer_ := some 60000000, next_slot_t_ := 60000000, cycles_since_day_start_ := 2 }

end MACManager

/-! ## The Internet checksum of `acomms/ip_codecs.cpp`

A byte string is a list of bytes (`Nat` below 256); `std::uint32_t` and `std::uint16_t`
values are `Nat` with the reduction modulo `2^32` or `2^16` written out. -/

/-- The first loop of `net_checksum` and the `if (len)` after it: `sum` is a
`std::uint32_t`; `ntohs(*(p++))` reads two bytes as a 16-bit word in network order, the
first byte being the high one; an odd last byte is the high byte of a last word (the
mask `& 0xFF00` keeps bits 8 to 15). -/
def net_sum : List Nat → Nat → Nat
  | b0 :: b1 :: rest, sum => net_sum rest ((sum + (b0 * 256 + b1)) % 4294967296)
  | [b0], sum => (sum + (b0 * 256) % 65536 / 256 * 256) % 4294967296
  | [], sum => sum

/-- The loop `while (sum >> 16) sum = (sum & 0xFFFF) + (sum >> 16);`, run for at most
`fuel` turns. -/
def carry_fold : Nat → Nat → Nat
  | 0, sum => sum
  | fuel + 1, sum =>
    if sum / 65536 ≠ 0 then carry_fold fuel (sum % 65536 + sum / 65536) else sum

/-- `goby::acomms::net_checksum`: `~sum` returned as a `std::uint16_t`. Every turn of the
second loop makes `sum` smaller, so `sum` turns are enough for it to end (see
`carry_fold_done`). -/
def net_checksum (data : List Nat) : Nat :=
  let sum := net_sum data 0
  (4294967295 - carry_fold sum sum) % 65536

/-- Modelled from the spec: the big-endian 16-bit words of a byte string of even length. -/
def be_words : List Nat → List Nat
  | b0 :: b1 :: rest => (b0 * 256 + b1) :: be_words rest
  | _ => []

/-- Modelled from the spec: ones' complement addition of two 16-bit words, the carry out
of bit 15 added back in at bit 0 ("end-around carry"). -/
def ones_add (a b : Nat) : Nat := (a + b) % 65536 + (a + b) / 65536

/-- Modelled from the spec: the end-around-carry sum of a list of 16-bit words. -/
def end_around_carry_sum (ws : List Nat) : Nat := ws.foldl ones_add 0

/-- Modelled from the spec: the 16-bit ones' complement. -/
def ones_complement (x : Nat) : Nat := 65535 - x

/-- The value both ways of folding carries arrive at: 0 for 0, and otherwise the
representative of `n` modulo 65535 among 1, ..., 65535. -/
def carry_reduced (n : Nat) : Nat := if n = 0 then 0 else (n - 1) % 65535 + 1

/-! ## Lemmas on the table and the sequence -/

theorem mem_multimap_insert (e x : Entry) (tbl : List Entry) :
    x ∈ multimap_insert e tbl ↔ x = e ∨ x ∈ tbl := by
  induction tbl with
  | nil => simp [multimap_insert]
  | cons y ys ih =>
    unfold multimap_insert
    split
    · simp
    · simp only [List.mem_cons, ih]
      tauto

theorem multimap_insert_perm (e : Entry) (tbl : List Entry) :
    (multimap_insert e tbl).Perm (e :: tbl) := by
  induction tbl with
  | nil => simp [multimap_insert]
  | cons y ys ih =>
    unfold multimap_insert
    split
    · exact List.Perm.refl _
    · exact ((List.Perm.cons y ih).trans (List.Perm.swap e y ys))

theorem slot_at_multimap_insert_ne (e : Entry) (tbl : List Entry) (h : Nat)
    (hne : h ≠ e.handle) : slot_at (multimap_insert e tbl) h = slot_at tbl h := by
  induction tbl with
  | nil =>
    have : ¬ e.handle = h := fun q => hne q.symm
    simp [multimap_insert, slot_at, List.find?, this]
  | cons y ys ih =>
    unfold multimap_insert
    have he : ¬ e.handle = h := fun q => hne q.symm
    split
    · simp [slot_at, List.find?_cons, he]
    · simp only [slot_at, List.find?_cons] at ih ⊢
      split
      · rfl
      · exact ih

theorem slot_at_multimap_insert_self (e : Entry) (tbl : List Entry)
    (hfresh : ∀ x ∈ tbl, x.handle ≠ e.handle) :
    slot_at (multimap_insert e tbl) e.handle = some e.slot := by
  induction tbl with
  | nil => simp [multimap_insert, slot_at]
  | cons y ys ih =>
    unfold multimap_insert
    split
    · simp [slot_at]
    · have hy : ¬ y.handle = e.handle := hfresh y (by simp)
      have ih2 := ih (fun x hx => hfresh x (by simp [hx]))
      simp only [slot_at, List.find?_cons] at ih2 ⊢
      simp [hy, ih2]

namespace MACManager

theorem next_cycle_time_some (m m1 : MACManager) (now t : Int)
    (h : next_cycle_time m now = some (m1, t)) :
    0 < cycle_length m
      ∧ m1 = { m with cycles_since_day_start_ := since_day_start now / cycle_length m + 1 }
      ∧ t = universal_day now
              + seconds ((since_day_start now / cycle_length m + 1) * cycle_length m) := by
  unfold next_cycle_time at h
  split at h
  · simp at h
  · rename_i h0
    simp only [Option.some.injEq, Prod.mk.injEq] at h
    exact ⟨Nat.pos_of_ne_zero h0, h.1.symm, h.2.symm⟩

theorem blank_index_le (m : MACManager) (b : Nat) :
    blank_index m b ≤ (list_remove m.slot_order_ b).length := by
  unfold blank_index
  exact Nat.le_of_lt_succ (Nat.mod_lt _ (Nat.succ_pos _))

theorem position_blank_some (m m' : MACManager) (h : position_blank m = some m') :
    ∃ b, m.blank_it_ = some b ∧ (slot_at m.id2slot_ b).isSome
      ∧ blank_index m b ≤ (list_remove m.slot_order_ b).length
      ∧ m' = { m with
          slot_order_ := (list_remove m.slot_order_ b).take (blank_index m b)
                            ++ b :: (list_remove m.slot_order_ b).drop (blank_index m b),
          current_slot_ := list_begin ((list_remove m.slot_order_ b).take (blank_index m b)
                            ++ b :: (list_remove m.slot_order_ b).drop (blank_index m b)) } := by
  unfold position_blank at h
  split at h
  · simp at h
  · rename_i b hb
    refine ⟨b, hb, ?_⟩
    split at h
    · simp at h
    · rename_i hlive
      simp only [Option.some.injEq] at h
      refine ⟨?_, blank_index_le m b, h.symm⟩
      cases hsl : slot_at m.id2slot_ b with
      | none => simp [hsl] at hlive
      | some s => rfl

/-- `position_blank` has a result whenever `blank_it_` is a reference into the table. -/
theorem position_blank_total (m : MACManager) (b : Nat) (hb : m.blank_it_ = some b)
    (hlive : (slot_at m.id2slot_ b).isSome = true) :
    position_blank m
      = some { m with
          slot_order_ := (list_remove m.slot_order_ b).take (blank_index m b)
                            ++ b :: (list_remove m.slot_order_ b).drop (blank_index m b),
          current_slot_ := list_begin ((list_remove m.slot_order_ b).take (blank_index m b)
                            ++ b :: (list_remove m.slot_order_ b).drop (blank_index m b)) } := by
  have hnone : (slot_at m.id2slot_ b).isNone = false := by
    cases hq : slot_at m.id2slot_ b with
    | none => simp [hq] at hlive
    | some s => rfl
  unfold position_blank
  simp only [hb, hnone, Bool.false_eq_true, if_false]

theorem mem_position_blank (m m' : MACManager) (h : position_blank m = some m') (x : Nat) :
    x ∈ m'.slot_order_ ↔ x ∈ m.slot_order_ ∨ some x = m.blank_it_ := by
  obtain ⟨b, hb, _, _, rfl⟩ := position_blank_some m m' h
  simp only [List.mem_append, List.mem_cons, hb, Option.some.injEq]
  have key : ∀ y, (y ∈ (list_remove m.slot_order_ b).take (blank_index m b)
      ∨ y ∈ (list_remove m.slot_order_ b).drop (blank_index m b)) ↔ y ∈ list_remove m.slot_order_ b := by
    intro y
    rw [← List.mem_append, List.take_append_drop]
  have hrem : x ∈ list_remove m.slot_order_ b ↔ x ∈ m.slot_order_ ∧ x ≠ b := by
    simp [list_remove]
  constructor
  · rintro (h1 | rfl | h1)
    · exact Or.inl ((hrem.1 ((key x).1 (Or.inl h1))).1)
    · exact Or.inr rfl
    · exact Or.inl ((hrem.1 ((key x).1 (Or.inr h1))).1)
  · rintro (h1 | h1)
    · by_cases hxb : x = b
      · exact Or.inr (Or.inl hxb)
      · rcases (key x).2 (hrem.2 ⟨h1, hxb⟩) with h2 | h2
        · exact Or.inl h2
        · exact Or.inr (Or.inr h2)
    · exact Or.inr (Or.inl h1)

/-- What `process_cycle_size_change` leaves alone. -/
theorem process_cycle_size_change_frame (m m' : MACManager) (now : Int)
    (h : process_cycle_size_change m now = some m') :
    0 < cycle_length m ∧ m'.id2slot_ = m.id2slot_ ∧ m'.cfg_ = m.cfg_
      ∧ m'.next_handle = m.next_handle ∧ m'.blank_it_ = m.blank_it_
      ∧ m'.ENTROPY = m.ENTROPY ∧ m'.startup_done_ = m.startup_done_
      ∧ m'.cycles_since_day_start_ = since_day_start now / cycle_length m + 1
      ∧ m'.next_slot_t_ = universal_day now
              + seconds ((since_day_start now / cycle_length m + 1) * cycle_length m)
      ∧ m'.timer_ = some m'.next_slot_t_ ∧ m'.timer_is_running_ = true
      ∧ (∀ x, x ∈ m'.slot_order_ ↔ x ∈ m.slot_order_
            ∨ (some x = m.blank_it_ ∧ m.cfg_.type = MACType.MAC_AUTO_DECENTRALIZED
                ∧ m.slot_order_.length > 1)) := by
  unfold process_cycle_size_change at h
  split at h
  · simp at h
  · rename_i m1 t hn
    obtain ⟨hL, rfl, rfl⟩ := next_cycle_time_some m m1 now t hn
    dsimp only at h
    split at h
    · rename_i hc
      simp only [Option.map_eq_some'] at h
      obtain ⟨m3, hm3, rfl⟩ := h
      have hmem := mem_position_blank _ _ hm3
      obtain ⟨b, hb, _, _, rfl⟩ := position_blank_some _ _ hm3
      refine ⟨hL, rfl, rfl, rfl, rfl, rfl, rfl, rfl, rfl, rfl, rfl, ?_⟩
      intro x
      have := hmem x
      simp only at this hc
      simp only [restart_timer]
      rw [this]
      constructor
      · rintro (h1 | h1)
        · exact Or.inl h1
        · exact Or.inr ⟨h1, hc.1, hc.2⟩
      · rintro (h1 | h1)
        · exact Or.inl h1
        · exact Or.inr h1.1
    · rename_i hc
      simp only [Option.some.injEq] at h
      subst h
      refine ⟨hL, rfl, rfl, rfl, rfl, rfl, rfl, rfl, rfl, rfl, rfl, ?_⟩
      intro x
      simp only [restart_timer]
      constructor
      · intro h1; exact Or.inl h1
      · rintro (h1 | h1)
        · exact h1
        · exact absurd ⟨h1.2.1, h1.2.2⟩ hc

/-- Outside auto mode `process_cycle_size_change` only realigns and restarts the timer. -/
theorem process_cycle_size_change_fixed (m : MACManager) (now : Int)
    (hmode : m.cfg_.type ≠ MACType.MAC_AUTO_DECENTRALIZED) :
    process_cycle_size_change m now =
      if cycle_length m = 0 then none
      else some { m with
        cycles_since_day_start_ := since_day_start now / cycle_length m + 1,
        next_slot_t_ := universal_day now
              + seconds ((since_day_start now / cycle_length m + 1) * cycle_length m),
        timer_ := some (universal_day now
              + seconds ((since_day_start now / cycle_length m + 1) * cycle_length m)),
        timer_is_running_ := true } := by
  unfold process_cycle_size_change next_cycle_time
  by_cases h0 : cycle_length m = 0
  · simp [h0]
  · simp [h0, hmode, restart_timer]

theorem add_slot_eq (m : MACManager) (s : Slot) (now : Int) :
    add_slot m s now
      = (process_cycle_size_change (with_slot m s) now).map (fun m2 => (m2, m.next_handle)) := rfl

theorem slot_seconds_of_insert_ne (e : Entry) (tbl : List Entry) (h : Nat)
    (hne : h ≠ e.handle) :
    slot_seconds_of (multimap_insert e tbl) h = slot_seconds_of tbl h := by
  simp [slot_seconds_of, slot_at_multimap_insert_ne e tbl h hne]

theorem map_slot_at_with_slot (m : MACManager) (s : Slot) (hf : handles_fresh m) :
    (with_slot m s).slot_order_.map (slot_at (with_slot m s).id2slot_)
      = m.slot_order_.map (slot_at m.id2slot_) ++ [some s] := by
  simp only [with_slot, List.map_append, List.map_cons, List.map_nil]
  congr 1
  · apply List.map_congr_left
    intro x hx
    exact slot_at_multimap_insert_ne _ _ _ (Nat.ne_of_lt (hf.2 x hx))
  · have := slot_at_multimap_insert_self { handle := m.next_handle, slot := s } m.id2slot_
      (fun x hx => Nat.ne_of_lt (hf.1 x hx))
    simpa using this

theorem cycle_length_eq_sum (m : MACManager) :
    cycle_length m
      = ((m.slot_order_.map (slot_at m.id2slot_)).map
          (fun o => (o.map (fun s => s.slot_seconds)).getD 0)).sum := by
  simp only [cycle_length, List.map_map]
  rfl

theorem cycle_length_with_slot (m : MACManager) (s : Slot) (hf : handles_fresh m) :
    cycle_length (with_slot m s) = cycle_length m + s.slot_seconds := by
  rw [cycle_length_eq_sum, cycle_length_eq_sum, map_slot_at_with_slot m s hf]
  simp

theorem handles_fresh_with_slot (m : MACManager) (s : Slot) (hf : handles_fresh m) :
    handles_fresh (with_slot m s) := by
  constructor
  · intro e he
    simp only [with_slot, mem_multimap_insert] at he ⊢
    rcases he with rfl | he
    · exact Nat.lt_succ_self _
    · exact Nat.lt_succ_of_lt (hf.1 e he)
  · intro x hx
    simp only [with_slot, List.mem_append, List.mem_singleton] at hx ⊢
    rcases hx with hx | rfl
    · exact Nat.lt_succ_of_lt (hf.2 x hx)
    · exact Nat.lt_succ_self _

/-- `add_slot` outside auto mode, on a manager whose handles are fresh. -/
theorem add_slot_fixed (m : MACManager) (s : Slot) (now : Int)
    (hmode : m.cfg_.type ≠ MACType.MAC_AUTO_DECENTRALIZED) (hf : handles_fresh m) :
    add_slot m s now =
      if cycle_length m + s.slot_seconds = 0 then none
      else some ({ with_slot m s with
        cycles_since_day_start_ :=
          since_day_start now / (cycle_length m + s.slot_seconds) + 1,
        next_slot_t_ := universal_day now
          + seconds ((since_day_start now / (cycle_length m + s.slot_seconds) + 1)
              * (cycle_length m + s.slot_seconds)),
        timer_ := some (universal_day now
          + seconds ((since_day_start now / (cycle_length m + s.slot_seconds) + 1)
              * (cycle_length m + s.slot_seconds))),
        timer_is_running_ := true }, m.next_handle) := by
  rw [add_slot_eq, process_cycle_size_change_fixed _ _ (by exact hmode),
    cycle_length_with_slot m s hf]
  split <;> rfl

/-- One `add_slot` outside auto mode: what the new state is made of. -/
theorem add_slot_fixed_some (m m' : MACManager) (s : Slot) (now : Int) (h : Nat)
    (hmode : m.cfg_.type ≠ MACType.MAC_AUTO_DECENTRALIZED) (hf : handles_fresh m)
    (hadd : add_slot m s now = some (m', h)) :
    h = m.next_handle ∧ handles_fresh m' ∧ m'.cfg_ = m.cfg_ ∧ m'.ENTROPY = m.ENTROPY
      ∧ m'.blank_it_ = m.blank_it_ ∧ m'.startup_done_ = m.startup_done_
      ∧ m'.next_handle = m.next_handle + 1
      ∧ m'.slot_order_ = m.slot_order_ ++ [m.next_handle]
      ∧ m'.id2slot_ = multimap_insert { handle := m.next_handle, slot := s } m.id2slot_
      ∧ m'.current_slot_ = list_begin m'.slot_order_
      ∧ m'.slot_order_.map (slot_at m'.id2slot_)
          = m.slot_order_.map (slot_at m.id2slot_) ++ [some s]
      ∧ cycle_length m' = cycle_length m + s.slot_seconds
      ∧ 0 < cycle_length m'
      ∧ m'.next_slot_t_ = universal_day now
          + seconds ((since_day_start now / cycle_length m' + 1) * cycle_length m')
      ∧ m'.timer_ = some m'.next_slot_t_ ∧ m'.timer_is_running_ = true := by
  rw [add_slot_fixed m s now hmode hf] at hadd
  split at hadd
  · simp at hadd
  · rename_i h0
    simp only [Option.some.injEq, Prod.mk.injEq] at hadd
    obtain ⟨rfl, rfl⟩ := hadd
    have hcl := cycle_length_with_slot m s hf
    have hfw := handles_fresh_with_slot m s hf
    have hmap := map_slot_at_with_slot m s hf
    refine ⟨rfl, hfw, rfl, rfl, rfl, rfl, rfl, rfl, rfl, rfl, hmap, hcl, ?_, ?_, rfl, rfl⟩
    · show 0 < cycle_length (with_slot m s)
      rw [hcl]; exact Nat.pos_of_ne_zero h0
    · show universal_day now + _ = universal_day now
          + seconds ((since_day_start now / cycle_length (with_slot m s) + 1)
              * cycle_length (with_slot m s))
      rw [hcl]

/-- The loop of `startup` outside auto mode. -/
theorem add_slots_fixed (now : Int) (l : List Slot) :
    ∀ (m m' : MACManager), m.cfg_.type ≠ MACType.MAC_AUTO_DECENTRALIZED → handles_fresh m →
      add_slots m now l = some m' →
      handles_fresh m' ∧ m'.cfg_ = m.cfg_ ∧ m'.ENTROPY = m.ENTROPY
        ∧ m'.blank_it_ = m.blank_it_ ∧ m'.startup_done_ = m.startup_done_
        ∧ m'.slot_order_ = m.slot_order_ ++ List.range' m.next_handle l.length
        ∧ m'.slot_order_.map (slot_at m'.id2slot_)
            = m.slot_order_.map (slot_at m.id2slot_) ++ l.map some
        ∧ (l ≠ [] → m'.current_slot_ = list_begin m'.slot_order_
              ∧ 0 < cycle_length m'
              ∧ m'.next_slot_t_ = universal_day now
                  + seconds ((since_day_start now / cycle_length m' + 1) * cycle_length m')
              ∧ m'.timer_ = some m'.next_slot_t_ ∧ m'.timer_is_running_ = true) := by
  induction l with
  | nil =>
    intro m m' _ hf h
    simp only [add_slots, Option.some.injEq] at h
    subst h
    simp [hf]
  | cons s rest ih =>
    intro m m' hmode hf h
    simp only [add_slots] at h
    split at h
    · simp at h
    · rename_i m1 h1 hadd
      obtain ⟨-, hf1, hcfg1, hE1, hb1, hsd1, hnh1, hord1, -, hcur1, hmap1, -, hpos1, ht1, htm1, hrun1⟩ :=
        add_slot_fixed_some m m1 s now h1 hmode hf hadd
      obtain ⟨hf2, hcfg2, hE2, hb2, hsd2, hord2, hmap2, hne2⟩ :=
        ih m1 m' (by rw [hcfg1]; exact hmode) hf1 h
      refine ⟨hf2, hcfg2.trans hcfg1, hE2.trans hE1, hb2.trans hb1, hsd2.trans hsd1, ?_, ?_, ?_⟩
      · rw [hord2, hord1, hnh1, List.append_assoc]
        simp [List.range'_succ]
      · rw [hmap2, hmap1, List.append_assoc]
        simp
      · intro _
        by_cases hr : rest = []
        · subst hr
          simp only [add_slots, Option.some.injEq] at h
          subst h
          exact ⟨hcur1, hpos1, ht1, htm1, hrun1⟩
        · exact hne2 hr

/-- The loop of `startup` outside auto mode completes once the cycle length is positive. -/
theorem add_slots_fixed_isSome (now : Int) (l : List Slot) :
    ∀ (m : MACManager), m.cfg_.type ≠ MACType.MAC_AUTO_DECENTRALIZED → handles_fresh m →
      0 < cycle_length m → (add_slots m now l).isSome = true := by
  induction l with
  | nil => intro m _ _ _; rfl
  | cons s rest ih =>
    intro m hmode hf hpos
    have hne : ¬ (cycle_length m + s.slot_seconds = 0) := by omega
    have hadd := add_slot_fixed m s now hmode hf
    rw [if_neg hne] at hadd
    simp only [add_slots, hadd]
    apply ih
    · exact hmode
    · exact handles_fresh_with_slot m s hf
    · show 0 < cycle_length (with_slot m s)
      rw [cycle_length_with_slot m s hf]; omega

theorem list_sort_perm (tbl : List Entry) (order : List Nat) :
    (list_sort tbl order).Perm order :=
  List.perm_insertionSort _ order

theorem touch_forall₂ (tbl : List Entry) (id : Nat) (now : Int) :
    List.Forall₂ (touched id now) tbl (touch tbl id now) := by
  induction tbl with
  | nil => exact List.Forall₂.nil
  | cons e es ih =>
    refine List.Forall₂.cons ?_ ih
    by_cases h : e.slot.src = id
    · simp [touched, h]
    · simp [touched, h]

theorem handles_fresh_idle (E : Nat) (cfg : MACConfig) :
    handles_fresh { idle E with cfg_ := cfg } := by
  constructor <;> intro x hx <;> simp [idle] at hx

/-- `startup` of an idle manager outside auto mode (polled or fixed). -/
theorem startup_idle_fixed (E : Nat) (cfg : MACConfig) (now : Int)
    (hmode : cfg.type = MACType.MAC_POLLED ∨ cfg.type = MACType.MAC_FIXED_DECENTRALIZED) :
    startup (idle E) cfg now
      = (add_slots { idle E with cfg_ := cfg } now cfg.cycle).map startup_finish := by
  unfold startup
  rcases hmode with h | h <;> simp [idle, h]

theorem slot_at_isSome_iff (tbl : List Entry) (h : Nat) :
    (slot_at tbl h).isSome = true ↔ ∃ x ∈ tbl, x.handle = h := by
  simp only [slot_at, Option.isSome_map', List.find?_isSome, decide_eq_true_eq]

theorem slot_at_multimap_erase_ne (tbl : List Entry) (h x : Nat) (hne : x ≠ h) :
    slot_at (multimap_erase tbl h) x = slot_at tbl x := by
  induction tbl with
  | nil => rfl
  | cons y ys ih =>
    simp only [multimap_erase, slot_at] at ih ⊢
    by_cases hy : y.handle = h
    · have hyx : ¬ y.handle = x := fun q => hne (q.symm.trans hy)
      have e1 : List.filter (fun e => decide (e.handle ≠ h)) (y :: ys)
          = List.filter (fun e => decide (e.handle ≠ h)) ys := by
        simp [List.filter_cons, hy]
      have e2 : List.find? (fun e => decide (e.handle = x)) (y :: ys)
          = List.find? (fun e => decide (e.handle = x)) ys := by
        simp [List.find?_cons, hyx]
      rw [e1, e2]
      exact ih
    · have e1 : List.filter (fun e => decide (e.handle ≠ h)) (y :: ys)
          = y :: List.filter (fun e => decide (e.handle ≠ h)) ys := by
        simp [List.filter_cons, hy]
      rw [e1]
      simp only [List.find?_cons]
      split
      · rfl
      · exact ih

theorem sum_map_filter_le (f : Nat → Nat) (p : Nat → Bool) (l : List Nat) :
    ((l.filter p).map f).sum ≤ (l.map f).sum := by
  induction l with
  | nil => simp
  | cons x xs ih =>
    simp only [List.filter_cons]
    split
    · simp only [List.map_cons, List.sum_cons]; omega
    · simp only [List.map_cons, List.sum_cons]; omega

theorem seconds_le_seconds {a b : Nat} (h : a ≤ b) : seconds a ≤ seconds b := by
  unfold seconds usec_per_sec
  have : (a : Int) ≤ (b : Int) := Int.ofNat_le.2 h
  omega

theorem expired_iff (m : MACManager) (now : Int) (it : Entry) :
    expired m now it = true
      ↔ it.slot.last_heard_time
            < now - seconds ((cycle_length m * m.cfg_.expire_cycles) % 4294967296)
          ∧ it.slot.src ≠ m.cfg_.modem_id ∧ it.slot.src ≠ BROADCAST_ID := by
  simp [expired, and_assoc]

theorem expire_first_none_iff (m : MACManager) (now : Int) :
    expire_first m now = none ↔ ∀ it ∈ m.id2slot_, expired m now it = false := by
  simp [expire_first, List.find?_eq_none]

/-- The first entry that passes the test is an entry of the table that passes the test,
and no entry before it does. -/
theorem expire_first_some (m : MACManager) (now : Int) (e : Entry)
    (h : expire_first m now = some e) :
    expired m now e = true
      ∧ ∃ pre post, m.id2slot_ = pre ++ e :: post ∧ ∀ x ∈ pre, expired m now x = false := by
  unfold expire_first at h
  obtain ⟨h1, pre, post, h2, h3⟩ := List.find?_eq_some.1 h
  exact ⟨h1, pre, post, h2, fun x hx => by simpa using h3 x hx⟩

/-- The loop of `expire_ids` has a result exactly when no entry passes its test, and the
result is the state it started from, with `reset` unset. -/
theorem expire_scan_eq_some (m : MACManager) (now : Int) (r : MACManager × Bool) :
    expire_scan m now = some r
      ↔ (∀ it ∈ m.id2slot_, expired m now it = false) ∧ r = (m, false) := by
  unfold expire_scan
  cases hf : expire_first m now with
  | none =>
    have hq := (expire_first_none_iff m now).1 hf
    simp only [Option.some.injEq]
    exact ⟨fun h => ⟨hq, h.symm⟩, fun h => h.2.symm⟩
  | some e =>
    have he := (expire_first_some m now e hf).1
    obtain ⟨-, pre, post, hsplit, -⟩ := expire_first_some m now e hf
    simp only [false_iff, not_and, reduceCtorEq]
    intro hq
    have := hq e (by rw [hsplit]; simp)
    rw [he] at this
    exact absurd this (by simp)

theorem expire_ids_eq_some (m m' : MACManager) (now : Int) :
    expire_ids m now = some m'
      ↔ (∀ it ∈ m.id2slot_, expired m now it = false) ∧ m' = m := by
  unfold expire_ids
  cases hs : expire_scan m now with
  | none =>
    simp only [false_iff, not_and, reduceCtorEq]
    intro hq _
    have := (expire_scan_eq_some m now (m, false)).2 ⟨hq, rfl⟩
    rw [hs] at this
    exact absurd this (by simp)
  | some r =>
    obtain ⟨hq, rfl⟩ := (expire_scan_eq_some m now r).1 hs
    simp only [Bool.false_eq_true, if_false, Option.some.injEq]
    exact ⟨fun h => ⟨hq, h.symm⟩, fun h => h.2.symm⟩

/-- A reference that `position_blank` puts into the sequence is in the table. -/
theorem position_blank_live (m m' : MACManager) (h : position_blank m = some m') :
    m'.id2slot_ = m.id2slot_
      ∧ ∀ x ∈ m'.slot_order_, x ∈ m.slot_order_ ∨ (slot_at m.id2slot_ x).isSome = true := by
  have hmem := mem_position_blank m m' h
  obtain ⟨b, hb, hlive, -, rfl⟩ := position_blank_some m m' h
  refine ⟨rfl, ?_⟩
  intro x hx
  rcases (hmem x).1 hx with h1 | h1
  · exact Or.inl h1
  · rw [hb] at h1
    cases h1
    exact Or.inr hlive

/-- A reference that `process_cycle_size_change` puts into the sequence is in the table. -/
theorem process_cycle_size_change_live (m m' : MACManager) (now : Int)
    (h : process_cycle_size_change m now = some m') :
    m'.id2slot_ = m.id2slot_
      ∧ ∀ x ∈ m'.slot_order_, x ∈ m.slot_order_ ∨ (slot_at m.id2slot_ x).isSome = true := by
  unfold process_cycle_size_change at h
  split at h
  · simp at h
  · rename_i m1 t hn
    obtain ⟨-, rfl, rfl⟩ := next_cycle_time_some m m1 now t hn
    dsimp only at h
    split at h
    · simp only [Option.map_eq_some'] at h
      obtain ⟨m3, hm3, rfl⟩ := h
      obtain ⟨h1, h2⟩ := position_blank_live _ _ hm3
      exact ⟨h1, h2⟩
    · simp only [Option.some.injEq] at h
      subst h
      exact ⟨rfl, fun x hx => Or.inl hx⟩

/-- The scheduling part of a completed tick in auto-discovery mode: no entry passed the
test of `expire_ids`, and the result is that of the lines after it. -/
theorem advance_auto_some (m m' : MACManager) (S : Slot) (now : Int)
    (hmode : m.cfg_.type = MACType.MAC_AUTO_DECENTRALIZED)
    (h : advance m S now = some m') :
    (∀ it ∈ m.id2slot_, expired m now it = false)
      ∧ finish_auto_tick { m with current_slot_ := cursor_incr m.slot_order_ m.current_slot_ }
          = some m' := by
  unfold advance at h
  simp only [hmode] at h
  split at h
  · simp at h
  · rename_i m2 hexp
    obtain ⟨hq, rfl⟩ := (expire_ids_eq_some _ m2 now).1 hexp
    exact ⟨hq, h⟩

/-- The scheduling part of a tick in auto-discovery mode when no entry of the table
passes the test of `expire_ids`. -/
theorem advance_auto_quiet (m : MACManager) (S : Slot) (now : Int)
    (hauto : m.cfg_.type = MACType.MAC_AUTO_DECENTRALIZED)
    (hquiet : ∀ it ∈ m.id2slot_, expired m now it = false) :
    advance m S now
      = finish_auto_tick
          { m with current_slot_ := cursor_incr m.slot_order_ m.current_slot_ } := by
  have hexp : expire_ids { m with current_slot_ := cursor_incr m.slot_order_ m.current_slot_ }
      now = some { m with current_slot_ := cursor_incr m.slot_order_ m.current_slot_ } :=
    (expire_ids_eq_some _ _ now).2 ⟨hquiet, rfl⟩
  unfold advance
  simp only [hauto, hexp]

/-- The scheduling part of a tick in auto-discovery mode when an entry of the table
passes the test of `expire_ids`: no defined result. -/
theorem advance_auto_evicting (m : MACManager) (S : Slot) (now : Int) (e : Entry)
    (hauto : m.cfg_.type = MACType.MAC_AUTO_DECENTRALIZED)
    (he : e ∈ m.id2slot_) (hexp : expired m now e = true) :
    advance m S now = none := by
  cases h : advance m S now with
  | none => rfl
  | some m' =>
    have := (advance_auto_some m m' S now hauto h).1 e he
    rw [hexp] at this
    exact absurd this (by simp)

theorem list_next_append (h : Nat) (pre post : List Nat) (hpre : h ∉ pre) :
    list_next h (pre ++ h :: post) = list_begin post := by
  induction pre with
  | nil => simp [list_next]
  | cons x xs ih =>
    have hx : ¬ x = h := fun q => hpre (by simp [q])
    have hxs : h ∉ xs := fun q => hpre (by simp [q])
    simp only [List.cons_append, list_next, hx, if_false]
    exact ih hxs

/-- A tick in polled or fixed mode with the cursor on the node holding `h`. -/
theorem send_poll_fixed (m : MACManager) (now : Int) (pre post : List Nat) (h : Nat) (S : Slot)
    (hmode : m.cfg_.type = MACType.MAC_POLLED ∨ m.cfg_.type = MACType.MAC_FIXED_DECENTRALIZED)
    (hord : m.slot_order_ = pre ++ h :: post) (hpre : h ∉ pre)
    (hcur : m.current_slot_ = Cursor.node h) (hS : slot_at m.id2slot_ h = some S) :
    send_poll m ErrorCode.success now
      = some ({ m with
          current_slot_ :=
            if list_begin post = Cursor.end_ then list_begin m.slot_order_ else list_begin post,
          next_slot_t_ := m.next_slot_t_ + seconds S.slot_seconds,
          timer_ := some (m.next_slot_t_ + seconds S.slot_seconds),
          timer_is_running_ := true }, poll_signals m.cfg_ S) := by
  have hin : h ∈ m.slot_order_ := by rw [hord]; simp
  have hcs : current_slot m = some S := by
    unfold current_slot
    rw [hcur]
    simp [hin, hS]
  have hincr : cursor_incr m.slot_order_ m.current_slot_ = list_begin post := by
    rw [hcur, hord]
    exact list_next_append h pre post hpre
  unfold send_poll
  simp only [hcs]
  unfold advance
  simp only [hincr]
  rcases hmode with hm | hm
  · simp only [hm, restart_timer]
    split <;> simp
  · simp only [hm, restart_timer]
    split <;> simp

theorem seconds_add (a b : Nat) : seconds a + seconds b = seconds (a + b) := by
  unfold seconds
  push_cast
  ring

/-- The slots under two aligned splits of the sequence and of the list of its slots. -/
theorem split_slots (tbl : List Entry) (pre post : List Nat) (h : Nat)
    (spre spost : List Slot) (S : Slot)
    (hmap : (pre ++ h :: post).map (slot_at tbl) = (spre ++ S :: spost).map some)
    (hlen : pre.length = spre.length) :
    slot_at tbl h = some S ∧ post.map (slot_at tbl) = spost.map some := by
  rw [List.map_append, List.map_append] at hmap
  have h2 := (List.append_inj hmap (by simp [hlen])).2
  simp only [List.map_cons, List.cons.injEq] at h2
  exact h2

/-- One tick in polled or fixed mode, in terms of `shifted`: from the position
`(q, pre, h, post)` (`q` whole cycles done, cursor on `h` after the slots `pre`) to the
next position. -/
theorem fixed_tick_step (m0 : MACManager) (sl : List Slot)
    (hmode : m0.cfg_.type = MACType.MAC_POLLED ∨ m0.cfg_.type = MACType.MAC_FIXED_DECENTRALIZED)
    (hnd : m0.slot_order_.Nodup)
    (hmap : m0.slot_order_.map (slot_at m0.id2slot_) = sl.map some)
    (q : Nat) (pre post : List Nat) (h : Nat) (spre spost : List Slot) (S : Slot)
    (ho : m0.slot_order_ = pre ++ h :: post) (hs : sl = spre ++ S :: spost)
    (hlen : pre.length = spre.length) (now : Int) :
    ∃ (q' : Nat) (pre' post' : List Nat) (h' : Nat) (spre' spost' : List Slot) (S' : Slot),
      m0.slot_order_ = pre' ++ h' :: post' ∧ sl = spre' ++ S' :: spost'
        ∧ pre'.length = spre'.length
        ∧ q' * sl.length + pre'.length = q * sl.length + pre.length + 1
        ∧ q' * (sl.map (fun s => s.slot_seconds)).sum
              + (spre'.map (fun s => s.slot_seconds)).sum
            = q * (sl.map (fun s => s.slot_seconds)).sum
              + (spre.map (fun s => s.slot_seconds)).sum + S.slot_seconds
        ∧ send_poll (shifted m0 h (q * (sl.map (fun s => s.slot_seconds)).sum
              + (spre.map (fun s => s.slot_seconds)).sum)) ErrorCode.success now
            = some (shifted m0 h' (q' * (sl.map (fun s => s.slot_seconds)).sum
              + (spre'.map (fun s => s.slot_seconds)).sum), poll_signals m0.cfg_ S) := by
  have hmap' := hmap
  rw [ho, hs] at hmap'
  obtain ⟨hS, hpost⟩ := split_slots _ _ _ _ _ _ _ hmap' hlen
  have hpre : h ∉ pre := by
    have := hnd
    rw [ho] at this
    have h3 := (List.nodup_append.1 this).2.2
    intro hin
    exact h3 hin (by simp)
  have htick := send_poll_fixed
    (shifted m0 h (q * (sl.map (fun s => s.slot_seconds)).sum
      + (spre.map (fun s => s.slot_seconds)).sum)) now pre post h S hmode ho hpre rfl hS
  rw [htick]
  cases post with
  | nil =>
    -- wrap to the first slot
    have hspost : spost = [] := by
      cases spost with
      | nil => rfl
      | cons a b => simp at hpost
    subst hspost
    cases hopre : m0.slot_order_ with
    | nil => rw [hopre] at ho; simp at ho
    | cons h0 rest0 =>
      cases hsl : sl with
      | nil => rw [hsl] at hs; simp at hs
      | cons S0 srest0 =>
        refine ⟨q + 1, [], rest0, h0, [], srest0, S0, rfl, rfl, rfl, ?_, ?_, ?_⟩
        · have hl : sl.length = spre.length + 1 := by rw [hs]; simp
          rw [← hsl, hl, hlen]
          simp only [List.length_nil]
          ring
        · rw [← hsl]
          have hsum : (sl.map (fun s => s.slot_seconds)).sum
              = (spre.map (fun s => s.slot_seconds)).sum + S.slot_seconds := by
            rw [hs]; simp
          simp only [List.map_nil, List.sum_nil]
          rw [Nat.add_mul, Nat.one_mul]
          omega
        · rw [← hsl]
          have hsum : (sl.map (fun s => s.slot_seconds)).sum
              = (spre.map (fun s => s.slot_seconds)).sum + S.slot_seconds := by
            rw [hs]; simp
          have he : (q + 1) * (sl.map (fun s => s.slot_seconds)).sum
                + (([] : List Slot).map (fun s => s.slot_seconds)).sum
              = q * (sl.map (fun s => s.slot_seconds)).sum
                + (spre.map (fun s => s.slot_seconds)).sum + S.slot_seconds := by
            simp only [List.map_nil, List.sum_nil]
            rw [Nat.add_mul, Nat.one_mul]
            omega
          rw [he]
          simp only [shifted, list_begin, if_true, hopre, Int.add_assoc, seconds_add]
  | cons h2 post' =>
    cases spost with
    | nil => simp at hpost
    | cons S2 spost' =>
      refine ⟨q, pre ++ [h], post', h2, spre ++ [S], spost', S2, ?_, ?_, ?_, ?_, ?_, ?_⟩
      · rw [ho]; simp
      · rw [hs]; simp
      · simp [hlen]
      · simp only [List.length_append, List.length_singleton]; omega
      · simp only [List.map_append, List.sum_append, List.map_cons, List.map_nil, List.sum_cons,
          List.sum_nil]
        omega
      · have he : q * (sl.map (fun s => s.slot_seconds)).sum
              + ((spre ++ [S]).map (fun s => s.slot_seconds)).sum
            = q * (sl.map (fun s => s.slot_seconds)).sum
              + (spre.map (fun s => s.slot_seconds)).sum + S.slot_seconds := by
          simp only [List.map_append, List.sum_append, List.map_cons, List.map_nil,
            List.sum_cons, List.sum_nil]
          omega
        rw [he]
        simp [shifted, list_begin, Int.add_assoc, seconds_add]

/-- Any number of ticks in polled or fixed mode, in terms of `shifted`. -/
theorem fixed_ticks (m0 : MACManager) (sl : List Slot)
    (hmode : m0.cfg_.type = MACType.MAC_POLLED ∨ m0.cfg_.type = MACType.MAC_FIXED_DECENTRALIZED)
    (hnd : m0.slot_order_.Nodup)
    (hmap : m0.slot_order_.map (slot_at m0.id2slot_) = sl.map some) (ts : List Int) :
    ∀ (q : Nat) (pre post : List Nat) (h : Nat) (spre spost : List Slot) (S : Slot),
      m0.slot_order_ = pre ++ h :: post → sl = spre ++ S :: spost →
      pre.length = spre.length →
      ∃ (q' : Nat) (pre' post' : List Nat) (h' : Nat) (spre' spost' : List Slot) (S' : Slot),
        m0.slot_order_ = pre' ++ h' :: post' ∧ sl = spre' ++ S' :: spost'
          ∧ pre'.length = spre'.length
          ∧ q' * sl.length + pre'.length = q * sl.length + pre.length + ts.length
          ∧ after_ticks (shifted m0 h (q * (sl.map (fun s => s.slot_seconds)).sum
                + (spre.map (fun s => s.slot_seconds)).sum)) ts
              = some (shifted m0 h' (q' * (sl.map (fun s => s.slot_seconds)).sum
                + (spre'.map (fun s => s.slot_seconds)).sum)) := by
  induction ts with
  | nil =>
    intro q pre post h spre spost S ho hs hlen
    exact ⟨q, pre, post, h, spre, spost, S, ho, hs, hlen, rfl, rfl⟩
  | cons now rest ih =>
    intro q pre post h spre spost S ho hs hlen
    obtain ⟨q1, pre1, post1, h1, spre1, spost1, S1, ho1, hs1, hlen1, hk1, -, htick⟩ :=
      fixed_tick_step m0 sl hmode hnd hmap q pre post h spre spost S ho hs hlen now
    obtain ⟨q2, pre2, post2, h2, spre2, spost2, S2, ho2, hs2, hlen2, hk2, hrun⟩ :=
      ih q1 pre1 post1 h1 spre1 spost1 S1 ho1 hs1 hlen1
    refine ⟨q2, pre2, post2, h2, spre2, spost2, S2, ho2, hs2, hlen2, ?_, ?_⟩
    · simp only [List.length_cons]; omega
    · simp only [after_ticks, htick]
      exact hrun

theorem div_mod_unique (n q p q' p' : Nat) (hp : p < n) (hp' : p' < n)
    (h : q * n + p = q' * n + p') : q = q' ∧ p = p' := by
  have hn : 0 < n := by omega
  have h1 : (q * n + p) / n = q := by
    rw [Nat.add_comm, Nat.add_mul_div_right _ _ hn, Nat.div_eq_of_lt hp, Nat.zero_add]
  have h2 : (q' * n + p') / n = q' := by
    rw [Nat.add_comm, Nat.add_mul_div_right _ _ hn, Nat.div_eq_of_lt hp', Nat.zero_add]
  have h3 : (q * n + p) % n = p := by
    rw [Nat.add_comm, Nat.add_mul_mod_self_right, Nat.mod_eq_of_lt hp]
  have h4 : (q' * n + p') % n = p' := by
    rw [Nat.add_comm, Nat.add_mul_mod_self_right, Nat.mod_eq_of_lt hp']
  rw [h] at h1 h3
  exact ⟨h1.symm.trans h2, h3.symm.trans h4⟩

/-- What `startup` of an idle manager leaves in polled or fixed mode with a non-empty
cycle: fresh handles in the order of the cycle, the cursor on the first, the timer set. -/
theorem startup_idle_fixed_state (E : Nat) (cfg : MACConfig) (t0 : Int) (m0 : MACManager)
    (hmode : cfg.type = MACType.MAC_POLLED ∨ cfg.type = MACType.MAC_FIXED_DECENTRALIZED)
    (hstart : startup (idle E) cfg t0 = some m0) (hne : cfg.cycle ≠ []) :
    m0.cfg_ = cfg ∧ m0.slot_order_.Nodup ∧ handles_fresh m0
      ∧ m0.slot_order_.map (slot_at m0.id2slot_) = cfg.cycle.map some
      ∧ 0 < cycle_length m0
      ∧ m0.next_slot_t_ = universal_day t0
          + seconds ((since_day_start t0 / cycle_length m0 + 1) * cycle_length m0)
      ∧ ∃ h0 rest, m0.slot_order_ = h0 :: rest ∧ m0 = shifted m0 h0 0 := by
  have hna : ({ idle E with cfg_ := cfg } : MACManager).cfg_.type
      ≠ MACType.MAC_AUTO_DECENTRALIZED := by
    rcases hmode with h | h <;> simp [h]
  rw [startup_idle_fixed E cfg t0 hmode] at hstart
  simp only [Option.map_eq_some'] at hstart
  obtain ⟨m1, h1, rfl⟩ := hstart
  obtain ⟨hf, hcfg, -, -, -, hord, hmap, hmore⟩ :=
    add_slots_fixed t0 cfg.cycle _ m1 hna (handles_fresh_idle E cfg) h1
  obtain ⟨hcur, hpos, ht, htm, hrun⟩ := hmore hne
  have hord' : m1.slot_order_ = List.range' 0 cfg.cycle.length := by
    simpa [idle] using hord
  have hmap' : m1.slot_order_.map (slot_at m1.id2slot_) = cfg.cycle.map some := by
    simpa [idle] using hmap
  have hone : m1.slot_order_ ≠ [] := by
    intro h0
    rw [h0] at hmap'
    cases hc : cfg.cycle with
    | nil => exact hne hc
    | cons a b => rw [hc] at hmap'; simp at hmap'
  have hfin : startup_finish m1 = { restart_timer m1 with startup_done_ := true } := by
    unfold startup_finish
    simp [hone]
  rw [hfin]
  refine ⟨hcfg, ?_, hf, hmap', hpos, ht, ?_⟩
  · show m1.slot_order_.Nodup
    rw [hord']
    exact List.nodup_range' _ _
  · cases ho : m1.slot_order_ with
    | nil => exact absurd ho hone
    | cons h0 rest =>
      refine ⟨h0, rest, ho, ?_⟩
      have hc : m1.current_slot_ = Cursor.node h0 := by rw [hcur, ho]; rfl
      simp [shifted, restart_timer, hc, seconds]

theorem fixed_inv_startup (E : Nat) (cfg : MACConfig) (now : Int) (m : MACManager)
    (hmode : cfg.type = MACType.MAC_POLLED ∨ cfg.type = MACType.MAC_FIXED_DECENTRALIZED)
    (hstart : startup (idle E) cfg now = some m) : fixed_inv now m := by
  by_cases hne : cfg.cycle = []
  · rw [startup_idle_fixed E cfg now hmode, hne] at hstart
    simp only [add_slots, Option.map_some', Option.some.injEq] at hstart
    subst hstart
    have hfin : startup_finish { idle E with cfg_ := cfg }
        = { idle E with cfg_ := cfg, startup_done_ := true } := by
      simp [startup_finish, idle]
    rw [hfin]
    refine ⟨hmode, rfl, ?_, ?_, Or.inl rfl⟩
    · constructor <;> intro x hx <;> simp [idle] at hx
    · simp [idle]
  · obtain ⟨hcfg, hnd, hf, -, -, ht, h0, rest, ho, hm0⟩ :=
      startup_idle_fixed_state E cfg now m hmode hstart hne
    have hsd : m.startup_done_ = true := by
      rw [startup_idle_fixed E cfg now hmode] at hstart
      simp only [Option.map_eq_some'] at hstart
      obtain ⟨m1, -, rfl⟩ := hstart
      rfl
    refine ⟨by rw [hcfg]; exact hmode, hsd, hf, hnd, Or.inr ?_⟩
    refine ⟨[], rest, h0, since_day_start now / cycle_length m + 1, ho, ?_, ?_⟩
    · rw [hm0]; rfl
    · rw [ht]
      simp

theorem fixed_inv_add_slot (t : Int) (m m' : MACManager) (s : Slot) (now : Int) (h : Nat)
    (hinv : fixed_inv t m) (hadd : add_slot m s now = some (m', h)) : fixed_inv now m' := by
  obtain ⟨hmode, hsd, hf, hnd, -⟩ := hinv
  have hna : m.cfg_.type ≠ MACType.MAC_AUTO_DECENTRALIZED := by
    rcases hmode with h | h <;> simp [h]
  obtain ⟨-, hf', hcfg, -, -, hsd', -, hord, -, hcur, -, -, -, ht, -, -⟩ :=
    add_slot_fixed_some m m' s now h hna hf hadd
  refine ⟨by rw [hcfg]; exact hmode, by rw [hsd']; exact hsd, hf', ?_, Or.inr ?_⟩
  · rw [hord]
    apply List.Nodup.append hnd (List.nodup_singleton _)
    intro x hx hx'
    have := hf.2 x hx
    simp at hx'
    omega
  · cases ho : m'.slot_order_ with
    | nil => rw [hord] at ho; simp at ho
    | cons h0 rest =>
      refine ⟨[], rest, h0, since_day_start now / cycle_length m' + 1, rfl, ?_, ?_⟩
      · rw [hcur, ho]; rfl
      · rw [ht]
        simp

/-- The state `remove_slot` works on once it has erased the entry with handle `h`. -/
theorem cycle_length_pos_order_ne_nil (m : MACManager) (h : cycle_length m ≠ 0) :
    m.slot_order_ ≠ [] := by
  intro h0
  apply h
  simp [cycle_length, h0]

/-- `remove_slot` outside auto mode when an equal slot is found: it has no result when
the remaining cycle length is 0, and otherwise realigns and puts the cursor on the first
remaining slot. -/
theorem remove_slot_fixed_found (m : MACManager) (s : Slot) (now : Int) (e : Entry)
    (hna : m.cfg_.type ≠ MACType.MAC_AUTO_DECENTRALIZED)
    (hfound : m.id2slot_.find? (fun e => slot_eq s e.slot) = some e) :
    remove_slot m s now =
      if cycle_length (without_slot m e.handle) = 0 then none
      else some ({ without_slot m e.handle with
        current_slot_ := list_begin (list_remove m.slot_order_ e.handle),
        cycles_since_day_start_ :=
          since_day_start now / cycle_length (without_slot m e.handle) + 1,
        next_slot_t_ := universal_day now + seconds
          ((since_day_start now / cycle_length (without_slot m e.handle) + 1)
            * cycle_length (without_slot m e.handle)),
        timer_ := some (universal_day now + seconds
          ((since_day_start now / cycle_length (without_slot m e.handle) + 1)
            * cycle_length (without_slot m e.handle))),
        timer_is_running_ := true }, true) := by
  unfold remove_slot
  simp only [hfound]
  have hna' : (without_slot m e.handle).cfg_.type ≠ MACType.MAC_AUTO_DECENTRALIZED := hna
  have hp := process_cycle_size_change_fixed (without_slot m e.handle) now hna'
  unfold without_slot at hp ⊢
  rw [hp]
  by_cases h0 : cycle_length { m with slot_order_ := list_remove m.slot_order_ e.handle,
                                      id2slot_ := multimap_erase m.id2slot_ e.handle } = 0
  · simp only [h0, if_true]
  · have hne := cycle_length_pos_order_ne_nil _ h0
    simp only at hne
    simp only [h0, if_false, hne, Option.isSome_some, if_true]

/-- `remove_slot` when no equal slot is found: `process_cycle_size_change` runs all the
same, and the cursor stays where it is. -/
theorem remove_slot_fixed_absent (m : MACManager) (s : Slot) (now : Int)
    (hna : m.cfg_.type ≠ MACType.MAC_AUTO_DECENTRALIZED)
    (hfound : m.id2slot_.find? (fun e => slot_eq s e.slot) = none) :
    remove_slot m s now =
      if cycle_length m = 0 then none
      else some ({ m with
        cycles_since_day_start_ := since_day_start now / cycle_length m + 1,
        next_slot_t_ := universal_day now
          + seconds ((since_day_start now / cycle_length m + 1) * cycle_length m),
        timer_ := some (universal_day now
          + seconds ((since_day_start now / cycle_length m + 1) * cycle_length m)),
        timer_is_running_ := true }, false) := by
  unfold remove_slot
  simp only [hfound]
  rw [process_cycle_size_change_fixed _ _ hna]
  by_cases h0 : cycle_length m = 0
  · simp only [h0, if_true]
  · have hne := cycle_length_pos_order_ne_nil _ h0
    simp [h0, hne]

theorem fixed_inv_remove_slot (t : Int) (m m' : MACManager) (s : Slot) (now : Int)
    (hinv : fixed_inv t m) (hrem : remove_slot m s now = some (m', true)) :
    fixed_inv now m' := by
  obtain ⟨hmode, hsd, hf, hnd, -⟩ := hinv
  have hna : m.cfg_.type ≠ MACType.MAC_AUTO_DECENTRALIZED := by
    rcases hmode with h | h <;> simp [h]
  cases hfound : m.id2slot_.find? (fun e => slot_eq s e.slot) with
  | none =>
    rw [remove_slot_fixed_absent m s now hna hfound] at hrem
    split at hrem <;> simp at hrem
  | some e =>
    rw [remove_slot_fixed_found m s now e hna hfound] at hrem
    split at hrem
    · simp at hrem
    · simp only [Option.some.injEq, Prod.mk.injEq, and_true] at hrem
      subst hrem
      refine ⟨hmode, hsd, ?_, List.Nodup.filter _ hnd, ?_⟩
      · constructor
        · intro x hx
          exact hf.1 x (List.mem_filter.1 hx).1
        · intro x hx
          exact hf.2 x (List.mem_filter.1 hx).1
      · by_cases ho : list_remove m.slot_order_ e.handle = []
        · exact Or.inl ho
        · obtain ⟨h0, rest, ho'⟩ := List.exists_cons_of_ne_nil ho
          right
          refine ⟨[], rest, h0,
            since_day_start now / cycle_length (without_slot m e.handle) + 1, ho', ?_, ?_⟩
          · show list_begin (list_remove m.slot_order_ e.handle) = Cursor.node h0
            rw [ho']; rfl
          · show universal_day now + _ = _
            simp only [List.map_nil, List.sum_nil, Nat.add_zero]
            rfl

theorem fixed_inv_tick (t : Int) (m m' : MACManager) (e : ErrorCode) (now : Int)
    (sigs : List Signal)
    (hinv : fixed_inv t m) (htick : send_poll m e now = some (m', sigs)) : fixed_inv t m' := by
  cases e with
  | operation_aborted =>
    simp only [send_poll, Option.some.injEq, Prod.mk.injEq] at htick
    rw [← htick.1]
    exact hinv
  | success =>
    obtain ⟨hmode, hsd, hf, hnd, hpos⟩ := hinv
    rcases hpos with hempty | ⟨pre, post, h, k, ho, hcur, ht⟩
    · have hcs : current_slot m = none := by
        unfold current_slot
        cases m.current_slot_ with
        | end_ => rfl
        | node x => simp [hempty]
      simp [send_poll, hcs] at htick
    · have hin : h ∈ m.slot_order_ := by rw [ho]; simp
      have hpre : h ∉ pre := by
        have := hnd
        rw [ho] at this
        intro hin'
        exact (List.nodup_append.1 this).2.2 hin' (by simp)
      cases hS : slot_at m.id2slot_ h with
      | none =>
        have hcs : current_slot m = none := by
          unfold current_slot
          rw [hcur]
          simp [hin, hS]
        simp [send_poll, hcs] at htick
      | some S =>
        rw [send_poll_fixed m now pre post h S hmode ho hpre hcur hS] at htick
        simp only [Option.some.injEq, Prod.mk.injEq] at htick
        obtain ⟨rfl, -⟩ := htick
        have hss : slot_seconds_of m.id2slot_ h = S.slot_seconds := by
          simp [slot_seconds_of, hS]
        have hL : cycle_length m = (pre.map (slot_seconds_of m.id2slot_)).sum
            + S.slot_seconds + (post.map (slot_seconds_of m.id2slot_)).sum := by
          unfold cycle_length
          rw [ho]
          simp only [List.map_append, List.map_cons, List.sum_append, List.sum_cons, hss]
          omega
        refine ⟨hmode, hsd, hf, hnd, Or.inr ?_⟩
        cases post with
        | nil =>
          obtain ⟨h0, rest, ho'⟩ : ∃ h0 rest, m.slot_order_ = h0 :: rest := by
            cases hq : m.slot_order_ with
            | nil => rw [hq] at hin; simp at hin
            | cons a b => exact ⟨a, b, rfl⟩
          refine ⟨[], rest, h0, k + 1, ho', ?_, ?_⟩
          · show (if list_begin [] = Cursor.end_ then list_begin m.slot_order_
                else list_begin []) = Cursor.node h0
            rw [ho']; rfl
          · show m.next_slot_t_ + seconds S.slot_seconds
                = universal_day t + seconds ((k + 1) * cycle_length m
                    + (([] : List Nat).map (slot_seconds_of m.id2slot_)).sum)
            rw [ht, Int.add_assoc, seconds_add]
            simp only [List.map_nil, List.sum_nil] at hL ⊢
            rw [Nat.add_mul, Nat.one_mul]
            congr 2
            omega
        | cons h2 post' =>
          refine ⟨pre ++ [h], post', h2, k, ?_, ?_, ?_⟩
          · show m.slot_order_ = _
            rw [ho]; simp
          · rfl
          · show m.next_slot_t_ + seconds S.slot_seconds
                = universal_day t + seconds (k * cycle_length m
                    + ((pre ++ [h]).map (slot_seconds_of m.id2slot_)).sum)
            rw [ht, Int.add_assoc, seconds_add]
            simp only [List.map_append, List.map_cons, List.map_nil, List.sum_append,
              List.sum_cons, List.sum_nil, hss]
            congr 2
            omega

theorem fixed_inv_incoming (t : Int) (m m' : MACManager) (msg : ModemMsgBase) (now : Int)
    (hinv : fixed_inv t m) (hin : handle_modem_all_incoming m msg now = some m') :
    fixed_inv t m' := by
  have hna : m.cfg_.type ≠ MACType.MAC_AUTO_DECENTRALIZED := by
    rcases hinv.1 with h | h <;> simp [h]
  simp only [handle_modem_all_incoming, hna, ne_eq, not_false_eq_true, if_true,
    Option.some.injEq] at hin
  rw [← hin]
  exact hinv

theorem fixed_inv_again (t : Int) (m m' : MACManager) (cfg : MACConfig) (now : Int)
    (hinv : fixed_inv t m) (hst : startup m cfg now = some m') : fixed_inv t m' := by
  have hsd := hinv.2.1
  simp only [startup, hsd, if_true, Option.some.injEq] at hst
  rw [← hst]
  exact hinv

theorem startup_finish_done (m : MACManager) : (startup_finish m).startup_done_ = true := by
  unfold startup_finish
  split <;> rfl

theorem startup_finish_cfg (m : MACManager) : (startup_finish m).cfg_ = m.cfg_ := by
  unfold startup_finish
  split <;> rfl

/-- What `add_slot` leaves alone, in every mode. -/
theorem add_slot_frame (m m' : MACManager) (s : Slot) (now : Int) (h : Nat)
    (hadd : add_slot m s now = some (m', h)) :
    h = m.next_handle ∧ m'.cfg_ = m.cfg_ ∧ m'.blank_it_ = m.blank_it_
      ∧ m'.ENTROPY = m.ENTROPY ∧ m'.startup_done_ = m.startup_done_
      ∧ m'.next_handle = m.next_handle + 1
      ∧ m'.id2slot_ = multimap_insert { handle := m.next_handle, slot := s } m.id2slot_ := by
  rw [add_slot_eq] at hadd
  simp only [Option.map_eq_some', Prod.mk.injEq] at hadd
  obtain ⟨m2, hp, rfl, rfl⟩ := hadd
  obtain ⟨-, htbl, hcfg, hnh, hb, hE, hsd, -⟩ := process_cycle_size_change_frame _ _ now hp
  exact ⟨rfl, hcfg, hb, hE, hsd, hnh, htbl⟩

theorem add_slots_cfg (now : Int) (l : List Slot) :
    ∀ (m m' : MACManager), add_slots m now l = some m' → m'.cfg_ = m.cfg_ := by
  induction l with
  | nil =>
    intro m m' h
    simp only [add_slots, Option.some.injEq] at h
    rw [← h]
  | cons s rest ih =>
    intro m m' h
    simp only [add_slots] at h
    split at h
    · simp at h
    · rename_i m1 h1 hadd
      exact (ih m1 m' h).trans (add_slot_frame m m1 s now h1 hadd).2.1

/-- A `startup` that is not turned away stores the configuration, and in the three known
modes sets `startup_done_`. -/
theorem startup_accepted (m m' : MACManager) (cfg : MACConfig) (now : Int)
    (hidle : m.startup_done_ = false) (hst : startup m cfg now = some m') :
    m'.cfg_ = cfg ∧ (cfg.type ≠ MACType.MAC_NONE → m'.startup_done_ = true) := by
  unfold startup at hst
  simp only [hidle, Bool.false_eq_true, if_false] at hst
  cases hty : cfg.type with
  | MAC_NONE =>
    simp only [hty, Option.some.injEq] at hst
    subst hst
    exact ⟨rfl, fun h => absurd rfl h⟩
  | MAC_POLLED =>
    simp only [hty, Option.map_eq_some'] at hst
    obtain ⟨m1, h1, rfl⟩ := hst
    exact ⟨(startup_finish_cfg m1).trans (add_slots_cfg now cfg.cycle _ m1 h1),
      fun _ => startup_finish_done m1⟩
  | MAC_FIXED_DECENTRALIZED =>
    simp only [hty, Option.map_eq_some'] at hst
    obtain ⟨m1, h1, rfl⟩ := hst
    exact ⟨(startup_finish_cfg m1).trans (add_slots_cfg now cfg.cycle _ m1 h1),
      fun _ => startup_finish_done m1⟩
  | MAC_AUTO_DECENTRALIZED =>
    simp only [hty] at hst
    split at hst
    · simp at hst
    · rename_i m1 hb hadd1
      split at hst
      · simp at hst
      · rename_i m2 h2 hadd2
        split at hst
        · simp at hst
        · rename_i m4 t hn
          simp only [Option.map_eq_some'] at hst
          obtain ⟨m5, hp, rfl⟩ := hst
          obtain ⟨-, hm4, -⟩ := next_cycle_time_some _ _ now t hn
          obtain ⟨b, -, -, -, hm5⟩ := position_blank_some _ _ hp
          have c1 := (add_slot_frame _ m1 _ now hb hadd1).2.1
          have c2 := (add_slot_frame _ m2 _ now h2 hadd2).2.1
          refine ⟨?_, fun _ => startup_finish_done m5⟩
          rw [startup_finish_cfg, hm5, hm4]
          exact c2.trans c1

/-- In a table of distinct nodes, the node of an entry holds the slot of that entry. -/
theorem slot_at_of_mem (tbl : List Entry) (e : Entry)
    (hnd : (tbl.map (fun x => x.handle)).Nodup) (he : e ∈ tbl) :
    slot_at tbl e.handle = some e.slot := by
  induction tbl with
  | nil => simp at he
  | cons y ys ih =>
    simp only [List.map_cons, List.nodup_cons] at hnd
    simp only [slot_at, List.find?_cons]
    rcases List.mem_cons.1 he with rfl | he'
    · simp
    · have hne : ¬ y.handle = e.handle := by
        intro heq
        exact hnd.1 (List.mem_map.2 ⟨e, he', heq.symm⟩)
      simp only [hne, decide_False]
      exact ih hnd.2 he'

theorem src_of_of_mem (tbl : List Entry) (e : Entry)
    (hnd : (tbl.map (fun x => x.handle)).Nodup) (he : e ∈ tbl) :
    src_of tbl e.handle = e.slot.src := by
  simp [src_of, slot_at_of_mem tbl e hnd he]

theorem slot_seconds_of_of_mem (tbl : List Entry) (e : Entry)
    (hnd : (tbl.map (fun x => x.handle)).Nodup) (he : e ∈ tbl) :
    slot_seconds_of tbl e.handle = e.slot.slot_seconds := by
  simp [slot_seconds_of, slot_at_of_mem tbl e hnd he]

/-- Over the nodes of a table of distinct nodes, `src_of` reads the `src` of the entries. -/
theorem map_src_of_handles (tbl : List Entry) (hnd : (tbl.map (fun x => x.handle)).Nodup) :
    (tbl.map (fun x => x.handle)).map (src_of tbl) = tbl.map (fun x => x.slot.src) := by
  rw [List.map_map]
  apply List.map_congr_left
  intro e he
  exact src_of_of_mem tbl e hnd he

theorem map_slot_seconds_of_handles (tbl : List Entry)
    (hnd : (tbl.map (fun x => x.handle)).Nodup) :
    (tbl.map (fun x => x.handle)).map (slot_seconds_of tbl)
      = tbl.map (fun x => x.slot.slot_seconds) := by
  rw [List.map_map]
  apply List.map_congr_left
  intro e he
  exact slot_seconds_of_of_mem tbl e hnd he

theorem mem_list_remove (order : List Nat) (b x : Nat) :
    x ∈ list_remove order b ↔ x ∈ order ∧ x ≠ b := by
  simp [list_remove]

theorem list_remove_of_not_mem (l : List Nat) (b : Nat) (h : b ∉ l) : list_remove l b = l := by
  unfold list_remove
  rw [List.filter_eq_self]
  intro x hx
  have : x ≠ b := fun q => h (q ▸ hx)
  simpa using this

/-- Putting `b` back into the sequence it was removed from leaves the same references. -/
theorem reinsert_perm (order : List Nat) (b pos : Nat) (hb : b ∈ order) (hnd : order.Nodup) :
    ((list_remove order b).take pos ++ b :: (list_remove order b).drop pos).Perm order := by
  have h1 : ((list_remove order b).take pos ++ b :: (list_remove order b).drop pos).Perm
      (b :: list_remove order b) := by
    refine List.perm_middle.trans ?_
    rw [List.take_append_drop]
  have h2 : order.Perm (b :: list_remove order b) := by
    have := List.perm_cons_erase hb
    rw [hnd.erase_eq_filter b] at this
    have e : order.filter (fun x => x != b) = list_remove order b := by
      unfold list_remove
      apply List.filter_congr
      intro x _
      by_cases hx : x = b <;> simp [hx]
    rw [e] at this
    exact this
  exact h1.trans h2.symm

/-- Removing `b` again gives back the sequence `b` was put into. -/
theorem reinsert_remove (order : List Nat) (b pos : Nat) :
    list_remove ((list_remove order b).take pos ++ b :: (list_remove order b).drop pos) b
      = list_remove order b := by
  have hnb : b ∉ list_remove order b := by
    intro h
    exact ((mem_list_remove order b b).1 h).2 rfl
  have h1 : b ∉ (list_remove order b).take pos := fun h => hnb (List.mem_of_mem_take h)
  have h2 : b ∉ (list_remove order b).drop pos := fun h => hnb (List.mem_of_mem_drop h)
  have e : list_remove ((list_remove order b).take pos ++ b :: (list_remove order b).drop pos) b
      = list_remove ((list_remove order b).take pos) b
        ++ list_remove ((list_remove order b).drop pos) b := by
    unfold list_remove
    rw [List.filter_append, List.filter_cons]
    simp
  rw [e, list_remove_of_not_mem _ _ h1, list_remove_of_not_mem _ _ h2, List.take_append_drop]

theorem list_sort_sorted (tbl : List Entry) (order : List Nat) :
    ((list_sort tbl order).map (src_of tbl)).Pairwise (fun x y => x ≤ y) := by
  rw [List.pairwise_map]
  have inst1 : IsTotal Nat (fun a b => src_of tbl a ≤ src_of tbl b) :=
    ⟨fun a b => Nat.le_total _ _⟩
  have inst2 : IsTrans Nat (fun a b => src_of tbl a ≤ src_of tbl b) :=
    ⟨fun a b c h1 h2 => Nat.le_trans h1 h2⟩
  exact List.sorted_insertionSort (fun a b => src_of tbl a ≤ src_of tbl b) order

theorem sorted_rest_sort (b : Nat) (tbl : List Entry) (order : List Nat) :
    sorted_rest b tbl (list_sort tbl order) := by
  unfold sorted_rest list_remove
  have h := list_sort_sorted tbl order
  rw [List.pairwise_map] at h ⊢
  exact h.filter _

theorem auto_base_mem_blank (cfg : MACConfig) (nh b : Nat) (tbl : List Entry)
    (order : List Nat) (h : auto_base cfg nh b tbl order) : b ∈ order ∧ order.Nodup := by
  obtain ⟨-, hnd, ⟨e, he, heb, -⟩, hperm, -, -⟩ := h
  constructor
  · rw [hperm.mem_iff]
    exact List.mem_map.2 ⟨e, he, heb⟩
  · exact hperm.nodup_iff.2 hnd

theorem auto_base_reinsert (cfg : MACConfig) (nh b pos : Nat) (tbl : List Entry)
    (order : List Nat) (h : auto_base cfg nh b tbl order) :
    auto_base cfg nh b tbl (reinsert order b pos) := by
  obtain ⟨hb, hnodup⟩ := auto_base_mem_blank cfg nh b tbl order h
  obtain ⟨h1, h2, h3, h4, h5, h6⟩ := h
  exact ⟨h1, h2, h3, (reinsert_perm order b pos hb hnodup).trans h4, h5, h6⟩

theorem sorted_rest_reinsert (b pos : Nat) (tbl : List Entry) (order : List Nat)
    (h : sorted_rest b tbl order) : sorted_rest b tbl (reinsert order b pos) := by
  unfold sorted_rest reinsert
  rw [reinsert_remove]
  exact h

theorem auto_base_sort (cfg : MACConfig) (nh b : Nat) (tbl : List Entry) (order : List Nat)
    (h : auto_base cfg nh b tbl order) : auto_base cfg nh b tbl (list_sort tbl order) := by
  obtain ⟨h1, h2, h3, h4, h5, h6⟩ := h
  exact ⟨h1, h2, h3, (list_sort_perm tbl order).trans h4, h5, h6⟩

theorem auto_base_insert (cfg : MACConfig) (nh b : Nat) (tbl : List Entry) (order : List Nat)
    (s : Slot) (h : auto_base cfg nh b tbl order)
    (hss : s.slot_seconds = cfg.slot_seconds)
    (hsrc : cfg.modem_id ≠ BROADCAST_ID → ∀ e ∈ tbl, e.slot.src ≠ s.src) :
    auto_base cfg (nh + 1) b (multimap_insert { handle := nh, slot := s } tbl)
      (order ++ [nh]) := by
  obtain ⟨h1, h2, ⟨eb, heb, hebh, hebs⟩, h4, h5, h6⟩ := h
  have hperm := multimap_insert_perm { handle := nh, slot := s } tbl
  refine ⟨?_, ?_, ?_, ?_, ?_, ?_⟩
  · intro e he
    rcases (mem_multimap_insert _ _ _).1 he with rfl | he'
    · exact Nat.lt_succ_self _
    · exact Nat.lt_succ_of_lt (h1 e he')
  · rw [(hperm.map (fun e => e.handle)).nodup_iff]
    simp only [List.map_cons, List.nodup_cons]
    refine ⟨?_, h2⟩
    intro hin
    obtain ⟨e, he, heq⟩ := List.mem_map.1 hin
    have := h1 e he
    omega
  · exact ⟨eb, (mem_multimap_insert _ _ _).2 (Or.inr heb), hebh, hebs⟩
  · have p1 : (order ++ [nh]).Perm (nh :: order) := by
      rw [List.perm_comm]
      exact List.perm_append_singleton nh order |>.symm
    have p2 : (nh :: order).Perm (nh :: tbl.map (fun e => e.handle)) := List.Perm.cons nh h4
    have p3 := (hperm.map (fun e => e.handle)).symm
    simp only [List.map_cons] at p3
    exact p1.trans (p2.trans p3)
  · intro e he
    rcases (mem_multimap_insert _ _ _).1 he with rfl | he'
    · exact hss
    · exact h5 e he'
  · intro hid
    rw [(hperm.map (fun e => e.slot.src)).nodup_iff]
    simp only [List.map_cons, List.nodup_cons]
    refine ⟨?_, h6 hid⟩
    intro hin
    obtain ⟨e, he, heq⟩ := List.mem_map.1 hin
    exact hsrc hid e he heq

theorem map_handle_erase (tbl : List Entry) (h : Nat) :
    (multimap_erase tbl h).map (fun e => e.handle)
      = list_remove (tbl.map (fun e => e.handle)) h := by
  unfold multimap_erase list_remove
  rw [List.filter_map]
  rfl

theorem src_of_erase_ne (tbl : List Entry) (h x : Nat) (hne : x ≠ h) :
    src_of (multimap_erase tbl h) x = src_of tbl x := by
  simp [src_of, slot_at_multimap_erase_ne tbl h x hne]

theorem list_remove_comm (l : List Nat) (a b : Nat) :
    list_remove (list_remove l a) b = list_remove (list_remove l b) a := by
  unfold list_remove
  rw [List.filter_filter, List.filter_filter]
  apply List.filter_congr
  intro x _
  exact Bool.and_comm _ _

theorem auto_erase (cfg : MACConfig) (nh b h : Nat) (tbl : List Entry) (order : List Nat)
    (hbase : auto_base cfg nh b tbl order) (hsorted : sorted_rest b tbl order)
    (hne : h ≠ b) :
    auto_base cfg nh b (multimap_erase tbl h) (list_remove order h)
      ∧ sorted_rest b (multimap_erase tbl h) (list_remove order h) := by
  obtain ⟨h1, h2, ⟨eb, heb, hebh, hebs⟩, h4, h5, h6⟩ := hbase
  have hsub : (multimap_erase tbl h).Sublist tbl := List.filter_sublist _
  constructor
  · refine ⟨?_, ?_, ?_, ?_, ?_, ?_⟩
    · intro e he
      exact h1 e (hsub.subset he)
    · exact (hsub.map _).nodup h2
    · refine ⟨eb, List.mem_filter.2 ⟨heb, ?_⟩, hebh, hebs⟩
      have : eb.handle ≠ h := by rw [hebh]; exact fun q => hne q.symm
      simpa using this
    · rw [map_handle_erase]
      exact h4.filter _
    · intro e he
      exact h5 e (hsub.subset he)
    · intro hid
      exact (hsub.map _).nodup (h6 hid)
  · unfold sorted_rest at hsorted ⊢
    rw [list_remove_comm]
    have hcongr : (list_remove (list_remove order b) h).map (src_of (multimap_erase tbl h))
        = (list_remove (list_remove order b) h).map (src_of tbl) := by
      apply List.map_congr_left
      intro x hx
      exact src_of_erase_ne tbl h x ((mem_list_remove _ _ _).1 hx).2
    rw [hcongr]
    rw [List.pairwise_map] at hsorted ⊢
    exact hsorted.filter _

theorem slot_at_touch (tbl : List Entry) (id : Nat) (now : Int) (h : Nat) :
    slot_at (touch tbl id now) h
      = (slot_at tbl h).map (fun s =>
          if s.src = id then { s with last_heard_time := now } else s) := by
  induction tbl with
  | nil => rfl
  | cons y ys ih =>
    simp only [touch, slot_at, List.map_cons, List.find?_cons] at ih ⊢
    by_cases hy : y.slot.src = id
    · simp only [hy, if_true]
      by_cases hh : y.handle = h
      · subst hy
        simp [hh]
      · simp only [hh, decide_False]
        exact ih
    · simp only [hy, if_false]
      by_cases hh : y.handle = h
      · simp [hh, hy]
      · simp only [hh, decide_False]
        exact ih

theorem src_of_touch (tbl : List Entry) (id : Nat) (now : Int) (h : Nat) :
    src_of (touch tbl id now) h = src_of tbl h := by
  unfold src_of
  rw [slot_at_touch]
  cases slot_at tbl h with
  | none => rfl
  | some s =>
    simp only [Option.map_some', Option.getD_some]
    split <;> rfl

theorem auto_touch (cfg : MACConfig) (nh b id : Nat) (now : Int) (tbl : List Entry)
    (order : List Nat)
    (hbase : auto_base cfg nh b tbl order) (hsorted : sorted_rest b tbl order) :
    auto_base cfg nh b (touch tbl id now) order
      ∧ sorted_rest b (touch tbl id now) order := by
  obtain ⟨h1, h2, ⟨eb, heb, hebh, hebs⟩, h4, h5, h6⟩ := hbase
  have hrel := touch_forall₂ tbl id now
  have hhandles : (touch tbl id now).map (fun e => e.handle) = tbl.map (fun e => e.handle) := by
    simp only [touch, List.map_map]
    apply List.map_congr_left
    intro x _
    by_cases h : x.slot.src = id <;> simp [h]
  have hsrcs : (touch tbl id now).map (fun e => e.slot.src) = tbl.map (fun e => e.slot.src) := by
    simp only [touch, List.map_map]
    apply List.map_congr_left
    intro x _
    by_cases h : x.slot.src = id <;> simp [h]
  have hmem : ∀ e' ∈ touch tbl id now, ∃ e ∈ tbl, touched id now e e' := by
    intro e' he'
    simp only [touch, List.mem_map] at he'
    obtain ⟨e, he, rfl⟩ := he'
    refine ⟨e, he, ?_⟩
    by_cases h : e.slot.src = id <;> simp [touched, h]
  constructor
  · refine ⟨?_, ?_, ?_, ?_, ?_, ?_⟩
    · intro e' he'
      obtain ⟨e, he, ht⟩ := hmem e' he'
      rw [ht.1]; exact h1 e he
    · rw [hhandles]; exact h2
    · refine ⟨if eb.slot.src = id then { eb with slot := { eb.slot with last_heard_time := now } }
          else eb, ?_, ?_, ?_⟩
      · simp only [touch, List.mem_map]
        exact ⟨eb, heb, rfl⟩
      · split <;> exact hebh
      · split <;> exact hebs
    · rw [hhandles]; exact h4
    · intro e' he'
      obtain ⟨e, he, ht⟩ := hmem e' he'
      rw [ht.2.2.2.2.2.1]; exact h5 e he
    · intro hid
      rw [hsrcs]; exact h6 hid
  · unfold sorted_rest at hsorted ⊢
    have hcongr : (list_remove order b).map (src_of (touch tbl id now))
        = (list_remove order b).map (src_of tbl) := by
      apply List.map_congr_left
      intro x _
      exact src_of_touch tbl id now x
    rw [hcongr]
    exact hsorted

theorem auto_shape (m m' : MACManager) (hcfg : m'.cfg_ = m.cfg_)
    (hnh : m'.next_handle = m.next_handle) (hb : m'.blank_it_ = m.blank_it_)
    (htbl : m'.id2slot_ = m.id2slot_)
    (hord : m'.slot_order_ = m.slot_order_
      ∨ ∃ b pos, m.blank_it_ = some b ∧ m'.slot_order_ = reinsert m.slot_order_ b pos) :
    (auto_base_inv m → auto_base_inv m') ∧ (auto_inv m → auto_inv m') := by
  unfold auto_base_inv auto_inv
  rw [hcfg, hnh, hb, htbl]
  rcases hord with hord | ⟨b, pos, hbm, hord⟩
  · rw [hord]
    exact ⟨id, id⟩
  · rw [hord]
    constructor
    · rintro ⟨hty, b', hb', hbase⟩
      rw [hbm] at hb'
      cases hb'
      exact ⟨hty, b, hbm, auto_base_reinsert _ _ _ _ _ _ hbase⟩
    · rintro ⟨hty, b', hb', hbase, hs⟩
      rw [hbm] at hb'
      cases hb'
      exact ⟨hty, b, hbm, auto_base_reinsert _ _ _ _ _ _ hbase,
        sorted_rest_reinsert _ _ _ _ hs⟩

theorem position_blank_shape (m m' : MACManager) (h : position_blank m = some m') :
    m'.cfg_ = m.cfg_ ∧ m'.next_handle = m.next_handle ∧ m'.blank_it_ = m.blank_it_
      ∧ m'.id2slot_ = m.id2slot_
      ∧ ∃ b, m.blank_it_ = some b ∧ m'.slot_order_ = reinsert m.slot_order_ b (blank_index m b) := by
  obtain ⟨b, hb, -, -, rfl⟩ := position_blank_some m m' h
  exact ⟨rfl, rfl, rfl, rfl, b, hb, rfl⟩

theorem auto_position_blank (m m' : MACManager) (h : position_blank m = some m') :
    (auto_base_inv m → auto_base_inv m') ∧ (auto_inv m → auto_inv m') := by
  obtain ⟨h1, h2, h3, h4, b, hb, ho⟩ := position_blank_shape m m' h
  exact auto_shape m m' h1 h2 h3 h4 (Or.inr ⟨b, _, hb, ho⟩)

theorem process_cycle_size_change_order (m m' : MACManager) (now : Int)
    (h : process_cycle_size_change m now = some m') :
    m'.slot_order_ = m.slot_order_
      ∨ ∃ b pos, m.blank_it_ = some b ∧ m'.slot_order_ = reinsert m.slot_order_ b pos := by
  unfold process_cycle_size_change at h
  split at h
  · simp at h
  · rename_i m1 t hn
    obtain ⟨-, rfl, rfl⟩ := next_cycle_time_some m m1 now t hn
    dsimp only at h
    split at h
    · simp only [Option.map_eq_some'] at h
      obtain ⟨m3, hm3, rfl⟩ := h
      obtain ⟨-, -, -, -, b, hb, ho⟩ := position_blank_shape _ _ hm3
      exact Or.inr ⟨b, _, hb, ho⟩
    · simp only [Option.some.injEq] at h
      subst h
      exact Or.inl rfl

theorem auto_process_cycle_size_change (m m' : MACManager) (now : Int)
    (h : process_cycle_size_change m now = some m') :
    (auto_base_inv m → auto_base_inv m') ∧ (auto_inv m → auto_inv m') := by
  obtain ⟨-, h4, h1, h2, h3, -⟩ := process_cycle_size_change_frame m m' now h
  exact auto_shape m m' h1 h2 h3 h4 (process_cycle_size_change_order m m' now h)

theorem auto_base_inv_with_slot (m : MACManager) (s : Slot) (c : Cursor)
    (hinv : auto_base_inv m) (hss : s.slot_seconds = m.cfg_.slot_seconds)
    (hsrc : m.cfg_.modem_id ≠ BROADCAST_ID → ∀ e ∈ m.id2slot_, e.slot.src ≠ s.src) :
    auto_base_inv { m with
      id2slot_ := multimap_insert { handle := m.next_handle, slot := s } m.id2slot_,
      next_handle := m.next_handle + 1,
      slot_order_ := m.slot_order_ ++ [m.next_handle],
      current_slot_ := c } := by
  obtain ⟨hty, b, hb, hbase⟩ := hinv
  exact ⟨hty, b, hb, auto_base_insert _ _ _ _ _ s hbase hss hsrc⟩

theorem auto_base_inv_add_slot (m m' : MACManager) (s : Slot) (now : Int) (h : Nat)
    (hadd : add_slot m s now = some (m', h))
    (hinv : auto_base_inv m) (hss : s.slot_seconds = m.cfg_.slot_seconds)
    (hsrc : m.cfg_.modem_id ≠ BROADCAST_ID → ∀ e ∈ m.id2slot_, e.slot.src ≠ s.src) :
    auto_base_inv m' := by
  unfold add_slot at hadd
  simp only [Option.map_eq_some', Prod.mk.injEq] at hadd
  obtain ⟨m2, hm2, rfl, -⟩ := hadd
  exact (auto_process_cycle_size_change _ _ now hm2).1
    (auto_base_inv_with_slot m s _ hinv hss hsrc)

theorem auto_inv_sort (m : MACManager) (hinv : auto_base_inv m) :
    auto_inv { m with slot_order_ := list_sort m.id2slot_ m.slot_order_ } := by
  obtain ⟨hty, b, hb, hbase⟩ := hinv
  exact ⟨hty, b, hb, auto_base_sort _ _ _ _ _ hbase, sorted_rest_sort _ _ _⟩

theorem auto_inv_base (m : MACManager) (h : auto_inv m) : auto_base_inv m := by
  obtain ⟨hty, b, hb, hbase, -⟩ := h
  exact ⟨hty, b, hb, hbase⟩

theorem auto_inv_discover_id (m : MACManager) (id : Nat) (now : Int) (hinv : auto_inv m)
    (hnew : ∀ e ∈ m.id2slot_, e.slot.src ≠ id) : auto_inv (discover_id m id now) := by
  have h1 := auto_base_inv_with_slot m (auto_slot m.cfg_ id now) m.current_slot_
    (auto_inv_base m hinv) rfl (fun _ => hnew)
  exact auto_inv_sort _ h1

theorem auto_inv_incoming (m m' : MACManager) (msg : ModemMsgBase) (now : Int)
    (hinv : auto_inv m) (h : handle_modem_all_incoming m msg now = some m') :
    auto_inv m' := by
  unfold handle_modem_all_incoming at h
  dsimp only at h
  split at h
  · simp only [Option.some.injEq] at h
    subst h
    exact hinv
  · split at h
    · rename_i hcount
      refine (auto_process_cycle_size_change _ _ now h).2
        (auto_inv_discover_id m msg.src now hinv ?_)
      intro e he hsrc
      have hmem : e ∈ m.id2slot_.filter (fun e => e.slot.src = msg.src) := by
        simp [List.mem_filter, he, hsrc]
      rw [List.length_eq_zero.1 hcount] at hmem
      simp at hmem
    · simp only [Option.some.injEq] at h
      subst h
      obtain ⟨hty, b, hb, hbase, hs⟩ := hinv
      obtain ⟨h1, h2⟩ := auto_touch _ _ b msg.src now _ _ hbase hs
      exact ⟨hty, b, hb, h1, h2⟩

theorem auto_inv_startup_finish (m : MACManager) (hinv : auto_inv m) :
    auto_inv (startup_finish m) := by
  refine (auto_shape m (startup_finish m) ?_ ?_ ?_ ?_ (Or.inl ?_)).2 hinv <;>
    (unfold startup_finish; split <;> rfl)

/-- The first `add_slot` of `startup` in auto-discovery mode, with `blank_it_` set to the
node it returns. -/
theorem auto_base_inv_first (m m1 : MACManager) (s : Slot) (now : Int) (hb : Nat)
    (hty : m.cfg_.type = MACType.MAC_AUTO_DECENTRALIZED)
    (htbl : m.id2slot_ = []) (hord : m.slot_order_ = []) (hblank : m.blank_it_ = none)
    (hsrc : s.src = BROADCAST_ID) (hss : s.slot_seconds = m.cfg_.slot_seconds)
    (hadd : add_slot m s now = some (m1, hb)) :
    auto_base_inv { m1 with blank_it_ := some hb } := by
  obtain ⟨hh, hcfg, -⟩ := add_slot_frame m m1 s now hb hadd
  unfold add_slot at hadd
  simp only [Option.map_eq_some', Prod.mk.injEq] at hadd
  obtain ⟨m2, hm2, rfl, -⟩ := hadd
  obtain ⟨-, h4, -, h2, -⟩ := process_cycle_size_change_frame _ _ now hm2
  have horder := process_cycle_size_change_order _ _ now hm2
  simp only [htbl, hord, List.nil_append] at horder h4 h2
  have horder : m2.slot_order_ = [m.next_handle] := by
    rcases horder with horder | ⟨b, pos, hbad, -⟩
    · exact horder
    · rw [hblank] at hbad
      cases hbad
  refine ⟨by rw [hcfg]; exact hty, hb, rfl, ?_⟩
  simp only [h4, h2, horder, hcfg, hh]
  refine ⟨?_, ?_, ?_, ?_, ?_, ?_⟩
  · intro e he
    simp only [multimap_insert, List.mem_singleton, List.filter_nil, List.nil_append,
      List.append_nil, List.mem_cons, List.not_mem_nil, or_false] at he
    subst he
    exact Nat.lt_succ_self _
  · simp [multimap_insert]
  · exact ⟨{ handle := m.next_handle, slot := s }, by simp [multimap_insert], rfl, hsrc⟩
  · simp [multimap_insert]
  · intro e he
    simp only [multimap_insert, List.mem_singleton, List.filter_nil, List.nil_append,
      List.append_nil, List.mem_cons, List.not_mem_nil, or_false] at he
    subst he
    exact hss
  · intro _
    simp [multimap_insert]

theorem auto_inv_startup (E : Nat) (cfg : MACConfig) (now : Int) (m : MACManager)
    (hty : cfg.type = MACType.MAC_AUTO_DECENTRALIZED)
    (h : startup (idle E) cfg now = some m) : auto_inv m := by
  unfold startup at h
  simp only [idle, Bool.false_eq_true, if_false, hty] at h
  split at h
  · simp at h
  · rename_i m1 hb hadd1
    have hinv1 := auto_base_inv_first _ m1 (auto_slot cfg BROADCAST_ID now) now hb
      hty rfl rfl rfl rfl rfl hadd1
    have hcfg1 : m1.cfg_ = cfg := (add_slot_frame _ _ _ _ _ hadd1).2.1
    have htbl1 : ∀ e ∈ m1.id2slot_, e.slot.src = BROADCAST_ID := by
      obtain ⟨-, b, hbb, hbase⟩ := hinv1
      simp only [Option.some.injEq] at hbb
      subst hbb
      obtain ⟨-, hnd, ⟨eb, heb, hebh, hebs⟩, hperm, -, -⟩ := hbase
      intro e he
      unfold add_slot at hadd1
      simp only [Option.map_eq_some', Prod.mk.injEq] at hadd1
      obtain ⟨m2, hm2, rfl, -⟩ := hadd1
      obtain ⟨-, h4, -⟩ := process_cycle_size_change_frame _ _ now hm2
      rw [h4] at he
      simp only [multimap_insert, List.filter_nil, List.nil_append, List.mem_singleton] at he
      subst he
      rfl
    split at h
    · simp at h
    · rename_i m2 h2 hadd2
      have hinv2 : auto_base_inv m2 := by
        refine auto_base_inv_add_slot _ m2 _ now h2 hadd2 hinv1 ?_ ?_
        · simp only [hcfg1]
          rfl
        · intro hid e he
          simp only at he hid
          rw [htbl1 e he]
          simp only [auto_slot]
          rw [hcfg1] at hid
          exact fun q => hid q.symm
      have hinv3 := auto_inv_sort m2 hinv2
      split at h
      · simp at h
      · rename_i m4 t hn
        obtain ⟨-, rfl, -⟩ := next_cycle_time_some _ m4 now t hn
        simp only [Option.map_eq_some'] at h
        obtain ⟨m5, hm5, rfl⟩ := h
        apply auto_inv_startup_finish
        refine (auto_position_blank _ m5 hm5).2 ?_
        exact (auto_shape _ _ rfl rfl rfl rfl (Or.inl rfl)).2 hinv3

theorem handle_eq_src_eq (tbl : List Entry) (e1 e2 : Entry)
    (hnd : (tbl.map (fun x => x.handle)).Nodup) (h1 : e1 ∈ tbl) (h2 : e2 ∈ tbl)
    (hh : e1.handle = e2.handle) : e1.slot = e2.slot := by
  have a := slot_at_of_mem tbl e1 hnd h1
  have b := slot_at_of_mem tbl e2 hnd h2
  rw [hh, b] at a
  exact (Option.some.inj a).symm

/-- The lines of the tick handler after `expire_ids()` keep the auto-discovery
invariant. -/
theorem auto_inv_finish (m2 m' : MACManager) (hinv : auto_inv m2)
    (h : finish_auto_tick m2 = some m') : auto_inv m' := by
  unfold finish_auto_tick at h
  simp only [Option.map_eq_some'] at h
  obtain ⟨m4, hm4, rfl⟩ := h
  refine (auto_shape m4 _ rfl rfl rfl rfl (Or.inl rfl)).2 ?_
  split at hm4
  · exact (auto_position_blank _ m4 hm4).2
      ((auto_shape m2 _ rfl rfl rfl rfl (Or.inl rfl)).2 hinv)
  · simp only [Option.some.injEq] at hm4
    subst hm4
    exact hinv

theorem auto_inv_advance (m m' : MACManager) (S : Slot) (now : Int) (hinv : auto_inv m)
    (h : advance m S now = some m') : auto_inv m' := by
  obtain ⟨-, hfin⟩ := advance_auto_some m m' S now hinv.1 h
  exact auto_inv_finish _ m' ((auto_shape m
    { m with current_slot_ := cursor_incr m.slot_order_ m.current_slot_ }
    rfl rfl rfl rfl (Or.inl rfl)).2 hinv) hfin

theorem auto_inv_send_poll (m m' : MACManager) (e : ErrorCode) (now : Int)
    (sigs : List Signal) (hinv : auto_inv m) (h : send_poll m e now = some (m', sigs)) :
    auto_inv m' := by
  unfold send_poll at h
  cases e with
  | operation_aborted =>
    simp only [Option.some.injEq, Prod.mk.injEq] at h
    rw [← h.1]
    exact hinv
  | success =>
    simp only at h
    split at h
    · simp at h
    · rename_i s hs
      simp only [Option.map_eq_some', Prod.mk.injEq] at h
      obtain ⟨m1, hm1, rfl, -⟩ := h
      exact auto_inv_advance m m1 s now hinv hm1

/-- Every state of an auto-discovery manager has the shape `auto_inv`. -/
theorem auto_inv_of_reachable (m : MACManager) (h : reachable_auto m) : auto_inv m := by
  induction h with
  | from_idle E cfg now m hty hst => exact auto_inv_startup E cfg now m hty hst
  | heard m msg now m' _ hin ih => exact auto_inv_incoming m m' msg now ih hin
  | ticked m e now m' sigs _ htick ih => exact auto_inv_send_poll m m' e now sigs ih htick

theorem auto_base_blank (cfg : MACConfig) (nh b : Nat) (tbl : List Entry) (order : List Nat)
    (h : auto_base cfg nh b tbl order) :
    src_of tbl b = BROADCAST_ID ∧ (slot_at tbl b).isSome = true := by
  obtain ⟨-, hnd, ⟨e, he, heb, hes⟩, -⟩ := h
  subst heb
  constructor
  · rw [src_of_of_mem tbl e hnd he]
    exact hes
  · rw [slot_at_of_mem tbl e hnd he]
    rfl

theorem auto_base_live (cfg : MACConfig) (nh b : Nat) (tbl : List Entry) (order : List Nat)
    (h : auto_base cfg nh b tbl order) :
    ∀ x ∈ order, (slot_at tbl x).isSome = true := by
  obtain ⟨-, hnd, -, hperm, -⟩ := h
  intro x hx
  obtain ⟨e, he, rfl⟩ := List.mem_map.1 (hperm.mem_iff.1 hx)
  rw [slot_at_of_mem tbl e hnd he]
  rfl

theorem auto_base_srcs (cfg : MACConfig) (nh b : Nat) (tbl : List Entry) (order : List Nat)
    (h : auto_base cfg nh b tbl order) :
    (order.map (src_of tbl)).Perm (tbl.map (fun e => e.slot.src)) := by
  obtain ⟨-, hnd, -, hperm, -⟩ := h
  rw [← map_src_of_handles tbl hnd]
  exact hperm.map _

theorem auto_base_seconds (cfg : MACConfig) (nh b : Nat) (tbl : List Entry)
    (order : List Nat) (h : auto_base cfg nh b tbl order) :
    (order.map (slot_seconds_of tbl)).sum = tbl.length * cfg.slot_seconds := by
  obtain ⟨-, hnd, -, hperm, hss, -⟩ := h
  rw [(hperm.map (slot_seconds_of tbl)).sum_eq, map_slot_seconds_of_handles tbl hnd]
  have : tbl.map (fun x => x.slot.slot_seconds) = tbl.map (fun _ => cfg.slot_seconds) :=
    List.map_congr_left hss
  rw [this, List.map_const', List.sum_replicate]
  rfl

theorem auto_base_split (cfg : MACConfig) (nh b : Nat) (tbl : List Entry) (order : List Nat)
    (h : auto_base cfg nh b tbl order) :
    (order.map (src_of tbl)).Perm
      (BROADCAST_ID :: (list_remove order b).map (src_of tbl)) := by
  obtain ⟨hb, hnodup⟩ := auto_base_mem_blank cfg nh b tbl order h
  have hp := (reinsert_perm order b 0 hb hnodup).symm
  simp only [List.take_zero, List.nil_append, List.drop_zero] at hp
  have := hp.map (src_of tbl)
  rw [List.map_cons, (auto_base_blank cfg nh b tbl order h).1] at this
  exact this

/-- In a state of shape `auto_inv` of a modem whose id is not `BROADCAST_ID`, every
reference of the sequence is into the table and exactly one of them is to a slot of `src`
`BROADCAST_ID`. -/
theorem auto_inv_one_blank (m : MACManager) (hinv : auto_inv m)
    (hid : m.cfg_.modem_id ≠ BROADCAST_ID) :
    (∀ x ∈ m.slot_order_, (slot_at m.id2slot_ x).isSome = true)
      ∧ (m.slot_order_.map (src_of m.id2slot_)).count BROADCAST_ID = 1 := by
  obtain ⟨-, b, -, hbase, -⟩ := hinv
  refine ⟨auto_base_live _ _ _ _ _ hbase, ?_⟩
  rw [(auto_base_srcs _ _ _ _ _ hbase).count_eq]
  obtain ⟨-, -, ⟨e, he, -, hes⟩, -, -, hsrc⟩ := hbase
  apply List.count_eq_one_of_mem (hsrc hid)
  exact List.mem_map.2 ⟨e, he, hes⟩

/-- What `position_blank` reads, and the order of `src` values it leaves, are functions
of the set of `src` values in the table, of `slot_seconds` and of the cycle count. -/
theorem auto_inv_placement (m1 m2 : MACManager) (h1 : auto_inv m1) (h2 : auto_inv m2)
    (hid1 : m1.cfg_.modem_id ≠ BROADCAST_ID) (hid2 : m2.cfg_.modem_id ≠ BROADCAST_ID)
    (hE : m1.ENTROPY = m2.ENTROPY)
    (hss : m1.cfg_.slot_seconds = m2.cfg_.slot_seconds)
    (hset : ∀ x, x ∈ m1.id2slot_.map (fun e => e.slot.src)
                ↔ x ∈ m2.id2slot_.map (fun e => e.slot.src))
    (hcyc : m1.cycles_since_day_start_ = m2.cycles_since_day_start_) :
    blank_pos m1 = blank_pos m2
      ∧ ∃ p1 p2, position_blank m1 = some p1 ∧ position_blank m2 = some p2
          ∧ p1.slot_order_.map (src_of p1.id2slot_)
              = p2.slot_order_.map (src_of p2.id2slot_) := by
  obtain ⟨-, b1, hb1, hbase1, hs1⟩ := h1
  obtain ⟨-, b2, hb2, hbase2, hs2⟩ := h2
  have hperm : (m1.id2slot_.map (fun e => e.slot.src)).Perm
      (m2.id2slot_.map (fun e => e.slot.src)) :=
    (List.perm_ext_iff_of_nodup (hbase1.2.2.2.2.2 hid1) (hbase2.2.2.2.2.2 hid2)).2 hset
  have hlen : m1.id2slot_.length = m2.id2slot_.length := by
    simpa using hperm.length_eq
  have hL : cycle_length m1 = cycle_length m2 := by
    unfold cycle_length
    rw [auto_base_seconds _ _ _ _ _ hbase1, auto_base_seconds _ _ _ _ _ hbase2, hlen, hss]
  have hS : cycle_sum m1 = cycle_sum m2 := by
    unfold cycle_sum
    rw [(auto_base_srcs _ _ _ _ _ hbase1).sum_eq, (auto_base_srcs _ _ _ _ _ hbase2).sum_eq]
    exact hperm.sum_eq
  have hpos : blank_pos m1 = blank_pos m2 := by
    unfold blank_pos
    rw [hL, hS, hE, hcyc]
  have hrest : (list_remove m1.slot_order_ b1).map (src_of m1.id2slot_)
      = (list_remove m2.slot_order_ b2).map (src_of m2.id2slot_) := by
    have p1 := auto_base_split _ _ _ _ _ hbase1
    have p2 := auto_base_split _ _ _ _ _ hbase2
    have p3 := (p1.symm.trans ((auto_base_srcs _ _ _ _ _ hbase1).trans
      (hperm.trans (auto_base_srcs _ _ _ _ _ hbase2).symm))).trans p2
    exact List.eq_of_perm_of_sorted p3.cons_inv hs1 hs2
  have hrlen : (list_remove m1.slot_order_ b1).length = (list_remove m2.slot_order_ b2).length := by
    simpa using congrArg List.length hrest
  have hidx : blank_index m1 b1 = blank_index m2 b2 := by
    unfold blank_index
    rw [hpos, hrlen]
  refine ⟨hpos, _, _, position_blank_total m1 b1 hb1 (auto_base_blank _ _ _ _ _ hbase1).2,
    position_blank_total m2 b2 hb2 (auto_base_blank _ _ _ _ _ hbase2).2, ?_⟩
  simp only [List.map_append, List.map_cons, List.map_take, List.map_drop]
  rw [hrest, hidx, (auto_base_blank _ _ _ _ _ hbase1).1, (auto_base_blank _ _ _ _ _ hbase2).1]

theorem reachable_auto_started : reachable_auto auto_started :=
  reachable_auto.from_idle 5039 auto_cfg 0 auto_started rfl (by decide)

theorem reachable_auto_peer2 : reachable_auto auto_peer2 :=
  reachable_auto.heard auto_started { src := 2, dest := 0, rate := none } 0 auto_peer2
    reachable_auto_started (by decide)

theorem reachable_auto_peer23 : reachable_auto auto_peer23 :=
  reachable_auto.heard auto_peer2 { src := 3, dest := 0, rate := none } 1500000 auto_peer23
    reachable_auto_peer2 (by decide)

theorem reachable_auto_id2_peer1 : reachable_auto auto_id2_peer1 := by
  have h1 : ∃ m, startup (idle 5039) auto_cfg_id2 0 = some m
      ∧ handle_modem_all_incoming m { src := 1, dest := 0, rate := none } 0
          = some auto_id2_peer1 := by decide
  obtain ⟨m, hm, hin⟩ := h1
  exact reachable_auto.heard m _ 0 _ (reachable_auto.from_idle 5039 auto_cfg_id2 0 m rfl hm) hin

theorem reachable_auto_id5_started : reachable_auto auto_id5_started :=
  reachable_auto.from_idle 5039 auto_cfg_id5 0 auto_id5_started rfl (by decide)

theorem reachable_auto_id0_peer5 : reachable_auto auto_id0_peer5 := by
  have h1 : ∃ m, startup (idle 5039) auto_cfg_id0 0 = some m
      ∧ handle_modem_all_incoming m { src := 5, dest := 0, rate := none } 0
          = some auto_id0_peer5 := by decide
  obtain ⟨m, hm, hin⟩ := h1
  exact reachable_auto.heard m _ 0 _ (reachable_auto.from_idle 5039 auto_cfg_id0 0 m rfl hm) hin

theorem reachable_S3_started : reachable_auto S3_started :=
  reachable_auto.from_idle 5039 S3_cfg 0 S3_started rfl (by decide)

theorem reachable_S3_peer7 : reachable_auto S3_peer7 :=
  reachable_auto.heard S3_started { src := 7, dest := 0, rate := none } 0 S3_peer7
    reachable_S3_started (by decide)

theorem reachable_S3_peer7_ticked : reachable_auto S3_peer7_ticked :=
  reachable_auto.ticked S3_peer7 ErrorCode.success 30000000 S3_peer7_ticked
    [Signal.initiate_transmission { src := 1, dest := -1, rate := some 0 }]
    reachable_S3_peer7 (by decide)

theorem reachable_S3_id7_peer1 : reachable_auto S3_id7_peer1 := by
  have h1 : ∃ m, startup (idle 5039) S3_cfg_id7 0 = some m
      ∧ handle_modem_all_incoming m { src := 1, dest := 0, rate := none } 0
          = some S3_id7_peer1 := by decide
  obtain ⟨m, hm, hin⟩ := h1
  exact reachable_auto.heard m _ 0 _ (reachable_auto.from_idle 5039 S3_cfg_id7 0 m rfl hm) hin

theorem reachable_auto_wrap_peer23 : reachable_auto auto_wrap_peer23 := by
  have h1 : ∃ m1, startup (idle 5039) auto_cfg_wrap 0 = some m1
      ∧ ∃ m2, handle_modem_all_incoming m1 { src := 2, dest := 0, rate := none } 0 = some m2
        ∧ handle_modem_all_incoming m2 { src := 3, dest := 0, rate := none } 1500000
            = some auto_wrap_peer23 := by decide
  obtain ⟨m1, hm1, m2, hm2, hm3⟩ := h1
  exact reachable_auto.heard m2 _ 1500000 _
    (reachable_auto.heard m1 _ 0 _
      (reachable_auto.from_idle 5039 auto_cfg_wrap 0 m1 rfl hm1) hm2) hm3
/-- The clock reading lies in the second that `since_day_start` counts. -/
theorem day_clock_bounds (now : Int) :
    universal_day now + seconds (since_day_start now) ≤ now
      ∧ now < universal_day now + seconds (since_day_start now + 1)
      ∧ since_day_start now < 86400 := by
  simp only [universal_day, since_day_start, seconds, usec_per_day, usec_per_sec]
  omega

/-- The start of the next cycle, in whole seconds since midnight, is later than `s` and
at most `L` later. -/
theorem next_cycle_bounds (s L : Nat) (hL : 0 < L) :
    s < (s / L + 1) * L ∧ (s / L + 1) * L ≤ s + L := by
  have h1 := Nat.div_add_mod s L
  have h2 := Nat.mod_lt s hL
  have h3 : (s / L + 1) * L = L * (s / L) + L := by ring
  constructor <;> omega

theorem slot_at_insert_isSome (e : Entry) (tbl : List Entry) (x : Nat)
    (h : x = e.handle ∨ (slot_at tbl x).isSome = true) :
    (slot_at (multimap_insert e tbl) x).isSome = true := by
  rw [slot_at_isSome_iff]
  rcases h with h | h
  · exact ⟨e, (mem_multimap_insert e e tbl).2 (Or.inl rfl), h.symm⟩
  · obtain ⟨y, hy, hyx⟩ := (slot_at_isSome_iff tbl x).1 h
    exact ⟨y, (mem_multimap_insert e y tbl).2 (Or.inr hy), hyx⟩

theorem slot_at_erase_isSome (tbl : List Entry) (h x : Nat) (hne : x ≠ h)
    (hx : (slot_at tbl x).isSome = true) :
    (slot_at (multimap_erase tbl h) x).isSome = true := by
  rw [slot_at_multimap_erase_ne tbl h x hne]
  exact hx

theorem list_begin_mem (l : List Nat) (x : Nat) (h : list_begin l = Cursor.node x) :
    x ∈ l := by
  cases l with
  | nil => simp [list_begin] at h
  | cons a rest =>
    simp only [list_begin, Cursor.node.injEq] at h
    subst h
    exact List.mem_cons_self _ _

theorem list_begin_of_ne_nil (l : List Nat) (h : l ≠ []) :
    ∃ x, list_begin l = Cursor.node x ∧ x ∈ l := by
  cases l with
  | nil => exact absurd rfl h
  | cons a rest => exact ⟨a, rfl, List.mem_cons_self _ _⟩

theorem list_next_mem (h : Nat) (l : List Nat) (x : Nat)
    (hx : list_next h l = Cursor.node x) : x ∈ l := by
  induction l with
  | nil => simp [list_next] at hx
  | cons a rest ih =>
    unfold list_next at hx
    split at hx
    · exact List.mem_cons_of_mem _ (list_begin_mem rest x hx)
    · exact List.mem_cons_of_mem _ (ih hx)

/-- Outside auto-discovery mode `process_cycle_size_change` keeps `live_core`, given a
sequence of live references with the cursor on it. -/
theorem live_core_process_fixed (m m' : MACManager) (now : Int)
    (hna : m.cfg_.type ≠ MACType.MAC_AUTO_DECENTRALIZED)
    (hlive : ∀ x ∈ m.slot_order_, (slot_at m.id2slot_ x).isSome = true)
    (hcur : m.slot_order_ = [] ∨ ∃ h, m.current_slot_ = Cursor.node h ∧ h ∈ m.slot_order_)
    (h : process_cycle_size_change m now = some m') :
    live_core m' ∧ m'.slot_order_ = m.slot_order_ ∧ m'.id2slot_ = m.id2slot_
      ∧ m'.current_slot_ = m.current_slot_ ∧ m'.cfg_ = m.cfg_
      ∧ m'.startup_done_ = m.startup_done_ ∧ m'.slot_order_ ≠ [] := by
  rw [process_cycle_size_change_fixed m now hna] at h
  split at h
  · simp at h
  · rename_i hL
    simp only [Option.some.injEq] at h
    subst h
    have hne : m.slot_order_ ≠ [] := cycle_length_pos_order_ne_nil m hL
    exact ⟨⟨hlive, hcur, fun _ => hne⟩, rfl, rfl, rfl, rfl, rfl, hne⟩

theorem live_core_add_slot_fixed (m m' : MACManager) (s : Slot) (now : Int) (h : Nat)
    (hna : m.cfg_.type ≠ MACType.MAC_AUTO_DECENTRALIZED)
    (hlive : ∀ x ∈ m.slot_order_, (slot_at m.id2slot_ x).isSome = true)
    (hadd : add_slot m s now = some (m', h)) :
    live_core m' ∧ m'.cfg_ = m.cfg_ ∧ m'.startup_done_ = m.startup_done_ := by
  rw [add_slot_eq] at hadd
  simp only [Option.map_eq_some', Prod.mk.injEq] at hadd
  obtain ⟨m2, hm2, rfl, -⟩ := hadd
  have hlive' : ∀ x ∈ (with_slot m s).slot_order_,
      (slot_at (with_slot m s).id2slot_ x).isSome = true := by
    intro x hx
    simp only [with_slot, List.mem_append, List.mem_singleton] at hx
    apply slot_at_insert_isSome
    rcases hx with hx | hx
    · exact Or.inr (hlive x hx)
    · exact Or.inl hx
  have hcur' : (with_slot m s).slot_order_ = []
      ∨ ∃ h, (with_slot m s).current_slot_ = Cursor.node h ∧ h ∈ (with_slot m s).slot_order_ :=
    Or.inr (list_begin_of_ne_nil _ (by simp [with_slot]))
  obtain ⟨k1, -, -, -, k5, k6, -⟩ := live_core_process_fixed (with_slot m s) m2 now hna
    hlive' hcur' hm2
  exact ⟨k1, k5, k6⟩

theorem live_core_add_slots_fixed (now : Int) (l : List Slot) :
    ∀ (m m' : MACManager), m.cfg_.type ≠ MACType.MAC_AUTO_DECENTRALIZED → live_core m →
      add_slots m now l = some m' →
      live_core m' ∧ m'.cfg_ = m.cfg_ ∧ m'.startup_done_ = m.startup_done_ := by
  induction l with
  | nil =>
    intro m m' _ hl h
    simp only [add_slots, Option.some.injEq] at h
    subst h
    exact ⟨hl, rfl, rfl⟩
  | cons s rest ih =>
    intro m m' hna hl h
    simp only [add_slots] at h
    split at h
    · simp at h
    · rename_i m1 hd hadd
      obtain ⟨k1, k2, k3⟩ := live_core_add_slot_fixed m m1 s now hd hna hl.1 hadd
      obtain ⟨j1, j2, j3⟩ := ih m1 m' (by rw [k2]; exact hna) k1 h
      exact ⟨j1, j2.trans k2, j3.trans k3⟩

theorem live_core_startup_finish (m : MACManager) (hl : live_core m) :
    live_core (startup_finish m) := by
  obtain ⟨h1, h2, h3⟩ := hl
  unfold startup_finish
  split
  · rename_i he
    exact ⟨h1, h2, fun hrun => h3 hrun⟩
  · rename_i hne
    exact ⟨h1, h2, fun _ => hne⟩

theorem cycle_live_startup (E : Nat) (cfg : MACConfig) (now : Int) (m : MACManager)
    (hmode : cfg.type = MACType.MAC_POLLED ∨ cfg.type = MACType.MAC_FIXED_DECENTRALIZED)
    (hst : startup (idle E) cfg now = some m) : cycle_live m := by
  have hacc := startup_accepted (idle E) m cfg now rfl hst
  rw [startup_idle_fixed E cfg now hmode] at hst
  simp only [Option.map_eq_some'] at hst
  obtain ⟨m1, hm1, rfl⟩ := hst
  have hna : ({ idle E with cfg_ := cfg } : MACManager).cfg_.type
      ≠ MACType.MAC_AUTO_DECENTRALIZED := by
    rcases hmode with h | h <;> simp [h]
  have h0 : live_core { idle E with cfg_ := cfg } :=
    ⟨fun x hx => by simp [idle] at hx, Or.inl rfl, fun hrun => by simp [idle] at hrun⟩
  obtain ⟨k1, -, -⟩ := live_core_add_slots_fixed now cfg.cycle _ m1 hna h0 hm1
  refine ⟨by rw [hacc.1]; exact hmode, hacc.2 ?_, live_core_startup_finish m1 k1⟩
  rcases hmode with h | h <;> simp [h]

theorem cycle_live_remove_slot (m m' : MACManager) (s : Slot) (now : Int) (r : Bool)
    (hinv : cycle_live m) (hrem : remove_slot m s now = some (m', r)) : cycle_live m' := by
  obtain ⟨hmode, hdone, hlive, hcur, hrun⟩ := hinv
  have hna : m.cfg_.type ≠ MACType.MAC_AUTO_DECENTRALIZED := by
    rcases hmode with h | h <;> simp [h]
  cases hfound : m.id2slot_.find? (fun e => slot_eq s e.slot) with
  | none =>
    rw [remove_slot_fixed_absent m s now hna hfound] at hrem
    split at hrem
    · simp at hrem
    · rename_i hL
      simp only [Option.some.injEq, Prod.mk.injEq] at hrem
      obtain ⟨rfl, -⟩ := hrem
      exact ⟨hmode, hdone, hlive, hcur, fun _ => cycle_length_pos_order_ne_nil m hL⟩
  | some e =>
    rw [remove_slot_fixed_found m s now e hna hfound] at hrem
    split at hrem
    · simp at hrem
    · rename_i hL
      simp only [Option.some.injEq, Prod.mk.injEq] at hrem
      obtain ⟨rfl, -⟩ := hrem
      have hne : list_remove m.slot_order_ e.handle ≠ [] :=
        cycle_length_pos_order_ne_nil (without_slot m e.handle) hL
      refine ⟨hmode, hdone, ?_, Or.inr (list_begin_of_ne_nil _ hne), fun _ => hne⟩
      intro x hx
      obtain ⟨hx1, hx2⟩ := (mem_list_remove _ _ _).1 hx
      exact slot_at_erase_isSome _ _ _ hx2 (hlive x hx1)

/-- The scheduling part of a tick in polled and fixed modes. -/
theorem advance_fixed (m : MACManager) (S : Slot) (now : Int)
    (hmode : m.cfg_.type = MACType.MAC_POLLED
      ∨ m.cfg_.type = MACType.MAC_FIXED_DECENTRALIZED) :
    advance m S now
      = some { m with
          current_slot_ :=
            if cursor_incr m.slot_order_ m.current_slot_ = Cursor.end_
            then list_begin m.slot_order_ else cursor_incr m.slot_order_ m.current_slot_,
          next_slot_t_ := m.next_slot_t_ + seconds S.slot_seconds,
          timer_ := some (m.next_slot_t_ + seconds S.slot_seconds),
          timer_is_running_ := true } := by
  unfold advance
  by_cases hc : cursor_incr m.slot_order_ m.current_slot_ = Cursor.end_
  · rcases hmode with hm | hm <;> simp [hm, hc, restart_timer]
  · rcases hmode with hm | hm <;> simp [hm, hc, restart_timer]

theorem cycle_live_tick (m m' : MACManager) (e : ErrorCode) (now : Int) (sigs : List Signal)
    (hinv : cycle_live m) (htick : send_poll m e now = some (m', sigs)) : cycle_live m' := by
  cases e with
  | operation_aborted =>
    simp only [send_poll, Option.some.injEq, Prod.mk.injEq] at htick
    rw [← htick.1]
    exact hinv
  | success =>
    obtain ⟨hmode, hdone, hlive, hcur, hrun⟩ := hinv
    simp only [send_poll] at htick
    split at htick
    · simp at htick
    · rename_i S hS
      simp only [Option.map_eq_some', Prod.mk.injEq] at htick
      obtain ⟨m1, hadv, rfl, -⟩ := htick
      have hne : m.slot_order_ ≠ [] := by
        intro he
        unfold current_slot at hS
        cases hc : m.current_slot_ with
        | end_ => simp [hc] at hS
        | node x => simp [hc, he] at hS
      rw [advance_fixed m S now hmode, Option.some.injEq] at hadv
      subst hadv
      refine ⟨hmode, hdone, hlive, Or.inr ?_, fun _ => hne⟩
      show ∃ h, (if cursor_incr m.slot_order_ m.current_slot_ = Cursor.end_
          then list_begin m.slot_order_ else cursor_incr m.slot_order_ m.current_slot_)
            = Cursor.node h ∧ h ∈ m.slot_order_
      cases hcc : cursor_incr m.slot_order_ m.current_slot_ with
      | end_ => simpa using list_begin_of_ne_nil _ hne
      | node y =>
        refine ⟨y, by simp, ?_⟩
        cases hcur0 : m.current_slot_ with
        | end_ => simp [hcur0, cursor_incr] at hcc
        | node x =>
          rw [hcur0] at hcc
          exact list_next_mem x _ y hcc

theorem position_blank_cursor (m m' : MACManager) (h : position_blank m = some m') :
    (∃ x, m'.current_slot_ = Cursor.node x ∧ x ∈ m'.slot_order_)
      ∧ m'.current_slot_ = list_begin m'.slot_order_
      ∧ m'.timer_is_running_ = m.timer_is_running_
      ∧ m'.next_slot_t_ = m.next_slot_t_
      ∧ m'.cycles_since_day_start_ = m.cycles_since_day_start_
      ∧ m'.startup_done_ = m.startup_done_ := by
  obtain ⟨b, -, -, -, rfl⟩ := position_blank_some m m' h
  exact ⟨list_begin_of_ne_nil _ (by simp), rfl, rfl, rfl, rfl, rfl⟩

/-- What `process_cycle_size_change` does to the sequence and the cursor: either it
leaves both alone (outside auto-discovery mode, or on a single slot), or it has run
`position_blank` and the cursor is on the first slot. -/
theorem process_cycle_size_change_cursor (m m' : MACManager) (now : Int)
    (h : process_cycle_size_change m now = some m') :
    (m'.slot_order_ = m.slot_order_ ∧ m'.current_slot_ = m.current_slot_
        ∧ ¬ (m.cfg_.type = MACType.MAC_AUTO_DECENTRALIZED ∧ m.slot_order_.length > 1))
      ∨ (m'.current_slot_ = list_begin m'.slot_order_ ∧ m'.slot_order_ ≠ []
          ∧ m.cfg_.type = MACType.MAC_AUTO_DECENTRALIZED ∧ m.slot_order_.length > 1) := by
  unfold process_cycle_size_change at h
  split at h
  · simp at h
  · rename_i m1 t hn
    obtain ⟨-, rfl, rfl⟩ := next_cycle_time_some m m1 now t hn
    dsimp only at h
    split at h
    · rename_i hc
      simp only [Option.map_eq_some'] at h
      obtain ⟨m3, hm3, rfl⟩ := h
      obtain ⟨⟨x, -, hx⟩, k2, -⟩ := position_blank_cursor _ m3 hm3
      exact Or.inr ⟨k2, List.ne_nil_of_mem hx, hc.1, hc.2⟩
    · rename_i hc
      simp only [Option.some.injEq] at h
      subst h
      exact Or.inl ⟨rfl, rfl, hc⟩

theorem cursor_incr_mem (order : List Nat) (c : Cursor) :
    cursor_incr order c = Cursor.end_
      ∨ ∃ x, cursor_incr order c = Cursor.node x ∧ x ∈ order := by
  cases hc : cursor_incr order c with
  | end_ => exact Or.inl rfl
  | node y =>
    refine Or.inr ⟨y, rfl, ?_⟩
    cases c with
    | end_ => simp [cursor_incr] at hc
    | node x => exact list_next_mem x order y hc

/-- The node after `h` in a sequence without repetition: none when `h` is the last
node, the next node otherwise. -/
theorem list_next_nodup (order : List Nat) (h : Nat) (hnd : order.Nodup) (hin : h ∈ order) :
    (order.getLast? = some h ∧ list_next h order = Cursor.end_)
      ∨ (order.getLast? ≠ some h
          ∧ ∃ pre post h', order = pre ++ h :: h' :: post
              ∧ list_next h order = Cursor.node h') := by
  obtain ⟨pre, post, rfl⟩ := List.append_of_mem hin
  have hpre : h ∉ pre := by
    intro hin'
    exact (List.nodup_append.1 hnd).2.2 hin' (by simp)
  have hpost : h ∉ post := by
    have := (List.nodup_append.1 hnd).2.1
    exact (List.nodup_cons.1 this).1
  rw [list_next_append h pre post hpre]
  cases post with
  | nil => exact Or.inl ⟨by simp, rfl⟩
  | cons h' post' =>
    refine Or.inr ⟨?_, pre, post', h', rfl, rfl⟩
    intro hl
    have hmem : h ∈ (h' :: post') := by
      have h2 : (pre ++ h :: h' :: post').getLast? = (h' :: post').getLast? := by
        rw [show pre ++ h :: h' :: post' = (pre ++ [h]) ++ (h' :: post') by simp]
        rw [List.getLast?_append_of_ne_nil _ (by simp)]
      rw [h2] at hl
      exact List.mem_of_getLast?_eq_some hl
    exact hpost hmem

theorem current_slot_isSome (m : MACManager) (h : Nat)
    (hcur : m.current_slot_ = Cursor.node h) (hin : h ∈ m.slot_order_)
    (hlive : (slot_at m.id2slot_ h).isSome = true) : (current_slot m).isSome = true := by
  unfold current_slot
  rw [hcur]
  simp [hin, hlive]

theorem auto_rest_length (cfg : MACConfig) (nh b : Nat) (tbl : List Entry) (order : List Nat)
    (h : auto_base cfg nh b tbl order) :
    (list_remove order b).length + 1 = order.length ∧ order.length = tbl.length := by
  obtain ⟨hb, hnodup⟩ := auto_base_mem_blank cfg nh b tbl order h
  have hp := (reinsert_perm order b 0 hb hnodup).length_eq
  simp only [List.take_zero, List.nil_append, List.drop_zero, List.length_cons] at hp
  have hl := h.2.2.2.1.length_eq
  simp only [List.length_map] at hl
  exact ⟨hp, hl⟩

/-- In the shape of auto-discovery mode the cycle lasts `cfg.slot_seconds` for each slot,
and there is at least the blank slot. -/
theorem auto_cycle_length (m : MACManager) (hinv : auto_base_inv m) :
    cycle_length m = m.slot_order_.length * m.cfg_.slot_seconds
      ∧ 0 < m.slot_order_.length := by
  obtain ⟨-, b, -, hbase⟩ := hinv
  obtain ⟨hr1, hr2⟩ := auto_rest_length _ _ _ _ _ hbase
  constructor
  · unfold cycle_length
    rw [auto_base_seconds _ _ _ _ _ hbase, hr2]
  · omega

/-- In the shape of auto-discovery mode `position_blank` has a result: `blank_it_` refers
into the table, and the walk through the circular list ends on one of its positions. -/
theorem auto_position_blank_total (m : MACManager) (hinv : auto_base_inv m) :
    ∃ m', position_blank m = some m' := by
  obtain ⟨-, b, hb, hbase⟩ := hinv
  exact ⟨_, position_blank_total m b hb (auto_base_blank _ _ _ _ _ hbase).2⟩

/-- In the shape of auto-discovery mode, with slots that last, `process_cycle_size_change`
has a result. -/
theorem auto_process_total (m : MACManager) (now : Int) (hinv : auto_base_inv m)
    (hss : 0 < m.cfg_.slot_seconds) : ∃ m', process_cycle_size_change m now = some m' := by
  obtain ⟨hL, hlen⟩ := auto_cycle_length m hinv
  have hpos : cycle_length m ≠ 0 := by
    rw [hL]
    exact Nat.ne_of_gt (Nat.mul_pos hlen hss)
  unfold process_cycle_size_change next_cycle_time
  simp only [hpos, if_false]
  split
  · have hinv' : auto_base_inv
        { m with
          cycles_since_day_start_ := since_day_start now / cycle_length m + 1,
          next_slot_t_ := universal_day now
            + seconds ((since_day_start now / cycle_length m + 1) * cycle_length m) } :=
      (auto_shape m
        { m with
          cycles_since_day_start_ := since_day_start now / cycle_length m + 1,
          next_slot_t_ := universal_day now
            + seconds ((since_day_start now / cycle_length m + 1) * cycle_length m) }
        rfl rfl rfl rfl (Or.inl rfl)).1 hinv
    obtain ⟨p, hp⟩ := auto_position_blank_total _ hinv'
    rw [hp]
    exact ⟨_, rfl⟩
  · exact ⟨_, rfl⟩

/-- In a state of shape `auto_inv`, with slots that last, `handle_modem_all_incoming`
has a result for every frame. -/
theorem auto_incoming_total (m : MACManager) (msg : ModemMsgBase) (now : Int)
    (hinv : auto_inv m) (hss : 0 < m.cfg_.slot_seconds) :
    ∃ m', handle_modem_all_incoming m msg now = some m' := by
  have hauto := hinv.1
  unfold handle_modem_all_incoming
  simp only [hauto, ne_eq, not_true_eq_false, if_false]
  split
  · rename_i hcount
    have hnew : ∀ e ∈ m.id2slot_, e.slot.src ≠ msg.src := by
      intro e he hsrc
      have hmem : e ∈ m.id2slot_.filter (fun e => e.slot.src = msg.src) := by
        simp [List.mem_filter, he, hsrc]
      rw [List.length_eq_zero.1 hcount] at hmem
      simp at hmem
    exact auto_process_total _ now
      (auto_inv_base _ (auto_inv_discover_id m msg.src now hinv hnew)) hss
  · exact ⟨_, rfl⟩

/-- The first `add_slot` of `startup` in auto-discovery mode, on the idle manager. -/
theorem auto_startup_first (E : Nat) (cfg : MACConfig) (now : Int) :
    add_slot { idle E with cfg_ := cfg } (auto_slot cfg BROADCAST_ID now) now
      = if cfg.slot_seconds = 0 then none
        else some ({ blank_added E cfg now with blank_it_ := none }, 0) := by
  have hL : cycle_length (with_slot { idle E with cfg_ := cfg } (auto_slot cfg BROADCAST_ID now))
      = cfg.slot_seconds := by
    simp [cycle_length, with_slot, idle, multimap_insert, slot_seconds_of, slot_at, auto_slot]
  rw [add_slot_eq]
  unfold process_cycle_size_change next_cycle_time
  rw [hL]
  by_cases h0 : cfg.slot_seconds = 0
  · simp [h0]
  · simp only [h0, if_false]
    have hlen : ¬ ((with_slot { idle E with cfg_ := cfg }
        (auto_slot cfg BROADCAST_ID now)).slot_order_.length > 1) := by
      simp [with_slot, idle]
    simp only [hlen, and_false, if_false, Option.map_some', Option.some.injEq, Prod.mk.injEq]
    constructor
    · simp [with_slot, idle, restart_timer, multimap_insert, list_begin, blank_added]
    · rfl

/-- `startup` of an idle manager in auto-discovery mode, from the second `add_slot` on. -/
theorem auto_startup_eq (E : Nat) (cfg : MACConfig) (now : Int)
    (hty : cfg.type = MACType.MAC_AUTO_DECENTRALIZED) :
    startup (idle E) cfg now
      = if cfg.slot_seconds = 0 then none
        else
          match add_slot (blank_added E cfg now) (auto_slot cfg cfg.modem_id now) now with
          | none => none
          | some (m2, _) =>
            match next_cycle_time
                { m2 with slot_order_ := list_sort m2.id2slot_ m2.slot_order_ } now with
            | none => none
            | some (m4, t) => (position_blank { m4 with next_slot_t_ := t }).map startup_finish := by
  have hfirst := auto_startup_first E cfg now
  unfold startup
  simp only [idle, Bool.false_eq_true, if_false, hty] at hfirst ⊢
  rw [hfirst]
  by_cases h0 : cfg.slot_seconds = 0
  · simp [h0]
  · simp only [h0, if_false]
    rfl

theorem auto_base_inv_blank_added (E : Nat) (cfg : MACConfig) (now : Int)
    (hty : cfg.type = MACType.MAC_AUTO_DECENTRALIZED) :
    auto_base_inv (blank_added E cfg now) := by
  refine ⟨hty, 0, rfl, ?_, ?_, ?_, ?_, ?_, ?_⟩
  · intro e he
    simp only [blank_added, List.mem_singleton] at he
    subst he
    exact Nat.lt_succ_self _
  · simp [blank_added]
  · exact ⟨_, List.mem_singleton.2 rfl, rfl, rfl⟩
  · simp [blank_added]
  · intro e he
    simp only [blank_added, List.mem_singleton] at he
    subst he
    rfl
  · intro _
    simp [blank_added]

/-- The state `add_slot` works on when `startup` adds the own slot. -/
theorem auto_base_inv_self_added (E : Nat) (cfg : MACConfig) (now : Int)
    (hty : cfg.type = MACType.MAC_AUTO_DECENTRALIZED) :
    auto_base_inv (with_slot (blank_added E cfg now) (auto_slot cfg cfg.modem_id now)) := by
  refine auto_base_inv_with_slot (blank_added E cfg now) (auto_slot cfg cfg.modem_id now) _
    (auto_base_inv_blank_added E cfg now hty) rfl ?_
  intro hid e he
  simp only [blank_added, List.mem_singleton] at he hid
  subst he
  simp only [auto_slot]
  exact fun q => hid q.symm

/-- The state in which `startup` of an idle manager ends in auto-discovery mode. -/
theorem auto_startup_state (E : Nat) (cfg : MACConfig) (now : Int) (m : MACManager)
    (hty : cfg.type = MACType.MAC_AUTO_DECENTRALIZED)
    (h : startup (idle E) cfg now = some m) :
    0 < cfg.slot_seconds ∧ m.cfg_ = cfg ∧ m.ENTROPY = E
      ∧ m.id2slot_ = [{ handle := 0, slot := auto_slot cfg BROADCAST_ID now },
                      { handle := 1, slot := auto_slot cfg cfg.modem_id now }]
      ∧ m.blank_it_ = some 0 ∧ m.next_handle = 2
      ∧ m.slot_order_.Perm [0, 1]
      ∧ m.current_slot_ = list_begin m.slot_order_
      ∧ m.next_slot_t_ = universal_day now
          + seconds ((since_day_start now / (2 * cfg.slot_seconds) + 1)
              * (2 * cfg.slot_seconds))
      ∧ m.cycles_since_day_start_ = since_day_start now / (2 * cfg.slot_seconds) + 1
      ∧ m.timer_ = some m.next_slot_t_ ∧ m.timer_is_running_ = true
      ∧ m.startup_done_ = true := by
  rw [auto_startup_eq E cfg now hty] at h
  by_cases h0 : cfg.slot_seconds = 0
  · simp [h0] at h
  · rw [if_neg h0] at h
    split at h
    · simp at h
    · rename_i m2 h2 hadd2
      obtain ⟨-, hcfg2, hblank2, hE2, hsd2, hnh2, htbl2⟩ := add_slot_frame _ m2 _ now h2 hadd2
      have htbl2' : m2.id2slot_ = [{ handle := 0, slot := auto_slot cfg BROADCAST_ID now },
            { handle := 1, slot := auto_slot cfg cfg.modem_id now }] := by
        rw [htbl2]
        simp [blank_added, multimap_insert, auto_slot, BROADCAST_ID]
      have hinv2 : auto_base_inv m2 := by
        rw [add_slot_eq] at hadd2
        simp only [Option.map_eq_some', Prod.mk.injEq] at hadd2
        obtain ⟨m2', hm2, rfl, -⟩ := hadd2
        exact (auto_process_cycle_size_change _ _ now hm2).1
          (auto_base_inv_self_added E cfg now hty)
      have hinv3 := auto_inv_sort m2 hinv2
      split at h
      · simp at h
      · rename_i m4 t hn
        obtain ⟨-, rfl, rfl⟩ := next_cycle_time_some _ m4 now t hn
        simp only [Option.map_eq_some'] at h
        obtain ⟨m5, hm5, rfl⟩ := h
        obtain ⟨k1, k2, k3, k4, -⟩ := position_blank_shape _ m5 hm5
        obtain ⟨⟨x, hx1, hx2⟩, c2, c3, c4, c5, c6⟩ := position_blank_cursor _ m5 hm5
        have hinv5 : auto_inv m5 :=
          (auto_position_blank _ m5 hm5).2
            ((auto_shape _ _ rfl rfl rfl rfl (Or.inl rfl)).2 hinv3)
        have hne : m5.slot_order_ ≠ [] := List.ne_nil_of_mem hx2
        have htbl5 : m5.id2slot_ = [{ handle := 0, slot := auto_slot cfg BROADCAST_ID now },
            { handle := 1, slot := auto_slot cfg cfg.modem_id now }] := by
          rw [k4]
          exact htbl2'
        have hlen3 : (list_sort m2.id2slot_ m2.slot_order_).length = 2 := by
          obtain ⟨-, b, -, hbase⟩ := auto_inv_base _ hinv3
          have := (auto_rest_length _ _ _ _ _ hbase).2
          simp only at this
          rw [this, htbl2']
          rfl
        have hL3 : cycle_length { m2 with slot_order_ := list_sort m2.id2slot_ m2.slot_order_ }
            = 2 * cfg.slot_seconds := by
          rw [(auto_cycle_length _ (auto_inv_base _ hinv3)).1]
          show (list_sort m2.id2slot_ m2.slot_order_).length * m2.cfg_.slot_seconds = _
          rw [hlen3, hcfg2]
          rfl
        have hperm5 : m5.slot_order_.Perm [0, 1] := by
          obtain ⟨-, b, -, hbase, -⟩ := hinv5
          have := hbase.2.2.2.1
          rw [htbl5] at this
          simpa using this
        have hE5 : m5.ENTROPY = E := by
          obtain ⟨b, hb, -, -, rfl⟩ := position_blank_some _ m5 hm5
          exact hE2
        have hfin : startup_finish m5 = { restart_timer m5 with startup_done_ := true } := by
          simp [startup_finish, hne]
        rw [hfin]
        refine ⟨Nat.pos_of_ne_zero h0, ?_, hE5, htbl5, ?_, ?_, hperm5, c2, ?_, ?_, rfl, rfl, rfl⟩
        · show m5.cfg_ = cfg
          rw [k1]
          exact hcfg2
        · show m5.blank_it_ = some 0
          rw [k3]
          exact hblank2
        · show m5.next_handle = 2
          rw [k2]
          exact hnh2
        · show m5.next_slot_t_ = _
          rw [c4]
          show universal_day now + seconds (_ * cycle_length _) = _
          rw [hL3]
        · show m5.cycles_since_day_start_ = _
          rw [c5]
          show since_day_start now / cycle_length _ + 1 = _
          rw [hL3]

/-- In auto-discovery mode `startup` of an idle manager has a result as soon as
`cfg.slot_seconds` is positive. -/
theorem auto_startup_total (E : Nat) (cfg : MACConfig) (now : Int)
    (hty : cfg.type = MACType.MAC_AUTO_DECENTRALIZED) (hss : 0 < cfg.slot_seconds) :
    ∃ m, startup (idle E) cfg now = some m := by
  have h0 : cfg.slot_seconds ≠ 0 := Nat.ne_of_gt hss
  rw [auto_startup_eq E cfg now hty, if_neg h0]
  have hw := auto_base_inv_self_added E cfg now hty
  obtain ⟨m2, hm2⟩ := auto_process_total _ now hw hss
  have hadd2 : add_slot (blank_added E cfg now) (auto_slot cfg cfg.modem_id now) now
      = some (m2, 1) := by
    rw [add_slot_eq]
    exact (Option.map_eq_some').2 ⟨m2, hm2, rfl⟩
  rw [hadd2]
  dsimp only
  have hinv2 : auto_base_inv m2 := (auto_process_cycle_size_change _ m2 now hm2).1 hw
  have hinv3 := auto_inv_sort m2 hinv2
  have hcfg2 : m2.cfg_ = cfg := (process_cycle_size_change_frame _ m2 now hm2).2.2.1
  obtain ⟨hL3, hlen3⟩ := auto_cycle_length _ (auto_inv_base _ hinv3)
  have hpos : cycle_length { m2 with slot_order_ := list_sort m2.id2slot_ m2.slot_order_ } ≠ 0 := by
    rw [hL3]
    apply Nat.ne_of_gt
    apply Nat.mul_pos hlen3
    show 0 < m2.cfg_.slot_seconds
    rw [hcfg2]
    exact hss
  unfold next_cycle_time
  simp only [hpos, if_false]
  obtain ⟨p, hp⟩ := auto_position_blank_total _
    ((auto_shape { m2 with slot_order_ := list_sort m2.id2slot_ m2.slot_order_ }
      { m2 with
        slot_order_ := list_sort m2.id2slot_ m2.slot_order_,
        cycles_since_day_start_ := since_day_start now
          / cycle_length { m2 with slot_order_ := list_sort m2.id2slot_ m2.slot_order_ } + 1,
        next_slot_t_ := universal_day now + seconds ((since_day_start now
          / cycle_length { m2 with slot_order_ := list_sort m2.id2slot_ m2.slot_order_ } + 1)
          * cycle_length { m2 with slot_order_ := list_sort m2.id2slot_ m2.slot_order_ }) }
      rfl rfl rfl rfl (Or.inl rfl)).1 (auto_inv_base _ hinv3))
  rw [hp]
  exact ⟨_, rfl⟩
/-- What `process_cycle_size_change` keeps of a sequence of live references, in any
mode: the references stay live, the sequence is not empty afterwards, and the cursor is
either left alone over an unchanged sequence or put on the first slot. -/
theorem live_process (m m' : MACManager) (now : Int)
    (hlive : ∀ x ∈ m.slot_order_, (slot_at m.id2slot_ x).isSome = true)
    (h : process_cycle_size_change m now = some m') :
    (∀ x ∈ m'.slot_order_, (slot_at m'.id2slot_ x).isSome = true)
      ∧ m.slot_order_ ≠ [] ∧ m'.slot_order_ ≠ []
      ∧ m'.cfg_ = m.cfg_ ∧ m'.startup_done_ = m.startup_done_
      ∧ ((m'.slot_order_ = m.slot_order_ ∧ m'.current_slot_ = m.current_slot_
            ∧ ¬ (m.cfg_.type = MACType.MAC_AUTO_DECENTRALIZED ∧ m.slot_order_.length > 1))
          ∨ m'.current_slot_ = list_begin m'.slot_order_) := by
  obtain ⟨hL, htbl, hcfg, -, -, -, hsd, -, -, -, -, hmem⟩ :=
    process_cycle_size_change_frame m m' now h
  obtain ⟨-, hl⟩ := process_cycle_size_change_live m m' now h
  have hne : m.slot_order_ ≠ [] := cycle_length_pos_order_ne_nil m (Nat.ne_of_gt hL)
  have hne' : m'.slot_order_ ≠ [] := by
    obtain ⟨x, -, hx⟩ := list_begin_of_ne_nil _ hne
    exact List.ne_nil_of_mem ((hmem x).2 (Or.inl hx))
  refine ⟨?_, hne, hne', hcfg, hsd, ?_⟩
  · intro x hx
    rw [htbl]
    rcases hl x hx with h1 | h1
    · exact hlive x h1
    · exact h1
  · rcases process_cycle_size_change_cursor m m' now h with h1 | h1
    · exact Or.inl h1
    · exact Or.inr h1.1

theorem auto_live_startup (E : Nat) (cfg : MACConfig) (now : Int) (m : MACManager)
    (hty : cfg.type = MACType.MAC_AUTO_DECENTRALIZED)
    (h : startup (idle E) cfg now = some m) : auto_live m := by
  obtain ⟨-, hcfg, -, htbl, -, -, hperm, hcur, -, -, -, -, hsd⟩ :=
    auto_startup_state E cfg now m hty h
  have hne : m.slot_order_ ≠ [] := by
    intro he
    rw [he] at hperm
    simpa using hperm.length_eq
  refine ⟨by rw [hcfg]; exact hty, hsd, ⟨?_, Or.inr ?_, fun _ => hne⟩, hne⟩
  · intro x hx
    have hx' := hperm.mem_iff.1 hx
    rw [htbl]
    simp only [List.mem_cons, List.mem_singleton, List.not_mem_nil, or_false] at hx'
    rcases hx' with rfl | rfl <;> simp [slot_at]
  · rw [hcur]
    exact list_begin_of_ne_nil _ hne

theorem auto_live_add_slot (m m' : MACManager) (s : Slot) (now : Int) (h : Nat)
    (hinv : auto_live m) (hadd : add_slot m s now = some (m', h)) : auto_live m' := by
  obtain ⟨hty, hsd, ⟨hlive, -, -⟩, -⟩ := hinv
  rw [add_slot_eq] at hadd
  simp only [Option.map_eq_some', Prod.mk.injEq] at hadd
  obtain ⟨m2, hm2, rfl, -⟩ := hadd
  have hlive' : ∀ x ∈ (with_slot m s).slot_order_,
      (slot_at (with_slot m s).id2slot_ x).isSome = true := by
    intro x hx
    simp only [with_slot, List.mem_append, List.mem_singleton] at hx
    apply slot_at_insert_isSome
    rcases hx with hx | hx
    · exact Or.inr (hlive x hx)
    · exact Or.inl hx
  obtain ⟨k1, -, k3, k4, k5, k6⟩ := live_process (with_slot m s) m2 now hlive' hm2
  have hcur : m2.current_slot_ = list_begin m2.slot_order_ := by
    rcases k6 with ⟨h1, h2, -⟩ | h1
    · rw [h2, h1]
      rfl
    · exact h1
  refine ⟨by rw [k4]; exact hty, by rw [k5]; exact hsd, ⟨k1, Or.inr ?_, fun _ => k3⟩, k3⟩
  rw [hcur]
  exact list_begin_of_ne_nil _ k3

theorem auto_live_remove_slot (m m' : MACManager) (s : Slot) (now : Int) (r : Bool)
    (hinv : auto_live m) (hrem : remove_slot m s now = some (m', r)) : auto_live m' := by
  obtain ⟨hty, hsd, ⟨hlive, hcur, -⟩, hne⟩ := hinv
  unfold remove_slot at hrem
  cases hfound : m.id2slot_.find? (fun e => slot_eq s e.slot) with
  | none =>
    simp only [hfound] at hrem
    split at hrem
    · simp at hrem
    · rename_i m2 hm2
      obtain ⟨k1, -, k3, k4, k5, k6⟩ := live_process m m2 now hlive hm2
      simp only [k3, if_false, Option.isSome_none, Bool.false_eq_true, Option.some.injEq,
        Prod.mk.injEq] at hrem
      obtain ⟨rfl, -⟩ := hrem
      refine ⟨by rw [k4]; exact hty, by rw [k5]; exact hsd, ⟨k1, Or.inr ?_, fun _ => k3⟩, k3⟩
      rcases k6 with ⟨h1, h2, -⟩ | h1
      · rw [h1, h2]
        rcases hcur with he | hc
        · exact absurd he hne
        · exact hc
      · rw [h1]
        exact list_begin_of_ne_nil _ k3
  | some e =>
    simp only [hfound] at hrem
    split at hrem
    · simp at hrem
    · rename_i m2 hm2
      have hlive1 : ∀ x ∈ list_remove m.slot_order_ e.handle,
          (slot_at (multimap_erase m.id2slot_ e.handle) x).isSome = true := by
        intro x hx
        obtain ⟨hx1, hx2⟩ := (mem_list_remove _ _ _).1 hx
        exact slot_at_erase_isSome _ _ _ hx2 (hlive x hx1)
      obtain ⟨k1, -, k3, k4, k5, -⟩ := live_process _ m2 now hlive1 hm2
      simp only [k3, if_false, Option.isSome_some, if_true, Option.some.injEq,
        Prod.mk.injEq] at hrem
      obtain ⟨rfl, -⟩ := hrem
      exact ⟨(congrArg MACConfig.type k4).trans hty, k5.trans hsd,
        ⟨k1, Or.inr (list_begin_of_ne_nil _ k3), fun _ => k3⟩, k3⟩

theorem auto_live_incoming (m m' : MACManager) (msg : ModemMsgBase) (now : Int)
    (hinv : auto_live m) (h : handle_modem_all_incoming m msg now = some m') :
    auto_live m' := by
  obtain ⟨hty, hsd, ⟨hlive, hcur, hrun⟩, hne⟩ := hinv
  unfold handle_modem_all_incoming at h
  simp only [hty, ne_eq, not_true_eq_false, if_false] at h
  split at h
  · have hord : ∀ x, x ∈ (discover_id m msg.src now).slot_order_
        ↔ x ∈ m.slot_order_ ∨ x = m.next_handle := by
      intro x
      show x ∈ list_sort _ (m.slot_order_ ++ [m.next_handle]) ↔ _
      rw [(list_sort_perm _ _).mem_iff]
      simp
    have hlive1 : ∀ x ∈ (discover_id m msg.src now).slot_order_,
        (slot_at (discover_id m msg.src now).id2slot_ x).isSome = true := by
      intro x hx
      apply slot_at_insert_isSome
      rcases (hord x).1 hx with hx | hx
      · exact Or.inr (hlive x hx)
      · exact Or.inl hx
    have hlen : (discover_id m msg.src now).slot_order_.length > 1 := by
      show (list_sort _ (m.slot_order_ ++ [m.next_handle])).length > 1
      rw [(list_sort_perm _ _).length_eq, List.length_append]
      have := List.length_pos.2 hne
      simp only [List.length_singleton]
      omega
    obtain ⟨k1, -, k3, k4, k5, k6⟩ := live_process _ m' now hlive1 h
    refine ⟨by rw [k4]; exact hty, by rw [k5]; exact hsd, ⟨k1, Or.inr ?_, fun _ => k3⟩, k3⟩
    rcases k6 with ⟨-, -, h3⟩ | h1
    · exact absurd ⟨hty, hlen⟩ h3
    · rw [h1]
      exact list_begin_of_ne_nil _ k3
  · simp only [Option.some.injEq] at h
    subst h
    refine ⟨hty, hsd, ⟨?_, hcur, hrun⟩, hne⟩
    intro x hx
    show (slot_at (touch m.id2slot_ msg.src now) x).isSome = true
    rw [slot_at_touch]
    have := hlive x hx
    cases hq : slot_at m.id2slot_ x with
    | none => simp [hq] at this
    | some s => rfl

/-- What the lines of the tick handler after `expire_ids()` leave alone in
auto-discovery mode, and where they leave the cursor. -/
theorem finish_auto_tick_some (m2 m' : MACManager) (h : finish_auto_tick m2 = some m') :
    m'.cfg_ = m2.cfg_ ∧ m'.id2slot_ = m2.id2slot_ ∧ m'.startup_done_ = m2.startup_done_
      ∧ m'.blank_it_ = m2.blank_it_ ∧ m'.next_handle = m2.next_handle
      ∧ m'.next_slot_t_ = m2.next_slot_t_ + seconds m2.cfg_.slot_seconds
      ∧ m'.timer_ = some m'.next_slot_t_ ∧ m'.timer_is_running_ = true
      ∧ ((m2.current_slot_ ≠ Cursor.end_ ∧ m'.slot_order_ = m2.slot_order_
            ∧ m'.current_slot_ = m2.current_slot_
            ∧ m'.cycles_since_day_start_ = m2.cycles_since_day_start_)
          ∨ (m2.current_slot_ = Cursor.end_
              ∧ m'.cycles_since_day_start_ = m2.cycles_since_day_start_ + 1
              ∧ m'.current_slot_ = list_begin m'.slot_order_
              ∧ ∃ b, m2.blank_it_ = some b ∧ (slot_at m2.id2slot_ b).isSome = true
                  ∧ m'.slot_order_ = reinsert m2.slot_order_ b
                      (blank_index { m2 with
                        cycles_since_day_start_ := m2.cycles_since_day_start_ + 1 } b))) := by
  unfold finish_auto_tick at h
  simp only [Option.map_eq_some'] at h
  obtain ⟨m4, hm4, rfl⟩ := h
  split at hm4
  · rename_i hend
    obtain ⟨b, hb, hlive, -, rfl⟩ := position_blank_some _ m4 hm4
    exact ⟨rfl, rfl, rfl, rfl, rfl, rfl, rfl, rfl, Or.inr ⟨hend, rfl, rfl, b, hb, hlive, rfl⟩⟩
  · rename_i hne
    simp only [Option.some.injEq] at hm4
    subst hm4
    exact ⟨rfl, rfl, rfl, rfl, rfl, rfl, rfl, rfl, Or.inl ⟨hne, rfl, rfl, rfl⟩⟩

theorem mem_reinsert (order : List Nat) (b pos x : Nat) :
    x ∈ reinsert order b pos ↔ x = b ∨ (x ∈ order ∧ x ≠ b) := by
  unfold reinsert
  rw [List.mem_append, List.mem_cons]
  have key : (x ∈ (list_remove order b).take pos ∨ x ∈ (list_remove order b).drop pos)
      ↔ x ∈ list_remove order b := by
    rw [← List.mem_append, List.take_append_drop]
  rw [← mem_list_remove, ← key]
  tauto

theorem auto_live_tick (m m' : MACManager) (e : ErrorCode) (now : Int) (sigs : List Signal)
    (hinv : auto_live m) (htick : send_poll m e now = some (m', sigs)) : auto_live m' := by
  cases e with
  | operation_aborted =>
    simp only [send_poll, Option.some.injEq, Prod.mk.injEq] at htick
    rw [← htick.1]
    exact hinv
  | success =>
    obtain ⟨hty, hsd, ⟨hlive, hcur, hrun⟩, hne⟩ := hinv
    simp only [send_poll] at htick
    split at htick
    · simp at htick
    · rename_i S hS
      simp only [Option.map_eq_some', Prod.mk.injEq] at htick
      obtain ⟨m1, hadv, rfl, -⟩ := htick
      obtain ⟨-, hfin⟩ := advance_auto_some m m1 S now hty hadv
      obtain ⟨k1, k2, k3, -, -, -, -, -, k9⟩ := finish_auto_tick_some _ m1 hfin
      simp only at k1 k2 k3 k9
      rcases k9 with ⟨c1, c2, c3, -⟩ | ⟨-, -, c3, b, -, hb, c4⟩
      · have hne1 : m1.slot_order_ ≠ [] := by rw [c2]; exact hne
        refine ⟨by rw [k1]; exact hty, by rw [k3]; exact hsd,
          ⟨?_, Or.inr ?_, fun _ => hne1⟩, hne1⟩
        · intro x hx
          rw [k2]
          rw [c2] at hx
          exact hlive x hx
        · rw [c3, c2]
          rcases cursor_incr_mem m.slot_order_ m.current_slot_ with h1 | h1
          · exact absurd h1 c1
          · exact h1
      · have hne1 : m1.slot_order_ ≠ [] := by
          rw [c4]
          exact List.ne_nil_of_mem ((mem_reinsert _ _ _ _).2 (Or.inl rfl))
        refine ⟨by rw [k1]; exact hty, by rw [k3]; exact hsd,
          ⟨?_, Or.inr ?_, fun _ => hne1⟩, hne1⟩
        · intro x hx
          rw [k2]
          rw [c4] at hx
          rcases (mem_reinsert _ _ _ _).1 hx with rfl | ⟨hx1, -⟩
          · exact hb
          · exact hlive x hx1
        · rw [c3]
          exact list_begin_of_ne_nil _ hne1

/-- Every state of a started manager is in one of the three modes, with live references
and, unless the sequence is empty, the cursor on one of its nodes. -/
theorem started_live_of_reachable (m : MACManager) (h : reachable_started m) :
    cycle_live m ∨ auto_live m := by
  induction h with
  | from_idle E cfg now m hmode hst =>
    cases hty : cfg.type with
    | MAC_NONE => exact absurd hty hmode
    | MAC_POLLED => exact Or.inl (cycle_live_startup E cfg now m (Or.inl hty) hst)
    | MAC_FIXED_DECENTRALIZED => exact Or.inl (cycle_live_startup E cfg now m (Or.inr hty) hst)
    | MAC_AUTO_DECENTRALIZED => exact Or.inr (auto_live_startup E cfg now m hty hst)
  | again m cfg now m' _ hst ih =>
    have hsd : m.startup_done_ = true := by
      rcases ih with h | h
      · exact h.2.1
      · exact h.2.1
    have : startup m cfg now = some m := by simp [startup, hsd]
    rw [this] at hst
    simp only [Option.some.injEq] at hst
    rw [← hst]
    exact ih
  | added m s now m' h _ hadd ih =>
    rcases ih with ih | ih
    · obtain ⟨hmode, hdone, hl⟩ := ih
      have hna : m.cfg_.type ≠ MACType.MAC_AUTO_DECENTRALIZED := by
        rcases hmode with h | h <;> simp [h]
      obtain ⟨k1, k2, k3⟩ := live_core_add_slot_fixed m m' s now h hna hl.1 hadd
      exact Or.inl ⟨by rw [k2]; exact hmode, by rw [k3]; exact hdone, k1⟩
    · exact Or.inr (auto_live_add_slot m m' s now h ih hadd)
  | removed m s now m' r _ hrem ih =>
    rcases ih with ih | ih
    · exact Or.inl (cycle_live_remove_slot m m' s now r ih hrem)
    · exact Or.inr (auto_live_remove_slot m m' s now r ih hrem)
  | heard m msg now m' _ hin ih =>
    rcases ih with ih | ih
    · have hna : m.cfg_.type ≠ MACType.MAC_AUTO_DECENTRALIZED := by
        rcases ih.1 with h | h <;> simp [h]
      simp only [handle_modem_all_incoming, hna, ne_eq, not_false_eq_true, if_true,
        Option.some.injEq] at hin
      rw [← hin]
      exact Or.inl ih
    · exact Or.inr (auto_live_incoming m m' msg now ih hin)
  | ticked m e now m' sigs _ htick ih =>
    rcases ih with ih | ih
    · exact Or.inl (cycle_live_tick m m' e now sigs ih htick)
    · exact Or.inr (auto_live_tick m m' e now sigs ih htick)

theorem reachable_started_of_auto (m : MACManager) (h : reachable_auto m) :
    reachable_started m := by
  induction h with
  | from_idle E cfg now m hty hst =>
    exact reachable_started.from_idle E cfg now m (by rw [hty]; simp) hst
  | heard m msg now m' _ hin ih => exact reachable_started.heard m msg now m' ih hin
  | ticked m e now m' sigs _ htick ih =>
    exact reachable_started.ticked m e now m' sigs ih htick

/-- In every state of an auto-discovery manager reached by frames and ticks, the slots
last (`cfg.slot_seconds > 0`) and the cursor stands on a node of the sequence. -/
theorem auto_cursor_of_reachable (m : MACManager) (h : reachable_auto m) :
    ∃ x, m.current_slot_ = Cursor.node x ∧ x ∈ m.slot_order_ := by
  rcases started_live_of_reachable m (reachable_started_of_auto m h) with h1 | h1
  · have := (auto_inv_of_reachable m h).1
    rcases h1.1 with q | q <;> simp [q] at this
  · obtain ⟨-, -, ⟨-, hcur, -⟩, hne⟩ := h1
    rcases hcur with he | hc
    · exact absurd he hne
    · exact hc

theorem auto_ss_pos_of_reachable (m : MACManager) (h : reachable_auto m) :
    0 < m.cfg_.slot_seconds := by
  induction h with
  | from_idle E cfg now m hty hst =>
    obtain ⟨h1, h2, -⟩ := auto_startup_state E cfg now m hty hst
    rw [h2]
    exact h1
  | heard m msg now m' hr hin ih =>
    have hty := (auto_inv_of_reachable m hr).1
    unfold handle_modem_all_incoming at hin
    simp only [hty, ne_eq, not_true_eq_false, if_false] at hin
    split at hin
    · rw [(process_cycle_size_change_frame _ m' now hin).2.2.1]
      exact ih
    · simp only [Option.some.injEq] at hin
      rw [← hin]
      exact ih
  | ticked m e now m' sigs hr htick ih =>
    have hty := (auto_inv_of_reachable m hr).1
    cases e with
    | operation_aborted =>
      simp only [send_poll, Option.some.injEq, Prod.mk.injEq] at htick
      rw [← htick.1]
      exact ih
    | success =>
      simp only [send_poll] at htick
      split at htick
      · simp at htick
      · rename_i S hS
        simp only [Option.map_eq_some', Prod.mk.injEq] at htick
        obtain ⟨m1, hadv, rfl, -⟩ := htick
        obtain ⟨-, hfin⟩ := advance_auto_some m m1 S now hty hadv
        rw [(finish_auto_tick_some _ m1 hfin).1]
        exact ih
/-- The slot the tick handler reads first, when it has one: the cursor stands on a node
of the sequence, whose reference is into the table. -/
theorem current_slot_some (m : MACManager) (S : Slot) (h : current_slot m = some S) :
    ∃ x, m.current_slot_ = Cursor.node x ∧ x ∈ m.slot_order_
      ∧ slot_at m.id2slot_ x = some S := by
  unfold current_slot at h
  cases hc : m.current_slot_ with
  | end_ => simp [hc] at h
  | node x =>
    simp only [hc] at h
    split at h
    · rename_i hin
      exact ⟨x, rfl, hin, h⟩
    · simp at h

/-- A tick of an auto-discovery manager, with a result: the result is that of the lines
after `expire_ids()`, run on the state with the cursor advanced, and no entry has passed
the test of `expire_ids`. -/
theorem send_poll_auto_some (m m' : MACManager) (now : Int) (sigs : List Signal)
    (hauto : m.cfg_.type = MACType.MAC_AUTO_DECENTRALIZED)
    (h : send_poll m ErrorCode.success now = some (m', sigs)) :
    ∃ x S, m.current_slot_ = Cursor.node x ∧ x ∈ m.slot_order_
      ∧ slot_at m.id2slot_ x = some S ∧ sigs = poll_signals m.cfg_ S
      ∧ (∀ it ∈ m.id2slot_, expired m now it = false)
      ∧ finish_auto_tick { m with current_slot_ := list_next x m.slot_order_ } = some m' := by
  simp only [send_poll] at h
  split at h
  · simp at h
  · rename_i S hS
    simp only [Option.map_eq_some', Prod.mk.injEq] at h
    obtain ⟨m1, hadv, rfl, rfl⟩ := h
    obtain ⟨x, hc, hin, hsl⟩ := current_slot_some m S hS
    obtain ⟨hq, hfin⟩ := advance_auto_some m m1 S now hauto hadv
    refine ⟨x, S, hc, hin, hsl, rfl, hq, ?_⟩
    rw [hc] at hfin
    exact hfin

/-- In a state reached from `startup` by frames and ticks, a tick at which no entry
passes the test of `expire_ids` has a result. -/
theorem auto_quiet_tick_total (m : MACManager) (now : Int) (hr : reachable_auto m)
    (hquiet : ∀ it ∈ m.id2slot_, expired m now it = false) :
    ∃ r, send_poll m ErrorCode.success now = some r := by
  have hinv := auto_inv_of_reachable m hr
  obtain ⟨x, hc, hin⟩ := auto_cursor_of_reachable m hr
  have hlive := auto_base_live _ _ _ _ _ hinv.2.choose_spec.2.1 x hin
  obtain ⟨S, hS⟩ := Option.isSome_iff_exists.1 hlive
  have hcs : current_slot m = some S := by
    unfold current_slot
    rw [hc]
    simp [hin, hS]
  simp only [send_poll, hcs]
  rw [advance_auto_quiet m S now hinv.1 hquiet]
  unfold finish_auto_tick
  dsimp only
  split
  · obtain ⟨p, hp⟩ := auto_position_blank_total
      { m with
        current_slot_ := cursor_incr m.slot_order_ m.current_slot_,
        cycles_since_day_start_ := m.cycles_since_day_start_ + 1 }
      ((auto_shape m
        { m with
          current_slot_ := cursor_incr m.slot_order_ m.current_slot_,
          cycles_since_day_start_ := m.cycles_since_day_start_ + 1 }
        rfl rfl rfl rfl (Or.inl rfl)).1 (auto_inv_base m hinv))
    rw [hp]
    exact ⟨_, rfl⟩
  · exact ⟨_, rfl⟩

/-- The body of the loop of `expire_ids`, run on the first entry that passes the test,
keeps the shape `auto_inv`: the entry is neither the blank slot nor the own slot. -/
theorem auto_inv_expire_erase (m : MACManager) (now : Int) (it : Entry) (hinv : auto_inv m)
    (hit : expire_first m now = some it) : auto_inv (expire_erase m it) := by
  obtain ⟨hty, b, hb, hbase, hs⟩ := hinv
  obtain ⟨hexp, pre, post, hsplit, -⟩ := expire_first_some m now it hit
  have hmem : it ∈ m.id2slot_ := by rw [hsplit]; simp
  obtain ⟨-, -, hsrc⟩ := (expired_iff m now it).1 hexp
  have hne : it.handle ≠ b := by
    intro q
    obtain ⟨-, hnd, ⟨eb, heb, hebh, hebs⟩, -⟩ := hbase
    have := handle_eq_src_eq m.id2slot_ it eb hnd hmem heb (q.trans hebh.symm)
    rw [this] at hsrc
    exact hsrc hebs
  obtain ⟨h1, h2⟩ := auto_erase _ _ b it.handle _ _ hbase hs hne
  exact ⟨hty, b, hb, h1, h2⟩
theorem uniform_table_nodup (ss nh : Nat) (tbl : List Entry) (order : List Nat)
    (h : uniform_table ss nh tbl order) : order.Nodup :=
  h.2.2.1.nodup_iff.2 h.2.1

theorem uniform_table_mem_of_live (ss nh : Nat) (tbl : List Entry) (order : List Nat)
    (h : uniform_table ss nh tbl order) (b : Nat) (hb : (slot_at tbl b).isSome = true) :
    b ∈ order := by
  obtain ⟨x, hx, hxb⟩ := (slot_at_isSome_iff tbl b).1 hb
  rw [h.2.2.1.mem_iff]
  exact List.mem_map.2 ⟨x, hx, hxb⟩

theorem uniform_cycle_sum (ss nh : Nat) (tbl : List Entry) (order : List Nat)
    (h : uniform_table ss nh tbl order) :
    (order.map (slot_seconds_of tbl)).sum = order.length * ss := by
  obtain ⟨-, hnd, hperm, hss⟩ := h
  rw [(hperm.map (slot_seconds_of tbl)).sum_eq, map_slot_seconds_of_handles tbl hnd]
  have : tbl.map (fun x => x.slot.slot_seconds) = tbl.map (fun _ => ss) :=
    List.map_congr_left hss
  rw [this, List.map_const', List.sum_replicate, hperm.length_eq, List.length_map]
  rfl

theorem uniform_table_insert (ss nh : Nat) (tbl : List Entry) (order order' : List Nat)
    (s : Slot) (h : uniform_table ss nh tbl order) (hss : s.slot_seconds = ss)
    (hp : order'.Perm (order ++ [nh])) :
    uniform_table ss (nh + 1) (multimap_insert { handle := nh, slot := s } tbl) order' := by
  obtain ⟨h1, h2, h4, h5⟩ := h
  have hperm := multimap_insert_perm { handle := nh, slot := s } tbl
  refine ⟨?_, ?_, ?_, ?_⟩
  · intro e he
    rcases (mem_multimap_insert _ _ _).1 he with rfl | he'
    · exact Nat.lt_succ_self _
    · exact Nat.lt_succ_of_lt (h1 e he')
  · rw [(hperm.map (fun e => e.handle)).nodup_iff]
    simp only [List.map_cons, List.nodup_cons]
    refine ⟨?_, h2⟩
    intro hin
    obtain ⟨e, he, heq⟩ := List.mem_map.1 hin
    have := h1 e he
    omega
  · have p1 : (order ++ [nh]).Perm (nh :: order) := by
      rw [List.perm_comm]
      exact List.perm_append_singleton nh order |>.symm
    have p2 : (nh :: order).Perm (nh :: tbl.map (fun e => e.handle)) := List.Perm.cons nh h4
    have p3 := (hperm.map (fun e => e.handle)).symm
    simp only [List.map_cons] at p3
    exact hp.trans (p1.trans (p2.trans p3))
  · intro e he
    rcases (mem_multimap_insert _ _ _).1 he with rfl | he'
    · exact hss
    · exact h5 e he'

theorem uniform_table_erase (ss nh : Nat) (tbl : List Entry) (order : List Nat) (x : Nat)
    (h : uniform_table ss nh tbl order) :
    uniform_table ss nh (multimap_erase tbl x) (list_remove order x) := by
  obtain ⟨h1, h2, h4, h5⟩ := h
  have hsub : (multimap_erase tbl x).Sublist tbl := List.filter_sublist _
  refine ⟨fun e he => h1 e (hsub.subset he), (hsub.map _).nodup h2, ?_,
    fun e he => h5 e (hsub.subset he)⟩
  rw [map_handle_erase]
  exact h4.filter _

theorem uniform_table_touch (ss nh : Nat) (tbl : List Entry) (order : List Nat) (id : Nat)
    (now : Int) (h : uniform_table ss nh tbl order) :
    uniform_table ss nh (touch tbl id now) order := by
  obtain ⟨h1, h2, h4, h5⟩ := h
  have hhandles : (touch tbl id now).map (fun e => e.handle) = tbl.map (fun e => e.handle) := by
    simp only [touch, List.map_map]
    apply List.map_congr_left
    intro x _
    by_cases h : x.slot.src = id <;> simp [h]
  have hmem : ∀ e' ∈ touch tbl id now, ∃ e ∈ tbl, touched id now e e' := by
    intro e' he'
    simp only [touch, List.mem_map] at he'
    obtain ⟨e, he, rfl⟩ := he'
    refine ⟨e, he, ?_⟩
    by_cases h : e.slot.src = id <;> simp [touched, h]
  refine ⟨?_, by rw [hhandles]; exact h2, by rw [hhandles]; exact h4, ?_⟩
  · intro e' he'
    obtain ⟨e, he, ht⟩ := hmem e' he'
    rw [ht.1]
    exact h1 e he
  · intro e' he'
    obtain ⟨e, he, ht⟩ := hmem e' he'
    rw [ht.2.2.2.2.2.1]
    exact h5 e he

theorem uniform_table_reinsert (ss nh : Nat) (tbl : List Entry) (order : List Nat)
    (b pos : Nat) (h : uniform_table ss nh tbl order) (hb : b ∈ order) :
    uniform_table ss nh tbl (reinsert order b pos) := by
  have hnd := uniform_table_nodup ss nh tbl order h
  obtain ⟨h1, h2, h4, h5⟩ := h
  exact ⟨h1, h2, (reinsert_perm order b pos hb hnd).trans h4, h5⟩

theorem reinsert_length (order : List Nat) (b pos : Nat) (hb : b ∈ order)
    (hnd : order.Nodup) : (reinsert order b pos).length = order.length :=
  (reinsert_perm order b pos hb hnd).length_eq

/-- `process_cycle_size_change` in auto-discovery mode on slots of one length: the
sequence keeps its references, `next_slot_t_` is a whole number of cycles past midnight
of the day of `now`, and the cursor is on the first slot once there is more than one. -/
theorem auto_realign (m m' : MACManager) (now : Int)
    (hu : uniform_table m.cfg_.slot_seconds m.next_handle m.id2slot_ m.slot_order_)
    (h : process_cycle_size_change m now = some m') :
    m'.cfg_ = m.cfg_ ∧ m'.startup_done_ = m.startup_done_
      ∧ uniform_table m'.cfg_.slot_seconds m'.next_handle m'.id2slot_ m'.slot_order_
      ∧ m'.slot_order_.length = m.slot_order_.length ∧ m'.slot_order_ ≠ []
      ∧ (∃ k, m'.next_slot_t_ = universal_day now
            + seconds ((k * m'.slot_order_.length) * m'.cfg_.slot_seconds))
      ∧ ((m'.slot_order_ = m.slot_order_ ∧ m'.current_slot_ = m.current_slot_
            ∧ ¬ (m.cfg_.type = MACType.MAC_AUTO_DECENTRALIZED ∧ m.slot_order_.length > 1))
          ∨ m'.current_slot_ = list_begin m'.slot_order_) := by
  obtain ⟨hL, htbl, hcfg, hnh, -, -, hsd, -, ht, -, -, -⟩ :=
    process_cycle_size_change_frame m m' now h
  obtain ⟨-, hl⟩ := process_cycle_size_change_live m m' now h
  have hnd := uniform_table_nodup _ _ _ _ hu
  have hord : m'.slot_order_ = m.slot_order_
      ∨ ∃ b pos, b ∈ m.slot_order_ ∧ m'.slot_order_ = reinsert m.slot_order_ b pos := by
    rcases process_cycle_size_change_order m m' now h with h1 | ⟨b, pos, -, h1⟩
    · exact Or.inl h1
    · refine Or.inr ⟨b, pos, ?_, h1⟩
      have hbm : b ∈ m'.slot_order_ := by
        rw [h1]
        exact (mem_reinsert _ _ _ _).2 (Or.inl rfl)
      rcases hl b hbm with h2 | h2
      · exact h2
      · exact uniform_table_mem_of_live _ _ _ _ hu b h2
  have hu' : uniform_table m'.cfg_.slot_seconds m'.next_handle m'.id2slot_ m'.slot_order_ := by
    rw [hcfg, hnh, htbl]
    rcases hord with h1 | ⟨b, pos, hb, h1⟩
    · rw [h1]
      exact hu
    · rw [h1]
      exact uniform_table_reinsert _ _ _ _ b pos hu hb
  have hlen : m'.slot_order_.length = m.slot_order_.length := by
    rcases hord with h1 | ⟨b, pos, hb, h1⟩
    · rw [h1]
    · rw [h1]
      exact reinsert_length _ b pos hb hnd
  have hne : m.slot_order_ ≠ [] := cycle_length_pos_order_ne_nil m (Nat.ne_of_gt hL)
  have hne' : m'.slot_order_ ≠ [] := by
    intro q
    rw [q] at hlen
    exact hne (List.length_eq_zero.1 hlen.symm)
  have hcl : cycle_length m = m.slot_order_.length * m.cfg_.slot_seconds :=
    uniform_cycle_sum _ _ _ _ hu
  refine ⟨hcfg, hsd, hu', hlen, hne', ⟨since_day_start now / cycle_length m + 1, ?_⟩, ?_⟩
  · rw [ht, hlen, hcfg]
    congr 2
    rw [hcl, Nat.mul_assoc]
  · rcases process_cycle_size_change_cursor m m' now h with h1 | h1
    · exact Or.inl h1
    · exact Or.inr h1.1

theorem auto_aligned_of_begin (t : Int) (m : MACManager)
    (hty : m.cfg_.type = MACType.MAC_AUTO_DECENTRALIZED) (hsd : m.startup_done_ = true)
    (hu : uniform_table m.cfg_.slot_seconds m.next_handle m.id2slot_ m.slot_order_)
    (hne : m.slot_order_ ≠ []) (hcur : m.current_slot_ = list_begin m.slot_order_)
    (ht : ∃ k, m.next_slot_t_ = universal_day t
            + seconds ((k * m.slot_order_.length) * m.cfg_.slot_seconds)) :
    auto_aligned t m := by
  obtain ⟨k, hk⟩ := ht
  obtain ⟨h0, rest, ho⟩ := List.exists_cons_of_ne_nil hne
  refine ⟨hty, hsd, hu, [], rest, h0, k, ho, ?_, ?_⟩
  · rw [hcur, ho]
    rfl
  · rw [hk]
    simp

theorem auto_aligned_startup (E : Nat) (cfg : MACConfig) (now : Int) (m : MACManager)
    (hty : cfg.type = MACType.MAC_AUTO_DECENTRALIZED)
    (hst : startup (idle E) cfg now = some m) : auto_aligned now m := by
  obtain ⟨-, hcfg, -, htbl, -, hnh, hperm, hcur, ht, -, -, -, hsd⟩ :=
    auto_startup_state E cfg now m hty hst
  have hne : m.slot_order_ ≠ [] := by
    intro he
    rw [he] at hperm
    simpa using hperm.length_eq
  have hlen : m.slot_order_.length = 2 := hperm.length_eq
  refine auto_aligned_of_begin now m (by rw [hcfg]; exact hty) hsd ?_ hne hcur
    ⟨since_day_start now / (2 * cfg.slot_seconds) + 1, ?_⟩
  · rw [htbl, hnh, hcfg]
    refine ⟨?_, by simp, by simpa using hperm, ?_⟩
    · intro e he
      simp only [List.mem_cons, List.mem_singleton, List.not_mem_nil, or_false] at he
      rcases he with rfl | rfl <;> simp
    · intro e he
      simp only [List.mem_cons, List.mem_singleton, List.not_mem_nil, or_false] at he
      rcases he with rfl | rfl <;> rfl
  · rw [ht, hlen, hcfg]
    congr 2
    rw [Nat.mul_assoc]

theorem auto_aligned_add_slot (t : Int) (m m' : MACManager) (s : Slot) (now : Int) (h : Nat)
    (hinv : auto_aligned t m) (hss : s.slot_seconds = m.cfg_.slot_seconds)
    (hadd : add_slot m s now = some (m', h)) : auto_aligned now m' := by
  obtain ⟨hty, hsd, hu, pre, post, x, k, ho, -, -⟩ := hinv
  rw [add_slot_eq] at hadd
  simp only [Option.map_eq_some', Prod.mk.injEq] at hadd
  obtain ⟨m2, hm2, rfl, -⟩ := hadd
  have hu1 : uniform_table (with_slot m s).cfg_.slot_seconds (with_slot m s).next_handle
      (with_slot m s).id2slot_ (with_slot m s).slot_order_ :=
    uniform_table_insert _ _ _ _ _ s hu hss (List.Perm.refl _)
  obtain ⟨k1, k2, k3, k4, k5, k6, k7⟩ := auto_realign (with_slot m s) m2 now hu1 hm2
  have hlen : (with_slot m s).slot_order_.length > 1 := by
    show (m.slot_order_ ++ [m.next_handle]).length > 1
    rw [ho]
    simp only [List.length_append, List.length_cons, List.length_nil]
    omega
  refine auto_aligned_of_begin now m2 (by rw [k1]; exact hty) (by rw [k2]; exact hsd) k3 k5 ?_ k6
  rcases k7 with ⟨-, -, h3⟩ | h1
  · exact absurd ⟨hty, hlen⟩ h3
  · exact h1

theorem auto_aligned_admitted (t : Int) (m m' : MACManager) (msg : ModemMsgBase) (now : Int)
    (hinv : auto_aligned t m) (hnew : ∀ e ∈ m.id2slot_, e.slot.src ≠ msg.src)
    (hin : handle_modem_all_incoming m msg now = some m') : auto_aligned now m' := by
  obtain ⟨hty, hsd, hu, pre, post, x, k, ho, -, -⟩ := hinv
  have hcount : (m.id2slot_.filter (fun e => e.slot.src = msg.src)).length = 0 := by
    rw [List.length_eq_zero, List.filter_eq_nil_iff]
    intro e he
    simpa using hnew e he
  unfold handle_modem_all_incoming at hin
  simp only [hty, ne_eq, not_true_eq_false, if_false, hcount, if_true] at hin
  have hu1 : uniform_table (discover_id m msg.src now).cfg_.slot_seconds
      (discover_id m msg.src now).next_handle (discover_id m msg.src now).id2slot_
      (discover_id m msg.src now).slot_order_ :=
    uniform_table_insert _ _ _ _ _ (auto_slot m.cfg_ msg.src now) hu rfl (list_sort_perm _ _)
  obtain ⟨k1, k2, k3, k4, k5, k6, k7⟩ := auto_realign _ m' now hu1 hin
  have hlen : (discover_id m msg.src now).slot_order_.length > 1 := by
    show (list_sort _ (m.slot_order_ ++ [m.next_handle])).length > 1
    rw [(list_sort_perm _ _).length_eq, ho]
    simp only [List.length_append, List.length_cons, List.length_nil]
    omega
  refine auto_aligned_of_begin now m' (by rw [k1]; exact hty) (by rw [k2]; exact hsd) k3 k5 ?_ k6
  rcases k7 with ⟨-, -, h3⟩ | h1
  · exact absurd ⟨hty, hlen⟩ h3
  · exact h1

theorem auto_aligned_heard (t : Int) (m m' : MACManager) (msg : ModemMsgBase) (now : Int)
    (hinv : auto_aligned t m) (hknown : ∃ e ∈ m.id2slot_, e.slot.src = msg.src)
    (hin : handle_modem_all_incoming m msg now = some m') : auto_aligned t m' := by
  obtain ⟨hty, hsd, hu, hpos⟩ := hinv
  have hcount : ¬ (m.id2slot_.filter (fun e => e.slot.src = msg.src)).length = 0 := by
    obtain ⟨e, he, hsrc⟩ := hknown
    intro q
    have hmem : e ∈ m.id2slot_.filter (fun e => e.slot.src = msg.src) := by
      simp [List.mem_filter, he, hsrc]
    rw [List.length_eq_zero.1 q] at hmem
    simp at hmem
  unfold handle_modem_all_incoming at hin
  simp only [hty, ne_eq, not_true_eq_false, if_false, hcount, Option.some.injEq] at hin
  subst hin
  exact ⟨hty, hsd, uniform_table_touch _ _ _ _ msg.src now hu, hpos⟩

theorem auto_aligned_remove_slot (t : Int) (m m' : MACManager) (s : Slot) (now : Int)
    (r : Bool) (hinv : auto_aligned t m) (hrem : remove_slot m s now = some (m', r)) :
    auto_aligned now m' := by
  obtain ⟨hty, hsd, hu, pre, post, x, -, ho, hcx, -⟩ := hinv
  unfold remove_slot at hrem
  cases hfound : m.id2slot_.find? (fun e => slot_eq s e.slot) with
  | none =>
    simp only [hfound] at hrem
    split at hrem
    · simp at hrem
    · rename_i m2 hm2
      obtain ⟨k1, k2, k3, k4, k5, k6, k7⟩ := auto_realign m m2 now hu hm2
      simp only [k5, if_false, Option.isSome_none, Bool.false_eq_true, Option.some.injEq,
        Prod.mk.injEq] at hrem
      obtain ⟨rfl, -⟩ := hrem
      refine auto_aligned_of_begin now m2 (by rw [k1]; exact hty) (k2.trans hsd) k3 k5 ?_ k6
      rcases k7 with ⟨h1, h2, h3⟩ | h1
      · have hlen : ¬ (m.slot_order_.length > 1) := fun q => h3 ⟨hty, q⟩
        rw [ho] at hlen
        simp only [List.length_append, List.length_cons] at hlen
        have hpre : pre = [] := List.length_eq_zero.1 (by omega)
        subst hpre
        rw [h2, h1, hcx, ho]
        rfl
      · exact h1
  | some e =>
    simp only [hfound] at hrem
    split at hrem
    · simp at hrem
    · rename_i m2 hm2
      have hu1 : uniform_table m.cfg_.slot_seconds m.next_handle
          (multimap_erase m.id2slot_ e.handle) (list_remove m.slot_order_ e.handle) :=
        uniform_table_erase _ _ _ _ e.handle hu
      obtain ⟨k1, k2, k3, k4, k5, k6, -⟩ := auto_realign _ m2 now hu1 hm2
      simp only [k5, if_false, Option.isSome_some, if_true, Option.some.injEq,
        Prod.mk.injEq] at hrem
      obtain ⟨rfl, -⟩ := hrem
      exact auto_aligned_of_begin now _ (by rw [← hty]; exact congrArg MACConfig.type k1)
        (k2.trans hsd) k3 k5 rfl k6

theorem auto_aligned_tick (t : Int) (m m' : MACManager) (e : ErrorCode) (now : Int)
    (sigs : List Signal) (hinv : auto_aligned t m)
    (htick : send_poll m e now = some (m', sigs)) : auto_aligned t m' := by
  cases e with
  | operation_aborted =>
    simp only [send_poll, Option.some.injEq, Prod.mk.injEq] at htick
    rw [← htick.1]
    exact hinv
  | success =>
    obtain ⟨hty, hsd, hu, pre, post, h, k, ho, hcur, ht⟩ := hinv
    obtain ⟨x, S, hc, hin, -, -, -, hfin⟩ := send_poll_auto_some m m' now sigs hty htick
    have hx : x = h := by
      rw [hcur] at hc
      exact (Cursor.node.inj hc).symm
    subst hx
    have hnd := uniform_table_nodup _ _ _ _ hu
    have hpre : x ∉ pre := by
      have := hnd
      rw [ho] at this
      intro hin'
      exact (List.nodup_append.1 this).2.2 hin' (by simp)
    have hnext : list_next x m.slot_order_ = list_begin post := by
      rw [ho]
      exact list_next_append x pre post hpre
    rw [hnext] at hfin
    obtain ⟨k1, k2, k3, -, k5, k6, -, -, k9⟩ := finish_auto_tick_some _ m' hfin
    have hcfg : m'.cfg_ = m.cfg_ := k1
    have htbl : m'.id2slot_ = m.id2slot_ := k2
    have hnh : m'.next_handle = m.next_handle := k5
    have htm : m'.next_slot_t_ = m.next_slot_t_ + seconds m.cfg_.slot_seconds := k6
    cases post with
    | nil =>
      rcases k9 with ⟨c1, -⟩ | ⟨-, -, c3, b, -, hlive, c4⟩
      · exact absurd rfl c1
      · have hbin : b ∈ m.slot_order_ := uniform_table_mem_of_live _ _ _ _ hu b hlive
        have hord : m'.slot_order_ = reinsert m.slot_order_ b
            (blank_index { m with
              current_slot_ := list_begin [],
              cycles_since_day_start_ := m.cycles_since_day_start_ + 1 } b) := c4
        have hlen : m'.slot_order_.length = m.slot_order_.length := by
          rw [hord]
          exact reinsert_length _ b _ hbin hnd
        have hlen0 : m.slot_order_.length = pre.length + 1 := by
          rw [ho]
          simp
        have hne' : m'.slot_order_ ≠ [] := by
          intro q
          rw [q] at hlen
          simp at hlen
          omega
        refine auto_aligned_of_begin t m' (by rw [hcfg]; exact hty) (k3.trans hsd) ?_ hne' c3
          ⟨k + 1, ?_⟩
        · rw [hcfg, hnh, htbl, hord]
          exact uniform_table_reinsert _ _ _ _ b _ hu hbin
        · rw [htm, ht, hlen, hcfg, hlen0, Int.add_assoc, seconds_add]
          congr 2
          ring
    | cons h2 post' =>
      rcases k9 with ⟨-, c2, c3, -⟩ | ⟨c1, -⟩
      · have hord : m'.slot_order_ = m.slot_order_ := c2
        refine ⟨by rw [hcfg]; exact hty, k3.trans hsd, ?_, pre ++ [x], post', h2, k, ?_, c3, ?_⟩
        · rw [hcfg, hnh, htbl, hord]
          exact hu
        · rw [hord, ho]
          simp
        · rw [htm, ht, hord, hcfg, Int.add_assoc, seconds_add]
          congr 2
          simp only [List.length_append, List.length_singleton]
          ring
      · exact absurd c1 (fun q => Cursor.noConfusion q)

/-- Every state of `reachable_aligned` satisfies the invariant of its mode, for the
clock reading the state is reached with. -/
theorem aligned_inv_of_reachable (t : Int) (m : MACManager) (hr : reachable_aligned t m) :
    fixed_inv t m ∨ auto_aligned t m := by
  induction hr with
  | from_idle E cfg now m hmode hst =>
    cases hty : cfg.type with
    | MAC_NONE => exact absurd hty hmode
    | MAC_POLLED => exact Or.inl (fixed_inv_startup E cfg now m (Or.inl hty) hst)
    | MAC_FIXED_DECENTRALIZED => exact Or.inl (fixed_inv_startup E cfg now m (Or.inr hty) hst)
    | MAC_AUTO_DECENTRALIZED => exact Or.inr (auto_aligned_startup E cfg now m hty hst)
  | again t m cfg now m' _ hst ih =>
    have hsd : m.startup_done_ = true := by
      rcases ih with h | h
      · exact h.2.1
      · exact h.2.1
    have : startup m cfg now = some m := by simp [startup, hsd]
    rw [this] at hst
    simp only [Option.some.injEq] at hst
    rw [← hst]
    exact ih
  | added t m s now m' h _ hss hadd ih =>
    rcases ih with ih | ih
    · exact Or.inl (fixed_inv_add_slot t m m' s now h ih hadd)
    · exact Or.inr (auto_aligned_add_slot t m m' s now h ih (hss ih.1) hadd)
  | removed t m s now m' r _ hr hrem ih =>
    rcases ih with ih | ih
    · rcases hr with rfl | q
      · exact Or.inl (fixed_inv_remove_slot t m m' s now ih hrem)
      · rcases ih.1 with q' | q' <;> simp [q'] at q
    · exact Or.inr (auto_aligned_remove_slot t m m' s now r ih hrem)
  | admitted t m msg now m' _ hty hnew hin ih =>
    rcases ih with ih | ih
    · rcases ih.1 with q | q <;> simp [q] at hty
    · exact Or.inr (auto_aligned_admitted t m m' msg now ih hnew hin)
  | heard t m msg now m' _ hknown hin ih =>
    rcases ih with ih | ih
    · exact Or.inl (fixed_inv_incoming t m m' msg now ih hin)
    · rcases hknown with q | q
      · exact absurd ih.1 q
      · exact Or.inr (auto_aligned_heard t m m' msg now ih q hin)
  | ticked t m e now m' sigs _ htick ih =>
    rcases ih with ih | ih
    · exact Or.inl (fixed_inv_tick t m m' e now sigs ih htick)
    · exact Or.inr (auto_aligned_tick t m m' e now sigs ih htick)

theorem reachable_aligned_S3_peer7_cycled : reachable_aligned 0 S3_peer7_cycled := by
  have h0 : reachable_aligned 0 S3_peer7 :=
    reachable_aligned.admitted 0 S3_started { src := 7, dest := 0, rate := none } 0 S3_peer7
      (reachable_aligned.from_idle 5039 S3_cfg 0 S3_started (by decide) (by decide))
      (by decide) (by decide) (by decide)
  have h1 : ∃ r1, send_poll S3_peer7 ErrorCode.success 30000000 = some r1
      ∧ ∃ r2, send_poll r1.1 ErrorCode.success 40000000 = some r2
        ∧ ∃ r3, send_poll r2.1 ErrorCode.success 50000000 = some r3
          ∧ r3.1 = S3_peer7_cycled := by decide
  obtain ⟨r1, hr1, r2, hr2, r3, hr3, heq⟩ := h1
  rw [← heq]
  exact reachable_aligned.ticked 0 r2.1 _ 50000000 r3.1 r3.2
    (reachable_aligned.ticked 0 r1.1 _ 40000000 r2.1 r2.2
      (reachable_aligned.ticked 0 S3_peer7 _ 30000000 r1.1 r1.2 h0 hr1) hr2) hr3
/-! ## Properties of the specification -/

/-- C1: on a tick (the handler called without the cancelled status) on the slot `S` under
the cursor, the signals raised are `poll_signals m.cfg_ S`; in the two decentralized modes
a signal is raised iff `S.src = cfg.modem_id`, in polled mode iff `S.src ≠ BROADCAST_ID`. -/
theorem send_poll_transmits_iff (m : MACManager) (now : Int) (S : Slot)
    (hS : current_slot m = some S) :
    send_poll m ErrorCode.success now
        = (advance m S now).map (fun m1 => (m1, poll_signals m.cfg_ S))
      ∧ ((m.cfg_.type = MACType.MAC_FIXED_DECENTRALIZED
            ∨ m.cfg_.type = MACType.MAC_AUTO_DECENTRALIZED) →
          (poll_signals m.cfg_ S ≠ [] ↔ S.src = m.cfg_.modem_id))
      ∧ (m.cfg_.type = MACType.MAC_POLLED →
          (poll_signals m.cfg_ S ≠ [] ↔ S.src ≠ BROADCAST_ID)) := by
  refine ⟨?_, ?_, ?_⟩
  · simp [send_poll, hS]
  · rintro (h | h) <;> simp [poll_signals, should_transmit, h]
  · intro h
    simp [poll_signals, should_transmit, h]

/-- Instance of C1: the first tick of scenario S1. -/
theorem send_poll_transmits_iff_witness :
    current_slot S1_started = some S1_slot_a
      ∧ (send_poll S1_started ErrorCode.success 20000000
            = (advance S1_started S1_slot_a 20000000).map
                (fun m1 => (m1, poll_signals S1_started.cfg_ S1_slot_a))
          ∧ ((S1_started.cfg_.type = MACType.MAC_FIXED_DECENTRALIZED
                ∨ S1_started.cfg_.type = MACType.MAC_AUTO_DECENTRALIZED) →
              (poll_signals S1_started.cfg_ S1_slot_a ≠ []
                ↔ S1_slot_a.src = S1_started.cfg_.modem_id))
          ∧ (S1_started.cfg_.type = MACType.MAC_POLLED →
              (poll_signals S1_started.cfg_ S1_slot_a ≠ [] ↔ S1_slot_a.src ≠ BROADCAST_ID))) :=
  ⟨by decide, send_poll_transmits_iff S1_started 20000000 S1_slot_a (by decide)⟩

/-- C2: a tick that transmits on slot `S` raises exactly one signal, fixed by `S.type`:
data gives initiate-transmission with `S.src`, `S.dest`, `S.rate`; ping gives
initiate-ranging of type two-way ping; REMUS LBL gives initiate-ranging of type REMUS LBL
ranging; both ranging requests carry `S.src` and `S.dest` in their base. -/
theorem send_poll_signal_of_type (m : MACManager) (now : Int) (S : Slot)
    (hS : current_slot m = some S) (ht : should_transmit m.cfg_ S = true) :
    send_poll m ErrorCode.success now = (advance m S now).map (fun m1 => (m1, [slot_signal S]))
      ∧ (S.type = SlotType.SLOT_DATA →
          slot_signal S = Signal.initiate_transmission
            { src := S.src, dest := S.dest, rate := some S.rate })
      ∧ (S.type = SlotType.SLOT_PING →
          slot_signal S = Signal.initiate_ranging
            { base := { src := S.src, dest := S.dest, rate := none },
              type := RangingType.MODEM_TWO_WAY_PING })
      ∧ (S.type = SlotType.SLOT_REMUS_LBL →
          slot_signal S = Signal.initiate_ranging
            { base := { src := S.src, dest := S.dest, rate := none },
              type := RangingType.REMUS_LBL_RANGING }) := by
  refine ⟨?_, ?_, ?_, ?_⟩
  · simp [send_poll, hS, poll_signals, ht]
  all_goals
    intro h
    simp [slot_signal, h]

/-- Instance of C2: the first tick of scenario S1 transmits a data slot. -/
theorem send_poll_signal_of_type_witness :
    (current_slot S1_started = some S1_slot_a ∧ should_transmit S1_started.cfg_ S1_slot_a = true)
      ∧ (send_poll S1_started ErrorCode.success 20000000
            = (advance S1_started S1_slot_a 20000000).map (fun m1 => (m1, [slot_signal S1_slot_a]))
          ∧ (S1_slot_a.type = SlotType.SLOT_DATA →
              slot_signal S1_slot_a = Signal.initiate_transmission
                { src := S1_slot_a.src, dest := S1_slot_a.dest, rate := some S1_slot_a.rate })
          ∧ (S1_slot_a.type = SlotType.SLOT_PING →
              slot_signal S1_slot_a = Signal.initiate_ranging
                { base := { src := S1_slot_a.src, dest := S1_slot_a.dest, rate := none },
                  type := RangingType.MODEM_TWO_WAY_PING })
          ∧ (S1_slot_a.type = SlotType.SLOT_REMUS_LBL →
              slot_signal S1_slot_a = Signal.initiate_ranging
                { base := { src := S1_slot_a.src, dest := S1_slot_a.dest, rate := none },
                  type := RangingType.REMUS_LBL_RANGING })) :=
  ⟨⟨by decide, by decide⟩,
   send_poll_signal_of_type S1_started 20000000 S1_slot_a (by decide) (by decide)⟩

/-- C3: with `s` the whole seconds elapsed since midnight UTC of the day of `now` and
`L = cycle_length > 0`, `next_cycle_time` stores `s / L + 1` (floor division) in
`cycles_since_day_start_`, leaves the rest of the state alone, and returns midnight plus
`(s / L + 1) * L` seconds. -/
theorem next_cycle_time_spec (m : MACManager) (now : Int) (hL : 0 < cycle_length m) :
    (universal_day now % usec_per_day = 0
        ∧ universal_day now + seconds (since_day_start now) ≤ now
        ∧ now < universal_day now + seconds (since_day_start now + 1)
        ∧ since_day_start now < 86400)
      ∧ next_cycle_time m now
          = some ({ m with cycles_since_day_start_ := since_day_start now / cycle_length m + 1 },
                  universal_day now
                    + seconds ((since_day_start now / cycle_length m + 1) * cycle_length m)) := by
  refine ⟨?_, ?_⟩
  · simp only [universal_day, since_day_start, seconds, usec_per_day, usec_per_sec]
    omega
  · have h0 : cycle_length m ≠ 0 := by omega
    simp [next_cycle_time, h0]

/-- Instance of C3: scenario S1 (cycle of 20 s) read at 00:00:25. -/
theorem next_cycle_time_spec_witness :
    0 < cycle_length S1_started
      ∧ next_cycle_time S1_started 25000000
          = some ({ S1_started with cycles_since_day_start_ := 2 }, 40000000) :=
  ⟨by decide, (next_cycle_time_spec S1_started 25000000 (by decide)).2⟩

/-- C4, as stated, fails, in three ways.

Polled mode, scenario S1 (two slots of 10 s, cycle of 20 s), started at 1970-01-01
00:00:00: the tick at 00:00:20 moves the cursor to the second slot; `remove_slot` of a
slot the table does not hold, at 00:00:25, returns `false` but still realigns
`next_slot_t_` to 00:00:40 and leaves the cursor where it is; the tick at 00:00:40 fires
the second slot and wraps. The cursor is then on the first slot and `next_slot_t_` is
00:00:50, which is no midnight plus a multiple of 20 s.

Auto-discovery mode, scenario S3 (slots of 10 s), started at 00:00:00: `add_slot` of a
slot of 5 s makes a cycle of 25 s, due at 00:00:25; the three ticks of that cycle each add
`cfg.slot_seconds`, 10 s, so the cursor is back on the first slot with `next_slot_t_` at
00:00:55, which is no midnight plus a multiple of 25 s.

Slots added before `startup` in one of the three modes (on an idle manager, or after a
`startup` whose configuration names none of the three modes): two slots of 10 s, a tick
at 00:00:20 (no mode set: the cursor advances, the time does not), `startup` in polled
mode with an empty cycle, a second tick: the cursor wraps to the first slot, due at
00:00:30. -/
theorem alignment_counterexample :
    (((startup (idle 5039) S1_cfg 0).bind (fun m0 =>
          (send_poll m0 ErrorCode.success 20000000).bind (fun r1 =>
            (remove_slot r1.1 S1_absent 25000000).bind (fun r2 =>
              (send_poll r2.1 ErrorCode.success 40000000).map (fun r3 => (r2.2, r3.1)))))
          = some (false, S1_misaligned))
        ∧ S1_misaligned.slot_order_ ≠ []
        ∧ S1_misaligned.current_slot_ = list_begin S1_misaligned.slot_order_
        ∧ cycle_length S1_misaligned = 20
        ∧ S1_misaligned.next_slot_t_ = 50000000
        ∧ ¬ ∃ (d : Int) (k : Nat),
            S1_misaligned.next_slot_t_
              = d * usec_per_day + seconds (k * cycle_length S1_misaligned))
      ∧ ((startup (idle 5039) S3_cfg 0 = some S3_started)
          ∧ S3_started.cfg_.type = MACType.MAC_AUTO_DECENTRALIZED
          ∧ ((add_slot S3_started S3_short_slot 0).bind (fun r0 =>
              (send_poll r0.1 ErrorCode.success 25000000).bind (fun r1 =>
                (send_poll r1.1 ErrorCode.success 35000000).bind (fun r2 =>
                  (send_poll r2.1 ErrorCode.success 45000000).map (fun r3 =>
                    (r3.1.slot_order_, r3.1.current_slot_, list_begin r3.1.slot_order_,
                      cycle_length r3.1, r3.1.next_slot_t_)))))
              = some ([0, 1, 2], Cursor.node 0, Cursor.node 0, 25, 55000000))
          ∧ ¬ ∃ (d : Int) (k : Nat),
              (55000000 : Int) = d * usec_per_day + seconds (k * 25))
      ∧ (((add_slot (idle 5039) S1_slot_a 0).bind (fun r0 =>
            (add_slot r0.1 S1_slot_b 0).bind (fun r1 =>
              (send_poll r1.1 ErrorCode.success 20000000).bind (fun r2 =>
                (startup r2.1 S1_cfg_no_cycle 20000000).bind (fun m3 =>
                  (send_poll m3 ErrorCode.success 20000000).map (fun r4 =>
                    (r4.1.cfg_.type, r4.1.slot_order_, r4.1.current_slot_,
                      cycle_length r4.1, r4.1.next_slot_t_))))))
            = some (MACType.MAC_POLLED, [0, 1], Cursor.node 0, 20, 30000000))
          ∧ ((startup (idle 5039) none_cfg 0).bind (fun m =>
              (add_slot m S1_slot_a 0).bind (fun r0 =>
                (add_slot r0.1 S1_slot_b 0).bind (fun r1 =>
                  (send_poll r1.1 ErrorCode.success 20000000).bind (fun r2 =>
                    (startup r2.1 S1_cfg_no_cycle 20000000).bind (fun m3 =>
                      (send_poll m3 ErrorCode.success 20000000).map (fun r4 =>
                        (r4.1.cfg_.type, r4.1.slot_order_, r4.1.current_slot_,
                          cycle_length r4.1, r4.1.next_slot_t_)))))))
              = some (MACType.MAC_POLLED, [0, 1], Cursor.node 0, 20, 30000000))
          ∧ ¬ ∃ (d : Int) (k : Nat),
              (30000000 : Int) = d * usec_per_day + seconds (k * 20)) := by
  refine ⟨⟨by decide, by decide, by decide, by decide, by decide, ?_⟩,
    ⟨by decide, by decide, by decide, ?_⟩, by decide, by decide, ?_⟩
  · rintro ⟨d, k, h⟩
    have hL : cycle_length S1_misaligned = 20 := by decide
    have ht : S1_misaligned.next_slot_t_ = 50000000 := by decide
    rw [hL, ht] at h
    simp only [seconds, usec_per_day, usec_per_sec] at h
    push_cast at h
    omega
  · rintro ⟨d, k, h⟩
    simp only [seconds, usec_per_day, usec_per_sec] at h
    push_cast at h
    omega
  · rintro ⟨d, k, h⟩
    simp only [seconds, usec_per_day, usec_per_sec] at h
    push_cast at h
    omega

/-- C4, amended: in every state reached from an idle manager by `startup` in one of the
three modes and then any interleaving of `add_slot` (in auto-discovery mode of slots that
last `cfg.slot_seconds`), `remove_slot` (in polled and fixed modes the calls that remove a
slot), further `startup` calls, inbound frames and timer handler calls, each of them with
a result, whenever the cursor
is on the first slot of a non-empty sequence, `next_slot_t_` is midnight UTC of the day
of `t` plus `k * cycle_length` seconds for some `k ≥ 0`; `t` is the clock reading of the
last call that set `next_slot_t_` from `next_cycle_time()` (`startup`, `add_slot`,
`remove_slot` or the admission of a new `src`), and `cycle_length` the sum of
`slot_seconds` over the current sequence. -/
theorem cycle_alignment (t : Int) (m : MACManager) (hr : reachable_aligned t m)
    (hne : m.slot_order_ ≠ []) (hcur : m.current_slot_ = list_begin m.slot_order_) :
    ∃ k : Nat, m.next_slot_t_ = universal_day t + seconds (k * cycle_length m) := by
  have hfirst : ∀ (pre post : List Nat) (h : Nat), m.slot_order_.Nodup →
      m.slot_order_ = pre ++ h :: post → m.current_slot_ = Cursor.node h → pre = [] := by
    intro pre post h hnd ho hc
    cases pre with
    | nil => rfl
    | cons x pre' =>
      exfalso
      rw [ho] at hcur hnd
      rw [hc] at hcur
      simp only [List.cons_append, list_begin, Cursor.node.injEq] at hcur
      subst hcur
      simp at hnd
  rcases aligned_inv_of_reachable t m hr with hinv | hinv
  · obtain ⟨-, -, -, hnd, hpos⟩ := hinv
    rcases hpos with hempty | ⟨pre, post, h, k, ho, hc, ht⟩
    · exact absurd hempty hne
    · have := hfirst pre post h hnd ho hc
      subst this
      exact ⟨k, by simpa using ht⟩
  · obtain ⟨-, -, hu, pre, post, h, k, ho, hc, ht⟩ := hinv
    have := hfirst pre post h (uniform_table_nodup _ _ _ _ hu) ho hc
    subst this
    refine ⟨k, ?_⟩
    rw [ht]
    congr 2
    unfold cycle_length
    rw [uniform_cycle_sum _ _ _ _ hu]
    simp only [List.length_nil, Nat.add_zero, Nat.mul_assoc]

/-- Instance of amended C4, scenario S3 with modem 7 admitted at 00:00:00 (slots of 10 s,
cycle of 30 s) after the ticks at 00:00:30, 00:00:40 and 00:00:50: the cursor is back on
the first slot and `next_slot_t_` is 00:01:00, two cycles after midnight. -/
theorem cycle_alignment_witness :
    (reachable_aligned 0 S3_peer7_cycled ∧ S3_peer7_cycled.slot_order_ ≠ []
        ∧ S3_peer7_cycled.current_slot_ = list_begin S3_peer7_cycled.slot_order_)
      ∧ (universal_day 0 = 0 ∧ cycle_length S3_peer7_cycled = 30
          ∧ S3_peer7_cycled.next_slot_t_ = 60000000)
      ∧ ∃ k : Nat, S3_peer7_cycled.next_slot_t_
          = universal_day 0 + seconds (k * cycle_length S3_peer7_cycled) :=
  ⟨⟨reachable_aligned_S3_peer7_cycled, by decide, by decide⟩,
   ⟨by decide, by decide, by decide⟩,
   cycle_alignment 0 S3_peer7_cycled reachable_aligned_S3_peer7_cycled
    (by decide) (by decide)⟩

/-- C5: in polled and fixed mode, after `startup` of an idle manager with a non-empty
cycle of `n` slots and no `add_slot` or `remove_slot` since, any `k` ticks complete, and
then: the cursor is on slot `k mod n` of the configured cycle, so tick number `k`
(counted from 0) fires that slot, raises its signals, and moves `next_slot_t_` on by
exactly its `slot_seconds`; `next_slot_t_` stands `k / n` whole cycles plus the first
`k mod n` slots after its value at startup; and `n` further ticks move it on by exactly
`cycle_length`, the sum of the configured `slot_seconds`. -/
theorem polled_fixed_round_robin (E : Nat) (cfg : MACConfig) (t0 : Int) (m0 : MACManager)
    (ts : List Int)
    (hmode : cfg.type = MACType.MAC_POLLED ∨ cfg.type = MACType.MAC_FIXED_DECENTRALIZED)
    (hstart : startup (idle E) cfg t0 = some m0) (hne : cfg.cycle ≠ []) :
    ∃ (mk : MACManager) (S : Slot),
      after_ticks m0 ts = some mk
        ∧ cfg.cycle[ts.length % cfg.cycle.length]? = some S
        ∧ current_slot mk = some S
        ∧ mk.slot_order_.map (slot_at mk.id2slot_) = cfg.cycle.map some
        ∧ cycle_length mk = (cfg.cycle.map (fun s => s.slot_seconds)).sum
        ∧ mk.next_slot_t_ = m0.next_slot_t_
            + seconds (ts.length / cfg.cycle.length * cycle_length mk
                + ((cfg.cycle.take (ts.length % cfg.cycle.length)).map
                    (fun s => s.slot_seconds)).sum)
        ∧ (∀ now, ∃ mk', send_poll mk ErrorCode.success now = some (mk', poll_signals cfg S)
              ∧ mk'.next_slot_t_ = mk.next_slot_t_ + seconds S.slot_seconds)
        ∧ (∀ ts2 : List Int, ts2.length = cfg.cycle.length →
              ∃ mk2, after_ticks mk ts2 = some mk2
                ∧ mk2.next_slot_t_ = mk.next_slot_t_ + seconds (cycle_length mk)) := by
  obtain ⟨hcfg, hnd, -, hmap, -, -, h0, rest, ho, hm0⟩ :=
    startup_idle_fixed_state E cfg t0 m0 hmode hstart hne
  have hmode0 : m0.cfg_.type = MACType.MAC_POLLED
      ∨ m0.cfg_.type = MACType.MAC_FIXED_DECENTRALIZED := by rw [hcfg]; exact hmode
  have hL : cycle_length m0 = (cfg.cycle.map (fun s => s.slot_seconds)).sum := by
    rw [cycle_length_eq_sum, hmap, List.map_map]
    rfl
  obtain ⟨S0, srest, hc⟩ : ∃ S0 srest, cfg.cycle = S0 :: srest := by
    cases hc : cfg.cycle with
    | nil => exact absurd hc hne
    | cons a b => exact ⟨a, b, rfl⟩
  obtain ⟨q, pre, post, h, spre, spost, S, hok, hsk, hlenk, hkk, hrun⟩ :=
    fixed_ticks m0 cfg.cycle hmode0 hnd hmap ts 0 [] rest h0 [] srest S0 ho hc rfl
  have hinit : shifted m0 h0 (0 * (cfg.cycle.map (fun s => s.slot_seconds)).sum
      + (([] : List Slot).map (fun s => s.slot_seconds)).sum) = m0 := by
    simp only [Nat.zero_mul, List.map_nil, List.sum_nil, Nat.add_zero]
    exact hm0.symm
  rw [hinit] at hrun
  have hn : cfg.cycle.length = spre.length + 1 + spost.length := by
    rw [hsk]; simp; omega
  have hplt : pre.length < cfg.cycle.length := by omega
  have hk : ts.length = q * cfg.cycle.length + pre.length := by
    simp only [Nat.zero_mul, List.length_nil, Nat.zero_add] at hkk
    omega
  have hmod : ts.length % cfg.cycle.length = pre.length := by
    rw [hk, Nat.add_comm, Nat.add_mul_mod_self_right, Nat.mod_eq_of_lt hplt]
  have hdiv : ts.length / cfg.cycle.length = q := by
    rw [hk, Nat.add_comm, Nat.add_mul_div_right _ _ (by omega), Nat.div_eq_of_lt hplt,
      Nat.zero_add]
  have hmapk := hmap
  rw [hok] at hmapk
  rw [hsk] at hmapk
  obtain ⟨hS, -⟩ := split_slots _ _ _ _ _ _ _ hmapk hlenk
  have htake : cfg.cycle.take pre.length = spre := by
    rw [hsk, hlenk]; simp
  have hget : cfg.cycle[pre.length]? = some S := by
    rw [hsk, hlenk, List.getElem?_append_right (Nat.le_refl _), Nat.sub_self]
    exact List.getElem?_cons_zero
  refine ⟨_, S, hrun, ?_, ?_, hmap, hL, ?_, ?_, ?_⟩
  · rw [hmod]; exact hget
  · unfold current_slot
    have hin : h ∈ m0.slot_order_ := by rw [hok]; simp
    simp [shifted, hin, hS]
  · rw [hmod, hdiv, htake]
    show m0.next_slot_t_ + seconds _ = m0.next_slot_t_ + seconds (q * cycle_length m0 + _)
    rw [hL]
  · intro now
    obtain ⟨q1, pre1, post1, h1, spre1, spost1, S1, -, -, -, -, hT, htick⟩ :=
      fixed_tick_step m0 cfg.cycle hmode0 hnd hmap q pre post h spre spost S hok hsk hlenk now
    rw [hcfg] at htick
    refine ⟨_, htick, ?_⟩
    simp only [shifted]
    rw [hT, Int.add_assoc, seconds_add]
  · intro ts2 hlen2
    obtain ⟨q2, pre2, post2, h2, spre2, spost2, S2, hok2, hsk2, hlenk2, hkk2, hrun2⟩ :=
      fixed_ticks m0 cfg.cycle hmode0 hnd hmap ts2 q pre post h spre spost S hok hsk hlenk
    refine ⟨_, hrun2, ?_⟩
    have hn2 : cfg.cycle.length = spre2.length + 1 + spost2.length := by
      rw [hsk2]; simp; omega
    have huniq := div_mod_unique cfg.cycle.length q2 pre2.length (q + 1) pre.length
      (by omega) hplt
      (by rw [hkk2, hlen2, Nat.add_mul]; omega)
    have hspre : spre2 = spre := by
      have e1 : cfg.cycle.take spre2.length = spre2 := by rw [hsk2]; simp
      have e2 : cfg.cycle.take spre.length = spre := by rw [hsk]; simp
      rw [← e1, ← e2, ← hlenk2, ← hlenk, huniq.2]
    rw [huniq.1, hspre]
    show m0.next_slot_t_ + seconds _ = m0.next_slot_t_ + seconds _ + seconds (cycle_length m0)
    rw [Int.add_assoc, seconds_add, hL, Nat.add_mul, Nat.one_mul]
    congr 2
    omega

/-- Instance of C5: scenario S1. After three ticks the cursor is on slot `3 mod 2 = 1`
(`src` 3), 30 s after the first cycle began at 00:00:20. -/
theorem polled_fixed_round_robin_witness :
    (S1_cfg.type = MACType.MAC_POLLED ∧ startup (idle 5039) S1_cfg 0 = some S1_started
        ∧ S1_cfg.cycle ≠ [])
      ∧ ∃ (mk : MACManager) (S : Slot),
          after_ticks S1_started [20000000, 30000000, 40000000] = some mk
            ∧ S1_cfg.cycle[[(20000000 : Int), 30000000, 40000000].length % S1_cfg.cycle.length]?
                = some S
            ∧ current_slot mk = some S
            ∧ mk.slot_order_.map (slot_at mk.id2slot_) = S1_cfg.cycle.map some
            ∧ cycle_length mk = (S1_cfg.cycle.map (fun s => s.slot_seconds)).sum
            ∧ mk.next_slot_t_ = S1_started.next_slot_t_
                + seconds ([(20000000 : Int), 30000000, 40000000].length / S1_cfg.cycle.length
                      * cycle_length mk
                    + ((S1_cfg.cycle.take
                          ([(20000000 : Int), 30000000, 40000000].length % S1_cfg.cycle.length)).map
                        (fun s => s.slot_seconds)).sum)
            ∧ (∀ now, ∃ mk',
                  send_poll mk ErrorCode.success now = some (mk', poll_signals S1_cfg S)
                    ∧ mk'.next_slot_t_ = mk.next_slot_t_ + seconds S.slot_seconds)
            ∧ (∀ ts2 : List Int, ts2.length = S1_cfg.cycle.length →
                  ∃ mk2, after_ticks mk ts2 = some mk2
                    ∧ mk2.next_slot_t_ = mk.next_slot_t_ + seconds (cycle_length mk)) :=
  ⟨⟨by decide, by decide, by decide⟩,
   polled_fixed_round_robin 5039 S1_cfg 0 S1_started [20000000, 30000000, 40000000]
     (Or.inl rfl) (by decide) (by decide)⟩

/-- C6: in polled and fixed mode, `add_slot(s)` (which completes iff the new cycle length
is not 0) leaves the sequence equal to the previous one followed by the reference to a
new entry holding `s`; hence after `startup(cfg)` on an idle manager (which completes
when the first configured slot has a positive length) the slots of the sequence are
`cfg.cycle` in the configured order and the cursor is on the first slot. -/
theorem add_slot_appends_in_order :
    (∀ (m : MACManager) (s : Slot) (now : Int),
        (m.cfg_.type = MACType.MAC_POLLED ∨ m.cfg_.type = MACType.MAC_FIXED_DECENTRALIZED) →
        handles_fresh m →
        ((add_slot m s now).isSome = true ↔ 0 < cycle_length m + s.slot_seconds)
          ∧ ∀ m' h, add_slot m s now = some (m', h) →
              m'.slot_order_ = m.slot_order_ ++ [h]
                ∧ slot_at m'.id2slot_ h = some s
                ∧ m'.slot_order_.map (slot_at m'.id2slot_)
                    = m.slot_order_.map (slot_at m.id2slot_) ++ [some s])
      ∧ (∀ (E : Nat) (cfg : MACConfig) (now : Int),
          (cfg.type = MACType.MAC_POLLED ∨ cfg.type = MACType.MAC_FIXED_DECENTRALIZED) →
          ((∀ s rest, cfg.cycle = s :: rest → 0 < s.slot_seconds) →
              (startup (idle E) cfg now).isSome = true)
            ∧ ∀ m', startup (idle E) cfg now = some m' →
                m'.slot_order_.map (slot_at m'.id2slot_) = cfg.cycle.map some
                  ∧ m'.current_slot_ = list_begin m'.slot_order_
                  ∧ current_slot m' = cfg.cycle.head?) := by
  constructor
  · intro m s now hmode hf
    have hna : m.cfg_.type ≠ MACType.MAC_AUTO_DECENTRALIZED := by
      rcases hmode with h | h <;> simp [h]
    constructor
    · rw [add_slot_fixed m s now hna hf]
      split
      · rename_i h0; simp [h0]
      · rename_i h0; simp; omega
    · intro m' h hadd
      obtain ⟨rfl, -, -, -, -, -, -, hord, htbl, -, hmap, -⟩ :=
        add_slot_fixed_some m m' s now h hna hf hadd
      refine ⟨hord, ?_, hmap⟩
      rw [htbl]
      exact slot_at_multimap_insert_self { handle := m.next_handle, slot := s } m.id2slot_
        (fun x hx => Nat.ne_of_lt (hf.1 x hx))
  · intro E cfg now hmode
    have hna : ({ idle E with cfg_ := cfg } : MACManager).cfg_.type
        ≠ MACType.MAC_AUTO_DECENTRALIZED := by
      rcases hmode with h | h <;> simp [h]
    rw [startup_idle_fixed E cfg now hmode]
    constructor
    · intro hfirst
      cases hc : cfg.cycle with
      | nil => simp [add_slots]
      | cons s rest =>
        have hs := hfirst s rest hc
        have hne : ¬ (cycle_length { idle E with cfg_ := cfg } + s.slot_seconds = 0) := by omega
        have hadd := add_slot_fixed _ s now hna (handles_fresh_idle E cfg)
        rw [if_neg hne] at hadd
        simp only [add_slots, hadd, Option.isSome_map']
        apply add_slots_fixed_isSome
        · exact hna
        · exact handles_fresh_with_slot _ s (handles_fresh_idle E cfg)
        · show 0 < cycle_length (with_slot _ s)
          rw [cycle_length_with_slot _ s (handles_fresh_idle E cfg)]; omega
    · intro m' hst
      simp only [Option.map_eq_some'] at hst
      obtain ⟨m1, h1, rfl⟩ := hst
      obtain ⟨-, -, -, -, -, hord, hmap, hne⟩ :=
        add_slots_fixed now cfg.cycle _ m1 hna (handles_fresh_idle E cfg) h1
      have hmap' : m1.slot_order_.map (slot_at m1.id2slot_) = cfg.cycle.map some := by
        simpa [idle] using hmap
      have hfin_ord : (startup_finish m1).slot_order_ = m1.slot_order_ := by
        unfold startup_finish; split <;> rfl
      have hfin_tbl : (startup_finish m1).id2slot_ = m1.id2slot_ := by
        unfold startup_finish; split <;> rfl
      have hfin_cur : (startup_finish m1).current_slot_ = m1.current_slot_ := by
        unfold startup_finish; split <;> rfl
      have hcur : m1.current_slot_ = list_begin m1.slot_order_ := by
        cases hc : cfg.cycle with
        | nil =>
          rw [hc] at h1 hord
          simp only [add_slots, Option.some.injEq] at h1
          subst h1
          rfl
        | cons s rest => exact (hne (by simp [hc])).1
      refine ⟨by rw [hfin_ord, hfin_tbl]; exact hmap', by rw [hfin_cur, hfin_ord]; exact hcur, ?_⟩
      unfold current_slot
      rw [hfin_cur, hfin_ord, hfin_tbl, hcur]
      cases ho : m1.slot_order_ with
      | nil =>
        rw [ho] at hmap'
        cases hc : cfg.cycle with
        | nil => rfl
        | cons s rest => rw [hc] at hmap'; simp at hmap'
      | cons h0 rest0 =>
        rw [ho] at hmap'
        cases hc : cfg.cycle with
        | nil => rw [hc] at hmap'; simp at hmap'
        | cons s rest =>
          rw [hc] at hmap'
          simp only [List.map_cons, List.cons.injEq] at hmap'
          simp [list_begin, hmap'.1]

/-- Instance of C6: `startup` of scenario S1 on an idle manager. -/
theorem add_slot_appends_in_order_witness :
    startup (idle 5039) S1_cfg 0 = some S1_started
      ∧ S1_started.slot_order_.map (slot_at S1_started.id2slot_) = [some S1_slot_a, some S1_slot_b]
      ∧ S1_started.current_slot_ = Cursor.node 0
      ∧ current_slot S1_started = some S1_slot_a :=
  ⟨by decide,
   ((add_slot_appends_in_order.2 5039 S1_cfg 0 (Or.inl rfl)).2 S1_started (by decide))⟩

/-- C7: in auto-discovery mode, for an inbound frame whose `src` is the `src` of no slot
of the table: in every state reached from `startup` by inbound frames and ticks
`handle_modem_all_incoming` has a result; and whenever it has one, it has inserted
exactly one entry into the table, the slot `src = frame src`,
`dest = QUERY_DESTINATION_ID`, `rate = cfg.rate`, `type = DATA`,
`slot_seconds = cfg.slot_seconds`, `last_heard_time = now`; every entry present before is
still present, and the sequence holds the new reference next to every reference it held
before. -/
theorem handle_incoming_new_src (m : MACManager) (msg : ModemMsgBase) (now : Int)
    (hmode : m.cfg_.type = MACType.MAC_AUTO_DECENTRALIZED)
    (hnew : ∀ e ∈ m.id2slot_, e.slot.src ≠ msg.src) :
    (reachable_auto m → ∃ m', handle_modem_all_incoming m msg now = some m')
      ∧ ∀ m', handle_modem_all_incoming m msg now = some m' →
        m'.id2slot_
            = multimap_insert
                { handle := m.next_handle,
                  slot := { src := msg.src, dest := QUERY_DESTINATION_ID, rate := m.cfg_.rate,
                            type := SlotType.SLOT_DATA, slot_seconds := m.cfg_.slot_seconds,
                            last_heard_time := now } } m.id2slot_
          ∧ m'.id2slot_.Perm
              ({ handle := m.next_handle,
                 slot := { src := msg.src, dest := QUERY_DESTINATION_ID, rate := m.cfg_.rate,
                           type := SlotType.SLOT_DATA, slot_seconds := m.cfg_.slot_seconds,
                           last_heard_time := now } } :: m.id2slot_)
          ∧ m'.id2slot_.length = m.id2slot_.length + 1
          ∧ m.next_handle ∈ m'.slot_order_
          ∧ (∀ x ∈ m.slot_order_, x ∈ m'.slot_order_)
          ∧ (∀ x ∈ m'.slot_order_,
              x ∈ m.slot_order_ ∨ x = m.next_handle ∨ some x = m.blank_it_) := by
  constructor
  · intro hr
    exact auto_incoming_total m msg now (auto_inv_of_reachable m hr)
      (auto_ss_pos_of_reachable m hr)
  intro m' hres
  have hcount : (m.id2slot_.filter (fun e => e.slot.src = msg.src)).length = 0 := by
    rw [List.length_eq_zero, List.filter_eq_nil_iff]
    intro e he
    simpa using hnew e he
  unfold handle_modem_all_incoming at hres
  simp only [hmode, ne_eq, not_true_eq_false, if_false, hcount, if_true] at hres
  obtain ⟨_, htbl, _, _, _, _, _, _, _, _, _, hmem⟩ :=
    process_cycle_size_change_frame _ _ now hres
  have hadm : (discover_id m msg.src now).id2slot_
      = multimap_insert { handle := m.next_handle, slot := auto_slot m.cfg_ msg.src now }
          m.id2slot_ := rfl
  have hord : ∀ x, x ∈ (discover_id m msg.src now).slot_order_ ↔ x ∈ m.slot_order_ ∨ x = m.next_handle := by
    intro x
    show x ∈ list_sort _ (m.slot_order_ ++ [m.next_handle]) ↔ _
    rw [(list_sort_perm _ _).mem_iff]
    simp
  have hblank : (discover_id m msg.src now).blank_it_ = m.blank_it_ := rfl
  have hperm := multimap_insert_perm
    { handle := m.next_handle, slot := auto_slot m.cfg_ msg.src now } m.id2slot_
  refine ⟨?_, ?_, ?_, ?_, ?_, ?_⟩
  · rw [htbl, hadm]; rfl
  · rw [htbl, hadm]; exact hperm
  · rw [htbl, hadm, hperm.length_eq]; rfl
  · exact (hmem _).2 (Or.inl ((hord _).2 (Or.inr rfl)))
  · intro x hx
    exact (hmem _).2 (Or.inl ((hord _).2 (Or.inl hx)))
  · intro x hx
    rcases (hmem x).1 hx with h1 | h1
    · rcases (hord x).1 h1 with h2 | h2
      · exact Or.inl h2
      · exact Or.inr (Or.inl h2)
    · exact Or.inr (Or.inr (hblank ▸ h1.1))

/-- Instance of C7: scenario S3, modem 1 with slots of 10 s, just started, hears modem 7
for the first time. -/
theorem handle_incoming_new_src_witness :
    (S3_started.cfg_.type = MACType.MAC_AUTO_DECENTRALIZED
        ∧ (∀ e ∈ S3_started.id2slot_, e.slot.src ≠ 7)
        ∧ reachable_auto S3_started
        ∧ handle_modem_all_incoming S3_started { src := 7, dest := 0, rate := none } 0
            = some S3_peer7)
      ∧ (∃ m', handle_modem_all_incoming S3_started { src := 7, dest := 0, rate := none } 0
            = some m')
      ∧ S3_peer7.id2slot_.length = S3_started.id2slot_.length + 1
      ∧ S3_started.next_handle ∈ S3_peer7.slot_order_
      ∧ (∀ x ∈ S3_started.slot_order_, x ∈ S3_peer7.slot_order_) :=
  ⟨⟨by decide, by decide, reachable_S3_started, by decide⟩,
   (handle_incoming_new_src S3_started { src := 7, dest := 0, rate := none } 0
      (by decide) (by decide)).1 reachable_S3_started,
   ((handle_incoming_new_src S3_started { src := 7, dest := 0, rate := none } 0
      (by decide) (by decide)).2 S3_peer7 (by decide)).2.2.1,
   ((handle_incoming_new_src S3_started { src := 7, dest := 0, rate := none } 0
      (by decide) (by decide)).2 S3_peer7 (by decide)).2.2.2.1,
   ((handle_incoming_new_src S3_started { src := 7, dest := 0, rate := none } 0
      (by decide) (by decide)).2 S3_peer7 (by decide)).2.2.2.2.1⟩

/-- C8: in auto-discovery mode, for an inbound frame whose `src` has a slot,
`handle_modem_all_incoming` returns the state in which only `id2slot_` differs: entry by
entry the same nodes in the same order, `last_heard_time = now` on every slot of that
`src`, every other slot untouched; sequence, cursor, `next_slot_t_`,
`cycles_since_day_start_` and the timer are as before. -/
theorem handle_incoming_known_src (m : MACManager) (msg : ModemMsgBase) (now : Int)
    (hmode : m.cfg_.type = MACType.MAC_AUTO_DECENTRALIZED)
    (hknown : ∃ e ∈ m.id2slot_, e.slot.src = msg.src) :
    ∃ tbl, handle_modem_all_incoming m msg now = some { m with id2slot_ := tbl }
      ∧ List.Forall₂ (touched msg.src now) m.id2slot_ tbl
      ∧ tbl.length = m.id2slot_.length
      ∧ tbl.map (fun e => e.handle) = m.id2slot_.map (fun e => e.handle) := by
  obtain ⟨e, he, hsrc⟩ := hknown
  have hcount : (m.id2slot_.filter (fun e => e.slot.src = msg.src)).length ≠ 0 := by
    rw [Ne, List.length_eq_zero, List.filter_eq_nil_iff]
    intro hall
    exact absurd hsrc (by simpa using hall e he)
  refine ⟨touch m.id2slot_ msg.src now, ?_, touch_forall₂ _ _ _, ?_, ?_⟩
  · unfold handle_modem_all_incoming
    simp only [hmode, ne_eq, not_true_eq_false, if_false, hcount]
  · simp [touch]
  · simp only [touch, List.map_map]
    apply List.map_congr_left
    intro x _
    by_cases h : x.slot.src = msg.src <;> simp [h]

/-- Instance of C8: modem 1 hears modem 2 again, at 00:00:00.5. -/
theorem handle_incoming_known_src_witness :
    (auto_peer2.cfg_.type = MACType.MAC_AUTO_DECENTRALIZED
        ∧ ∃ e ∈ auto_peer2.id2slot_, e.slot.src = 2)
      ∧ ∃ tbl, handle_modem_all_incoming auto_peer2 { src := 2, dest := 0, rate := none } 500000
            = some { auto_peer2 with id2slot_ := tbl }
          ∧ List.Forall₂ (touched 2 500000) auto_peer2.id2slot_ tbl
          ∧ tbl.length = auto_peer2.id2slot_.length
          ∧ tbl.map (fun e => e.handle) = auto_peer2.id2slot_.map (fun e => e.handle) :=
  ⟨⟨by decide, by decide⟩,
   handle_incoming_known_src auto_peer2 { src := 2, dest := 0, rate := none } 500000
     (by decide) (by decide)⟩

/-- C9 as stated fails: the product `expire_cycles * cycle_length` is one of 32-bit
`unsigned` values. Modem 1 with `expire_cycles = 2^30 + 1` has admitted modems 2 and 3
(one-second slots, cycle of 4 s); in the tick run at 00:00:05 the product is `2^32 + 4`
and wraps to 4, so the threshold of the test is 00:00:01, and the entry of modem 2, last
heard at 00:00:00 (later than `now - expire_cycles * cycle_length`, which lies before
1970), passes the test: the loop of `expire_ids` erases it from the table and removes
its reference from the sequence. -/
theorem expire_product_wraps_counterexample :
    reachable_auto auto_wrap_peer23
      ∧ auto_wrap_peer23.cfg_.type = MACType.MAC_AUTO_DECENTRALIZED
      ∧ auto_wrap_peer23.cfg_.expire_cycles = 1073741825
      ∧ cycle_length auto_wrap_peer23 = 4
      ∧ current_slot auto_wrap_peer23 = some (auto_slot auto_cfg 1 0)
      ∧ { handle := 2, slot := auto_slot auto_cfg 2 0 } ∈ auto_wrap_peer23.id2slot_
      ∧ (auto_slot auto_cfg 2 0).last_heard_time
          ≥ 5000000 - seconds (auto_wrap_peer23.cfg_.expire_cycles
              * cycle_length auto_wrap_peer23)
      ∧ expired auto_wrap_peer23 5000000 { handle := 2, slot := auto_slot auto_cfg 2 0 }
          = true
      ∧ expire_first { auto_wrap_peer23 with
            current_slot_ :=
              cursor_incr auto_wrap_peer23.slot_order_ auto_wrap_peer23.current_slot_ }
          5000000 = some { handle := 2, slot := auto_slot auto_cfg 2 0 }
      ∧ { handle := 2, slot := auto_slot auto_cfg 2 0 }
          ∉ (expire_erase { auto_wrap_peer23 with
              current_slot_ :=
                cursor_incr auto_wrap_peer23.slot_order_ auto_wrap_peer23.current_slot_ }
            { handle := 2, slot := auto_slot auto_cfg 2 0 }).id2slot_
      ∧ 2 ∉ (expire_erase { auto_wrap_peer23 with
              current_slot_ :=
                cursor_incr auto_wrap_peer23.slot_order_ auto_wrap_peer23.current_slot_ }
            { handle := 2, slot := auto_slot auto_cfg 2 0 }).slot_order_ :=
  ⟨reachable_auto_wrap_peer23, by decide, by decide, by decide, by decide, by decide,
    by decide, by decide, by decide, by decide, by decide⟩

/-- C9, amended: with the product `expire_cycles * cycle_length` taken in 32-bit
`unsigned` arithmetic (`cycle_length` the cycle length of the sequence when the scan
starts), an entry of the table whose `last_heard_time` is not older than `now` minus that
many seconds, or whose `src` is `cfg.modem_id` or `BROADCAST_ID`, does not pass the test
of the loop of `expire_ids`: it is not the entry the loop erases, it is still in the table
when the loop has erased the first entry that passes, and it is in the table after every
scan, `expire_ids` call and tick that has a result. -/
theorem expire_scan_keeps (m : MACManager) (now : Int) (e : Entry)
    (he : e ∈ m.id2slot_) (hnd : (m.id2slot_.map (fun x => x.handle)).Nodup)
    (hkeep : e.slot.last_heard_time
          ≥ now - seconds ((m.cfg_.expire_cycles * cycle_length m) % 4294967296)
        ∨ e.slot.src = m.cfg_.modem_id ∨ e.slot.src = BROADCAST_ID) :
    expired m now e = false
      ∧ expire_first m now ≠ some e
      ∧ (∀ it, expire_first m now = some it → e ∈ (expire_erase m it).id2slot_)
      ∧ (∀ r, expire_scan m now = some r → e ∈ r.1.id2slot_)
      ∧ (∀ m', expire_ids m now = some m' → e ∈ m'.id2slot_)
      ∧ (m.cfg_.type = MACType.MAC_AUTO_DECENTRALIZED →
          ∀ m' sigs, send_poll m ErrorCode.success now = some (m', sigs) →
            e ∈ m'.id2slot_) := by
  have hexp : expired m now e = false := by
    cases hq : expired m now e with
    | false => rfl
    | true =>
      obtain ⟨h1, h2, h3⟩ := (expired_iff m now e).1 hq
      rw [Nat.mul_comm] at h1
      rcases hkeep with hk | hk | hk
      · omega
      · exact absurd hk h2
      · exact absurd hk h3
  have hne : ∀ it, expire_first m now = some it → it ≠ e := by
    intro it hit q
    have := (expire_first_some m now it hit).1
    rw [q, hexp] at this
    exact absurd this (by simp)
  refine ⟨hexp, fun q => hne e q rfl, ?_, ?_, ?_, ?_⟩
  · intro it hit
    obtain ⟨-, pre, post, hsplit, -⟩ := expire_first_some m now it hit
    have hit_mem : it ∈ m.id2slot_ := by rw [hsplit]; simp
    refine List.mem_filter.2 ⟨he, ?_⟩
    have : e.handle ≠ it.handle := by
      intro q
      have hs := handle_eq_src_eq m.id2slot_ e it hnd he hit_mem q
      apply hne it hit
      cases e
      cases it
      simp only at q hs
      subst q
      subst hs
      rfl
    simpa using this
  · intro r hr
    obtain ⟨-, rfl⟩ := (expire_scan_eq_some m now r).1 hr
    exact he
  · intro m' hm'
    obtain ⟨-, rfl⟩ := (expire_ids_eq_some m m' now).1 hm'
    exact he
  · intro hauto m' sigs htick
    simp only [send_poll] at htick
    split at htick
    · simp at htick
    · rename_i S hS
      simp only [Option.map_eq_some', Prod.mk.injEq] at htick
      obtain ⟨m1, hadv, rfl, -⟩ := htick
      obtain ⟨-, hfin⟩ := advance_auto_some m m1 S now hauto hadv
      rw [(finish_auto_tick_some _ m1 hfin).2.1]
      exact he

/-- Instance of amended C9: in the tick run at 00:00:05 of `auto_wrap_peer23`, where the
wrapped product is 4 s, modem 3 was last heard at 00:00:01.5, after the threshold
00:00:01: its entry does not pass the test and stays when the entry of modem 2 is
erased. -/
theorem expire_scan_keeps_witness :
    ({ handle := 3, slot := auto_slot auto_cfg 3 1500000 } ∈ auto_wrap_peer23.id2slot_
        ∧ (auto_wrap_peer23.id2slot_.map (fun x => x.handle)).Nodup
        ∧ (auto_slot auto_cfg 3 1500000).last_heard_time
            ≥ 5000000 - seconds ((auto_wrap_peer23.cfg_.expire_cycles
                * cycle_length auto_wrap_peer23) % 4294967296))
      ∧ expired auto_wrap_peer23 5000000
          { handle := 3, slot := auto_slot auto_cfg 3 1500000 } = false
      ∧ ∀ it, expire_first auto_wrap_peer23 5000000 = some it →
          { handle := 3, slot := auto_slot auto_cfg 3 1500000 }
            ∈ (expire_erase auto_wrap_peer23 it).id2slot_ :=
  ⟨⟨by decide, by decide, by decide⟩,
   (expire_scan_keeps auto_wrap_peer23 5000000
      { handle := 3, slot := auto_slot auto_cfg 3 1500000 } (by decide) (by decide)
      (Or.inl (by decide))).1,
   (expire_scan_keeps auto_wrap_peer23 5000000
      { handle := 3, slot := auto_slot auto_cfg 3 1500000 } (by decide) (by decide)
      (Or.inl (by decide))).2.2.1⟩

/-- C10 at a failing input, scenario S4: modem 1 (slots of 10 s, `expire_cycles = 3`)
has admitted modem 7 at 00:00:00 and hears nothing more; the ticks up to 00:01:30 evict
nothing. At the tick run at 00:01:40 the entry of modem 7, the last of the table, is
older than `now - expire_cycles * cycle_length = 00:00:10` and is neither self nor blank:
the loop of `expire_ids` erases its node and then steps on with the iterator of the
erased node, so the tick has no defined result, and no state in which the slot is
absent is reached. -/
theorem evicting_tick_undefined :
    reachable_auto S3_peer7
      ∧ after_ticks S3_peer7
          [30000000, 40000000, 50000000, 60000000, 70000000, 80000000, 90000000]
          = some S3_silent
      ∧ S3_silent.cfg_.type = MACType.MAC_AUTO_DECENTRALIZED
      ∧ S3_silent.timer_ = some 100000000
      ∧ current_slot S3_silent = some (auto_slot S3_cfg 7 0)
      ∧ S3_silent.id2slot_.getLast? = some { handle := 2, slot := auto_slot S3_cfg 7 0 }
      ∧ (auto_slot S3_cfg 7 0).last_heard_time
          < 100000000 - seconds (S3_silent.cfg_.expire_cycles * cycle_length S3_silent)
      ∧ (auto_slot S3_cfg 7 0).src ≠ S3_silent.cfg_.modem_id
      ∧ (auto_slot S3_cfg 7 0).src ≠ BROADCAST_ID
      ∧ expire_first { S3_silent with
            current_slot_ := cursor_incr S3_silent.slot_order_ S3_silent.current_slot_ }
          100000000 = some { handle := 2, slot := auto_slot S3_cfg 7 0 }
      ∧ expire_scan { S3_silent with
            current_slot_ := cursor_incr S3_silent.slot_order_ S3_silent.current_slot_ }
          100000000 = none
      ∧ send_poll S3_silent ErrorCode.success 100000000 = none :=
  ⟨reachable_S3_peer7, by decide, by decide, by decide, by decide, by decide, by decide,
    by decide, by decide, by decide, by decide, by decide⟩

/-- C11: in auto-discovery mode with `cfg.modem_id ≠ BROADCAST_ID`, in every state
reached from `startup` of an idle manager by inbound frames (of any `src`) and timer
handler calls, every reference of the slot sequence is to a slot of the table, and
exactly one of them is to a slot with `src = BROADCAST_ID`; and the same holds when the
loop of `expire_ids` has erased the first entry that passes its test. -/
theorem auto_one_blank (m : MACManager) (hr : reachable_auto m)
    (hid : m.cfg_.modem_id ≠ BROADCAST_ID) :
    m.cfg_.type = MACType.MAC_AUTO_DECENTRALIZED
      ∧ (∀ x ∈ m.slot_order_, (slot_at m.id2slot_ x).isSome = true)
      ∧ (m.slot_order_.map (src_of m.id2slot_)).count BROADCAST_ID = 1
      ∧ ∀ now it, expire_first m now = some it →
          (∀ x ∈ (expire_erase m it).slot_order_,
              (slot_at (expire_erase m it).id2slot_ x).isSome = true)
            ∧ ((expire_erase m it).slot_order_.map
                (src_of (expire_erase m it).id2slot_)).count BROADCAST_ID = 1 := by
  have hinv := auto_inv_of_reachable m hr
  refine ⟨hinv.1, (auto_inv_one_blank m hinv hid).1, (auto_inv_one_blank m hinv hid).2, ?_⟩
  intro now it hit
  exact auto_inv_one_blank _ (auto_inv_expire_erase m now it hinv hit) hid

/-- Instance of C11: scenario S3, modem 1 with slots of 10 s, after `startup`, the frame
from modem 7 and the tick at 00:00:30. -/
theorem auto_one_blank_witness :
    (reachable_auto S3_peer7_ticked ∧ S3_peer7_ticked.cfg_.modem_id ≠ BROADCAST_ID)
      ∧ S3_peer7_ticked.cfg_.type = MACType.MAC_AUTO_DECENTRALIZED
      ∧ (∀ x ∈ S3_peer7_ticked.slot_order_,
          (slot_at S3_peer7_ticked.id2slot_ x).isSome = true)
      ∧ (S3_peer7_ticked.slot_order_.map (src_of S3_peer7_ticked.id2slot_)).count
          BROADCAST_ID = 1 :=
  ⟨⟨reachable_S3_peer7_ticked, by decide⟩,
   (auto_one_blank S3_peer7_ticked reachable_S3_peer7_ticked (by decide)).1,
   (auto_one_blank S3_peer7_ticked reachable_S3_peer7_ticked (by decide)).2.1,
   (auto_one_blank S3_peer7_ticked reachable_S3_peer7_ticked (by decide)).2.2.1⟩

/-- C12 as stated fails when a manager's own id is `BROADCAST_ID`: modem 0 that has heard
modem 5, and modem 5 that has heard nobody, are both in auto-discovery mode with
`slot_seconds = 1`, their tables hold the same set of `src` values (0 and 5) and both
count cycle 1; but the table of modem 0 holds two slots of `src` 0, so `blank_pos` is 2
on the one and 1 on the other, and blank placement leaves the `src` orders `[0, 5, 0]`
and `[5, 0]`. -/
theorem blank_placement_counterexample :
    reachable_auto auto_id0_peer5 ∧ reachable_auto auto_id5_started
      ∧ auto_id0_peer5.cfg_.type = MACType.MAC_AUTO_DECENTRALIZED
      ∧ auto_id5_started.cfg_.type = MACType.MAC_AUTO_DECENTRALIZED
      ∧ auto_id0_peer5.ENTROPY = auto_id5_started.ENTROPY
      ∧ auto_id0_peer5.cfg_.slot_seconds = auto_id5_started.cfg_.slot_seconds
      ∧ (∀ x, x ∈ auto_id0_peer5.id2slot_.map (fun e => e.slot.src)
              ↔ x ∈ auto_id5_started.id2slot_.map (fun e => e.slot.src))
      ∧ auto_id0_peer5.cycles_since_day_start_ = auto_id5_started.cycles_since_day_start_
      ∧ blank_pos auto_id0_peer5 = 2 ∧ blank_pos auto_id5_started = 1
      ∧ (position_blank auto_id0_peer5).map (fun m => m.slot_order_.map (src_of m.id2slot_))
          = some [0, 5, 0]
      ∧ (position_blank auto_id5_started).map (fun m => m.slot_order_.map (src_of m.id2slot_))
          = some [5, 0] := by
  refine ⟨reachable_auto_id0_peer5, reachable_auto_id5_started, by decide, by decide,
    by decide, by decide, ?_, by decide, by decide, by decide, by decide, by decide⟩
  intro x
  simp [auto_id0_peer5, auto_id5_started, auto_slot]

/-- C12, amended: for two managers in auto-discovery mode, each with an own id other than
`BROADCAST_ID` and each in a state reached from `startup` by inbound frames and timer
handler calls, with the same `ENTROPY`, the same `cfg.slot_seconds`, the same set of
`src` values in their tables and the same `cycles_since_day_start_`: `blank_pos` is the
same on both, `position_blank` has a result on both, and the results have the same order
of `src` values in their sequences. -/
theorem blank_placement_deterministic (m1 m2 : MACManager)
    (hr1 : reachable_auto m1) (hr2 : reachable_auto m2)
    (hid1 : m1.cfg_.modem_id ≠ BROADCAST_ID) (hid2 : m2.cfg_.modem_id ≠ BROADCAST_ID)
    (hE : m1.ENTROPY = m2.ENTROPY)
    (hss : m1.cfg_.slot_seconds = m2.cfg_.slot_seconds)
    (hset : ∀ x, x ∈ m1.id2slot_.map (fun e => e.slot.src)
                ↔ x ∈ m2.id2slot_.map (fun e => e.slot.src))
    (hcyc : m1.cycles_since_day_start_ = m2.cycles_since_day_start_) :
    blank_pos m1 = blank_pos m2
      ∧ ∃ p1 p2, position_blank m1 = some p1 ∧ position_blank m2 = some p2
          ∧ p1.slot_order_.map (src_of p1.id2slot_)
              = p2.slot_order_.map (src_of p2.id2slot_) :=
  auto_inv_placement m1 m2 (auto_inv_of_reachable m1 hr1) (auto_inv_of_reachable m2 hr2)
    hid1 hid2 hE hss hset hcyc

/-- Instance of amended C12, with slots of 10 s: modem 1 that has heard modem 7 (admitted
in the order 0, 1, 7), and modem 7 that has heard modem 1 (admitted in the order 0, 7,
1). Both compute `blank_pos = 29` and leave the `src` order `[1, 7, 0]`. -/
theorem blank_placement_deterministic_witness :
    (reachable_auto S3_peer7 ∧ reachable_auto S3_id7_peer1
        ∧ S3_peer7.cfg_.modem_id ≠ BROADCAST_ID
        ∧ S3_id7_peer1.cfg_.modem_id ≠ BROADCAST_ID
        ∧ S3_peer7.ENTROPY = S3_id7_peer1.ENTROPY
        ∧ S3_peer7.cfg_.slot_seconds = S3_id7_peer1.cfg_.slot_seconds
        ∧ (∀ x, x ∈ S3_peer7.id2slot_.map (fun e => e.slot.src)
                ↔ x ∈ S3_id7_peer1.id2slot_.map (fun e => e.slot.src))
        ∧ S3_peer7.cycles_since_day_start_ = S3_id7_peer1.cycles_since_day_start_)
      ∧ (blank_pos S3_peer7 = 29 ∧ blank_pos S3_id7_peer1 = 29
          ∧ (position_blank S3_peer7).map (fun m => m.slot_order_.map (src_of m.id2slot_))
              = some [1, 7, 0]
          ∧ (position_blank S3_id7_peer1).map
                (fun m => m.slot_order_.map (src_of m.id2slot_)) = some [1, 7, 0])
      ∧ blank_pos S3_peer7 = blank_pos S3_id7_peer1
      ∧ ∃ p1 p2, position_blank S3_peer7 = some p1 ∧ position_blank S3_id7_peer1 = some p2
          ∧ p1.slot_order_.map (src_of p1.id2slot_)
              = p2.slot_order_.map (src_of p2.id2slot_) :=
  ⟨⟨reachable_S3_peer7, reachable_S3_id7_peer1, by decide, by decide, by decide,
      by decide, by intro x; simp [S3_peer7, S3_started, S3_id7_peer1, auto_slot],
      by decide⟩,
   ⟨by decide, by decide, by decide, by decide⟩,
   blank_placement_deterministic S3_peer7 S3_id7_peer1 reachable_S3_peer7
      reachable_S3_id7_peer1 (by decide) (by decide) (by decide) (by decide)
      (by intro x; simp [S3_peer7, S3_started, S3_id7_peer1, auto_slot])
      (by decide)⟩

/-- C13 as stated fails, scenario S3: modem 1 (slots of 10 s), just started, admits
modem 7, and its sequence then has the `src` order `[1, 7, 0]`. After the sort,
`process_cycle_size_change` has called `position_blank`, which puts the blank slot (`src`
0) on the position it computes, here behind the others. -/
theorem sorted_after_change_counterexample :
    reachable_auto S3_started
      ∧ S3_started.cfg_.type = MACType.MAC_AUTO_DECENTRALIZED
      ∧ (∀ e ∈ S3_started.id2slot_, e.slot.src ≠ 7)
      ∧ handle_modem_all_incoming S3_started { src := 7, dest := 0, rate := none } 0
          = some S3_peer7
      ∧ S3_peer7.slot_order_.map (src_of S3_peer7.id2slot_) = [1, 7, 0]
      ∧ ¬ (S3_peer7.slot_order_.map (src_of S3_peer7.id2slot_)).Pairwise
            (fun x y => x ≤ y) :=
  ⟨reachable_S3_started, by decide, by decide, by decide, by decide, by decide⟩

/-- C13, amended: in auto-discovery mode, in a state reached from `startup` by inbound
frames and timer handler calls, `handle_modem_all_incoming` admits a new `src`, and
immediately afterwards the slot sequence holds the reference `blank_it_` to the blank
slot (`src = BROADCAST_ID`), and the sequence without that reference is sorted by `src`
in ascending order. -/
theorem sorted_without_blank_after_admission (m : MACManager) (msg : ModemMsgBase)
    (now : Int) (hr : reachable_auto m) (hnew : ∀ e ∈ m.id2slot_, e.slot.src ≠ msg.src) :
    ∃ m', handle_modem_all_incoming m msg now = some m'
      ∧ m'.id2slot_.length = m.id2slot_.length + 1
      ∧ m'.cfg_.type = MACType.MAC_AUTO_DECENTRALIZED
      ∧ ∃ b, m'.blank_it_ = some b ∧ b ∈ m'.slot_order_
          ∧ src_of m'.id2slot_ b = BROADCAST_ID
          ∧ ((list_remove m'.slot_order_ b).map (src_of m'.id2slot_)).Pairwise
              (fun x y => x ≤ y) := by
  have hinv := auto_inv_of_reachable m hr
  obtain ⟨m', hin⟩ := auto_incoming_total m msg now hinv (auto_ss_pos_of_reachable m hr)
  obtain ⟨hty, b, hb, hbase, hs⟩ := auto_inv_incoming m m' msg now hinv hin
  refine ⟨m', hin, ?_, hty, b, hb, (auto_base_mem_blank _ _ _ _ _ hbase).1,
    (auto_base_blank _ _ _ _ _ hbase).1, hs⟩
  have hcount : (m.id2slot_.filter (fun e => e.slot.src = msg.src)).length = 0 := by
    rw [List.length_eq_zero, List.filter_eq_nil_iff]
    intro e he
    simpa using hnew e he
  unfold handle_modem_all_incoming at hin
  simp only [hinv.1, ne_eq, not_true_eq_false, if_false, hcount, if_true] at hin
  rw [(process_cycle_size_change_frame _ _ now hin).2.1]
  show (multimap_insert _ m.id2slot_).length = _
  rw [(multimap_insert_perm _ _).length_eq]
  rfl

/-- Instance of amended C13: scenario S3, the frame from modem 7 on the manager just
started; the sequence `[1, 7, 0]` without the blank is `[1, 7]`. -/
theorem sorted_without_blank_after_admission_witness :
    (reachable_auto S3_started ∧ ∀ e ∈ S3_started.id2slot_, e.slot.src ≠ 7)
      ∧ handle_modem_all_incoming S3_started { src := 7, dest := 0, rate := none } 0
          = some S3_peer7
      ∧ (list_remove S3_peer7.slot_order_ 0).map (src_of S3_peer7.id2slot_) = [1, 7]
      ∧ ∃ m', handle_modem_all_incoming S3_started { src := 7, dest := 0, rate := none } 0
            = some m'
          ∧ m'.id2slot_.length = S3_started.id2slot_.length + 1
          ∧ m'.cfg_.type = MACType.MAC_AUTO_DECENTRALIZED
          ∧ ∃ b, m'.blank_it_ = some b ∧ b ∈ m'.slot_order_
              ∧ src_of m'.id2slot_ b = BROADCAST_ID
              ∧ ((list_remove m'.slot_order_ b).map (src_of m'.id2slot_)).Pairwise
                  (fun x y => x ≤ y) :=
  ⟨⟨reachable_S3_started, by decide⟩, by decide, by decide,
   sorted_without_blank_after_admission S3_started { src := 7, dest := 0, rate := none } 0
      reachable_S3_started (by decide)⟩

/-- C15 at a failing input: scenario S1 after its first tick (cursor on the second slot,
due at 00:00:30, first cycle of the day). `remove_slot` of a slot the table does not hold,
at 00:00:25, returns `false` and leaves table, sequence and cursor alone, but
`process_cycle_size_change` has run: `next_slot_t_` and the pending wait moved to
00:00:40 and `cycles_since_day_start_` from 1 to 2. -/
theorem remove_slot_absent_side_effect :
    send_poll S1_started ErrorCode.success 20000000
        = some (S1_second, [Signal.initiate_transmission { src := 1, dest := 2, rate := some 0 }])
      ∧ (∀ e ∈ S1_second.id2slot_, slot_eq S1_absent e.slot = false)
      ∧ remove_slot S1_second S1_absent 25000000 = some (S1_realigned, false)
      ∧ S1_realigned.id2slot_ = S1_second.id2slot_
      ∧ S1_realigned.slot_order_ = S1_second.slot_order_
      ∧ S1_realigned.current_slot_ = S1_second.current_slot_
      ∧ S1_second.next_slot_t_ = 30000000 ∧ S1_realigned.next_slot_t_ = 40000000
      ∧ S1_second.timer_ = some 30000000 ∧ S1_realigned.timer_ = some 40000000
      ∧ S1_second.cycles_since_day_start_ = 1 ∧ S1_realigned.cycles_since_day_start_ = 2 := by
  decide

/-- C16 at a failing input: scenario S1 configured with its first slot only.
`remove_slot` of that slot empties the sequence, and `process_cycle_size_change`, called
before the test for an empty sequence, has `next_cycle_time` divide the seconds since
midnight by a cycle length of 0: the call has no defined result, so `stop_timer` is never
reached. -/
theorem remove_only_slot_undefined :
    startup (idle 5039) S1_cfg_single 0 = some S1_single
      ∧ S1_single.id2slot_ = [{ handle := 0, slot := S1_slot_a }]
      ∧ S1_single.id2slot_.find? (fun e => slot_eq S1_slot_a e.slot)
          = some { handle := 0, slot := S1_slot_a }
      ∧ (without_slot S1_single 0).slot_order_ = []
      ∧ cycle_length (without_slot S1_single 0) = 0
      ∧ next_cycle_time (without_slot S1_single 0) 5000000 = none
      ∧ process_cycle_size_change (without_slot S1_single 0) 5000000 = none
      ∧ remove_slot S1_single S1_slot_a 5000000 = none := by
  decide

/-- C17: in a state in which `startup` has completed (`startup_done_` is set, as every
`startup` in one of the three known modes leaves it), `startup(cfg')` returns the state
as it is, for every `cfg'`: configuration, table, sequence, cursor, `next_slot_t_`,
`cycles_since_day_start_` and timer are unchanged. -/
theorem startup_twice_noop (m : MACManager) (cfg' : MACConfig) (now : Int)
    (hdone : m.startup_done_ = true) :
    startup m cfg' now = some m
      ∧ ∀ (m0 m1 : MACManager) (cfg : MACConfig) (t : Int),
          cfg.type ≠ MACType.MAC_NONE → startup m0 cfg t = some m1 →
          m1.startup_done_ = true ∧ startup m1 cfg' now = some m1 := by
  have key : ∀ x : MACManager, x.startup_done_ = true → startup x cfg' now = some x := by
    intro x hx
    simp [startup, hx]
  refine ⟨key m hdone, ?_⟩
  intro m0 m1 cfg t hty hst
  have hd : m1.startup_done_ = true := by
    cases h0 : m0.startup_done_ with
    | true =>
      have : startup m0 cfg t = some m0 := by simp [startup, h0]
      rw [this] at hst
      simp only [Option.some.injEq] at hst
      rw [← hst]; exact h0
    | false => exact (startup_accepted m0 m1 cfg t h0 hst).2 hty
  exact ⟨hd, key m1 hd⟩

/-- Instance of C17: a second `startup` of scenario S1, with another configuration. -/
theorem startup_twice_noop_witness :
    S1_started.startup_done_ = true
      ∧ startup S1_started auto_cfg 30000000 = some S1_started :=
  ⟨by decide, (startup_twice_noop S1_started auto_cfg 30000000 (by decide)).1⟩

/-- C18: from every state, `shutdown` leaves an empty table and an empty sequence, the
cursor at `end()`, no pending wait, `timer_is_running_` and `startup_done_` false; a second
`shutdown` changes nothing more; and a following `startup` is not turned away: it stores
its configuration and, in a known mode, sets `startup_done_`; in polled or fixed mode with
a first slot of positive length it completes with the timer running and the configured
cycle as sequence. -/
theorem shutdown_spec (m : MACManager) :
    (shutdown m).id2slot_ = [] ∧ (shutdown m).slot_order_ = []
      ∧ (shutdown m).current_slot_ = Cursor.end_
      ∧ (shutdown m).timer_is_running_ = false ∧ (shutdown m).timer_ = none
      ∧ (shutdown m).startup_done_ = false
      ∧ shutdown (shutdown m) = shutdown m
      ∧ (∀ (cfg : MACConfig) (now : Int) (m' : MACManager),
          startup (shutdown m) cfg now = some m' →
          m'.cfg_ = cfg ∧ (cfg.type ≠ MACType.MAC_NONE → m'.startup_done_ = true))
      ∧ (∀ (cfg : MACConfig) (now : Int) (s : Slot) (rest : List Slot),
          (cfg.type = MACType.MAC_POLLED ∨ cfg.type = MACType.MAC_FIXED_DECENTRALIZED) →
          cfg.cycle = s :: rest → 0 < s.slot_seconds →
          ∃ m', startup (shutdown m) cfg now = some m'
            ∧ m'.startup_done_ = true ∧ m'.timer_is_running_ = true
            ∧ m'.slot_order_.map (slot_at m'.id2slot_) = cfg.cycle.map some) := by
  refine ⟨rfl, rfl, rfl, rfl, rfl, rfl, rfl, ?_, ?_⟩
  · intro cfg now m' hst
    exact startup_accepted (shutdown m) m' cfg now rfl hst
  · intro cfg now s rest hmode hc hs
    have hna : ({ shutdown m with cfg_ := cfg } : MACManager).cfg_.type
        ≠ MACType.MAC_AUTO_DECENTRALIZED := by
      rcases hmode with h | h <;> simp [h]
    have hfresh : handles_fresh { shutdown m with cfg_ := cfg } := by
      constructor <;> intro x hx <;> simp [shutdown, stop_timer] at hx
    have hst : startup (shutdown m) cfg now
        = (add_slots { shutdown m with cfg_ := cfg } now cfg.cycle).map startup_finish := by
      unfold startup
      rcases hmode with h | h <;> simp [shutdown, stop_timer, h]
    have hsome : (add_slots { shutdown m with cfg_ := cfg } now cfg.cycle).isSome = true := by
      rw [hc]
      have hne : ¬ (cycle_length { shutdown m with cfg_ := cfg } + s.slot_seconds = 0) := by
        omega
      have hadd := add_slot_fixed _ s now hna hfresh
      rw [if_neg hne] at hadd
      simp only [add_slots, hadd]
      apply add_slots_fixed_isSome
      · exact hna
      · exact handles_fresh_with_slot _ s hfresh
      · show 0 < cycle_length (with_slot _ s)
        rw [cycle_length_with_slot _ s hfresh]; omega
    obtain ⟨m1, h1⟩ := Option.isSome_iff_exists.1 hsome
    obtain ⟨-, -, -, -, -, -, hmap, hmore⟩ := add_slots_fixed now cfg.cycle _ m1 hna hfresh h1
    obtain ⟨-, hpos, -, -, -⟩ := hmore (by rw [hc]; simp)
    have hone : m1.slot_order_ ≠ [] := cycle_length_pos_order_ne_nil m1 (by omega)
    refine ⟨startup_finish m1, by rw [hst, h1]; rfl, startup_finish_done m1, ?_, ?_⟩
    · simp [startup_finish, hone, restart_timer]
    · have e1 : (startup_finish m1).slot_order_ = m1.slot_order_ := by
        unfold startup_finish; split <;> rfl
      have e2 : (startup_finish m1).id2slot_ = m1.id2slot_ := by
        unfold startup_finish; split <;> rfl
      rw [e1, e2, hmap]
      simp [shutdown, stop_timer]

/-- C19: after `shutdown`, in whatever mode, any number of `do_work` calls, at any clock
readings, raise no signal and leave the state as `shutdown` left it (`do_work` polls only
while `timer_is_running_`); and the timer handler called with the cancelled status raises
no signal and changes no state. -/
theorem no_signal_after_shutdown (m : MACManager) (fuel : Nat) (ts : List Int)
    (m0 : MACManager) (now : Int) :
    do_work_calls fuel (shutdown m) ts = some (shutdown m, [])
      ∧ send_poll m0 ErrorCode.operation_aborted now = some (m0, []) := by
  refine ⟨?_, rfl⟩
  induction ts with
  | nil => rfl
  | cons t rest ih =>
    have h1 : do_work fuel (shutdown m) t = some (shutdown m, []) := by
      simp [do_work, shutdown, stop_timer]
    simp only [do_work_calls, h1, ih]
    rfl

/-- C20, as stated, fails for `slot_seconds = 0`: `startup` checks nothing. In polled mode
`cfg.slot_seconds` is not read at all: scenario S1 with `cfg.slot_seconds = 0` starts as
it does otherwise (`startup_done_` set, two slots, timer running). In auto-discovery mode
the blank slot gets length 0 and `next_cycle_time` divides by a cycle length of 0, so the
call has no defined result. -/
theorem startup_zero_slot_seconds_counterexample :
    S1_cfg_zero.slot_seconds = 0
      ∧ startup (idle 5039) S1_cfg_zero 0 = some { S1_started with cfg_ := S1_cfg_zero }
      ∧ ({ S1_started with cfg_ := S1_cfg_zero } : MACManager).startup_done_ = true
      ∧ ({ S1_started with cfg_ := S1_cfg_zero } : MACManager).id2slot_.length = 2
      ∧ ({ S1_started with cfg_ := S1_cfg_zero } : MACManager).timer_is_running_ = true
      ∧ auto_cfg_zero.slot_seconds = 0
      ∧ startup (idle 5039) auto_cfg_zero 0 = none := by
  decide

/-- C20 (amended): for every configuration whose mode is none of the three, `startup` on
an idle manager only stores the configuration: `startup_done_` stays false, the table and
the sequence stay empty and the timer is not running. -/
theorem startup_unknown_mode (E : Nat) (cfg : MACConfig) (now : Int)
    (hmode : cfg.type = MACType.MAC_NONE) :
    startup (idle E) cfg now = some { idle E with cfg_ := cfg }
      ∧ ({ idle E with cfg_ := cfg } : MACManager).startup_done_ = false
      ∧ ({ idle E with cfg_ := cfg } : MACManager).id2slot_ = []
      ∧ ({ idle E with cfg_ := cfg } : MACManager).slot_order_ = []
      ∧ ({ idle E with cfg_ := cfg } : MACManager).timer_is_running_ = false
      ∧ ({ idle E with cfg_ := cfg } : MACManager).timer_ = none := by
  refine ⟨?_, rfl, rfl, rfl, rfl, rfl⟩
  simp [startup, idle, hmode]

/-- Instance of C20 (amended): scenario S1 with its mode unset. -/
theorem startup_unknown_mode_witness :
    none_cfg.type = MACType.MAC_NONE
      ∧ startup (idle 5039) none_cfg 0 = some { idle 5039 with cfg_ := none_cfg } :=
  ⟨by decide, (startup_unknown_mode 5039 none_cfg 0 (by decide)).1⟩

/-- C21: for every auto-discovery configuration with `slot_seconds > 0`, whatever its
`cycle` holds, `startup` on an idle manager has a result; in it the table holds exactly
two slots, the blank (`src = BROADCAST_ID`) and self (`src = cfg.modem_id`), both with
`dest = QUERY_DESTINATION_ID`, `rate = cfg.rate`, `type = DATA`,
`slot_seconds = cfg.slot_seconds`; the sequence refers to these two and nothing else, the
cursor is on its first slot, the timer is running and `startup_done_` is set. -/
theorem startup_auto_two_slots (E : Nat) (cfg : MACConfig) (now : Int)
    (hty : cfg.type = MACType.MAC_AUTO_DECENTRALIZED) (hss : 0 < cfg.slot_seconds) :
    ∃ m, startup (idle E) cfg now = some m
      ∧ m.id2slot_
          = [{ handle := 0,
               slot := { src := BROADCAST_ID, dest := QUERY_DESTINATION_ID, rate := cfg.rate,
                         type := SlotType.SLOT_DATA, slot_seconds := cfg.slot_seconds,
                         last_heard_time := now } },
             { handle := 1,
               slot := { src := cfg.modem_id, dest := QUERY_DESTINATION_ID, rate := cfg.rate,
                         type := SlotType.SLOT_DATA, slot_seconds := cfg.slot_seconds,
                         last_heard_time := now } }]
      ∧ m.slot_order_.Perm [0, 1]
      ∧ m.current_slot_ = list_begin m.slot_order_
      ∧ (∃ h, m.current_slot_ = Cursor.node h ∧ m.slot_order_.head? = some h)
      ∧ (current_slot m).isSome = true
      ∧ m.timer_is_running_ = true ∧ m.timer_ = some m.next_slot_t_
      ∧ m.startup_done_ = true ∧ m.cfg_ = cfg := by
  obtain ⟨m, hm⟩ := auto_startup_total E cfg now hty hss
  obtain ⟨-, hcfg, -, htbl, -, -, hperm, hcur, -, -, htm, hrun, hsd⟩ :=
    auto_startup_state E cfg now m hty hm
  refine ⟨m, hm, htbl, hperm, hcur, ?_, ?_, hrun, htm, hsd, hcfg⟩
  · cases ho : m.slot_order_ with
    | nil =>
      rw [ho] at hperm
      simpa using hperm.length_eq
    | cons x rest =>
      rw [hcur, ho]
      exact ⟨x, rfl, rfl⟩
  · obtain ⟨-, -, ⟨hlive, hc, -⟩, hne⟩ := auto_live_startup E cfg now m hty hm
    rcases hc with he | ⟨h, h1, h2⟩
    · exact absurd he hne
    · exact current_slot_isSome m h h1 h2 (hlive h h2)

/-- Instance of C21: scenario S3 (modem 1, slots of 10 s), started at 1970-01-01
00:00:00. -/
theorem startup_auto_two_slots_witness :
    (S3_cfg.type = MACType.MAC_AUTO_DECENTRALIZED ∧ 0 < S3_cfg.slot_seconds)
      ∧ startup (idle 5039) S3_cfg 0 = some S3_started
      ∧ ∃ m, startup (idle 5039) S3_cfg 0 = some m
          ∧ m.id2slot_
              = [{ handle := 0,
                   slot := { src := BROADCAST_ID, dest := QUERY_DESTINATION_ID, rate := 0,
                             type := SlotType.SLOT_DATA, slot_seconds := 10,
                             last_heard_time := 0 } },
                 { handle := 1,
                   slot := { src := 1, dest := QUERY_DESTINATION_ID, rate := 0,
                             type := SlotType.SLOT_DATA, slot_seconds := 10,
                             last_heard_time := 0 } }]
          ∧ m.slot_order_.Perm [0, 1]
          ∧ m.current_slot_ = list_begin m.slot_order_
          ∧ (∃ h, m.current_slot_ = Cursor.node h ∧ m.slot_order_.head? = some h)
          ∧ (current_slot m).isSome = true
          ∧ m.timer_is_running_ = true ∧ m.timer_ = some m.next_slot_t_
          ∧ m.startup_done_ = true ∧ m.cfg_ = S3_cfg :=
  ⟨⟨by decide, by decide⟩, by decide,
   startup_auto_two_slots 5039 S3_cfg 0 (by decide) (by decide)⟩

/-- C22: in polled and fixed modes `handle_modem_all_incoming` returns the state it was
given, for every frame and every clock reading: table (and every `last_heard_time` in
it), sequence, cursor, `next_slot_t_`, timer and all other members are unchanged. -/
theorem handle_incoming_fixed_noop (m : MACManager) (msg : ModemMsgBase) (now : Int)
    (hmode : m.cfg_.type = MACType.MAC_POLLED
      ∨ m.cfg_.type = MACType.MAC_FIXED_DECENTRALIZED) :
    handle_modem_all_incoming m msg now = some m := by
  unfold handle_modem_all_incoming
  rcases hmode with h | h <;> simp [h]

/-- Instance of C22: scenario S1 (polled) hears modem 9, which has no slot. -/
theorem handle_incoming_fixed_noop_witness :
    (S1_started.cfg_.type = MACType.MAC_POLLED
        ∨ S1_started.cfg_.type = MACType.MAC_FIXED_DECENTRALIZED)
      ∧ handle_modem_all_incoming S1_started { src := 9, dest := 0, rate := none } 25000000
          = some S1_started :=
  ⟨by decide,
   handle_incoming_fixed_noop S1_started { src := 9, dest := 0, rate := none } 25000000
      (by decide)⟩

/-- C23: for every clock reading `now` and every state with `cycle_length > 0`,
`next_cycle_time` returns an instant `t` with `now < t` and `t` at most `cycle_length`
seconds after the whole-second part of `now`; `t` is the same for every other state of
the same cycle length, whatever its `next_slot_t_` and `cycles_since_day_start_`. The
count of seconds past midnight that is converted to `t` is at most the seconds since
midnight plus `cycle_length`. -/
theorem next_cycle_time_future (m : MACManager) (now : Int) (hL : 0 < cycle_length m) :
    ∃ t, (next_cycle_time m now).map (fun r => r.2) = some t
      ∧ now < t
      ∧ t ≤ universal_day now + seconds (since_day_start now) + seconds (cycle_length m)
      ∧ t = universal_day now
              + seconds ((since_day_start now / cycle_length m + 1) * cycle_length m)
      ∧ (since_day_start now / cycle_length m + 1) * cycle_length m
          ≤ since_day_start now + cycle_length m
      ∧ ∀ m2 : MACManager, cycle_length m2 = cycle_length m →
          (next_cycle_time m2 now).map (fun r => r.2) = some t := by
  have h0 : cycle_length m ≠ 0 := by omega
  obtain ⟨hlo, hhi, -⟩ := day_clock_bounds now
  obtain ⟨b1, b2⟩ := next_cycle_bounds (since_day_start now) (cycle_length m) hL
  refine ⟨universal_day now
      + seconds ((since_day_start now / cycle_length m + 1) * cycle_length m),
    by simp [next_cycle_time, h0], ?_, ?_, rfl, b2, ?_⟩
  · have := seconds_le_seconds (Nat.succ_le_of_lt b1)
    simp only [Nat.succ_eq_add_one] at this
    omega
  · have := seconds_le_seconds b2
    rw [← seconds_add] at this
    omega
  · intro m2 h2
    have h0' : cycle_length m2 ≠ 0 := by omega
    simp [next_cycle_time, h2, h0]

/-- Instance of C23: scenario S1 (cycle of 20 s), whose `next_slot_t_` is 00:00:20 of
1970-01-01, read at 00:00:25.5 of the day before. -/
theorem next_cycle_time_future_witness :
    0 < cycle_length S1_started
      ∧ ∃ t, (next_cycle_time S1_started (-86374500000)).map (fun r => r.2) = some t
          ∧ -86374500000 < t
          ∧ t ≤ universal_day (-86374500000) + seconds (since_day_start (-86374500000))
                + seconds (cycle_length S1_started)
          ∧ t = universal_day (-86374500000)
                  + seconds ((since_day_start (-86374500000) / cycle_length S1_started + 1)
                      * cycle_length S1_started)
          ∧ (since_day_start (-86374500000) / cycle_length S1_started + 1)
                * cycle_length S1_started
              ≤ since_day_start (-86374500000) + cycle_length S1_started
          ∧ ∀ m2 : MACManager, cycle_length m2 = cycle_length S1_started →
              (next_cycle_time m2 (-86374500000)).map (fun r => r.2) = some t :=
  ⟨by decide, next_cycle_time_future S1_started (-86374500000) (by decide)⟩

/-- C24 at a failing input: the sequence of scenario S3 when `position_blank` is first
called on it (inside `startup`, blank and self, slots of 10 s, first cycle of the day).
`cycle_length` is 20, in seconds, and `cycle_sum` is 1, so `blank_pos = 20 - 1 - 1 = 18`.
Without the blank the sequence has one element; the walk of 18 steps from `begin()` goes
round the circular list and stops on position `18 mod 2 = 0`, so the blank is put at
index 0 of the sequence, not at index `blank_pos` (which is no index of a sequence of
two). With slots of 1 s, as in `auto_peer2`, the cycle length is the number of slots and
the blank lands on index `blank_pos`. -/
theorem position_blank_ten_seconds_index :
    S3_two_slots.cfg_.type = MACType.MAC_AUTO_DECENTRALIZED
      ∧ S3_two_slots.slot_order_.length = 2
      ∧ S3_two_slots.blank_it_ = some 0
      ∧ slot_at S3_two_slots.id2slot_ 0 = some (auto_slot S3_cfg BROADCAST_ID 0)
      ∧ cycle_length S3_two_slots = 20 ∧ cycle_sum S3_two_slots = 1
      ∧ S3_two_slots.cycles_since_day_start_ = 1
      ∧ blank_pos S3_two_slots = 18
      ∧ (list_remove S3_two_slots.slot_order_ 0).length = 1
      ∧ blank_index S3_two_slots 0 = 0
      ∧ position_blank S3_two_slots
          = some { S3_two_slots with slot_order_ := [0, 1], current_slot_ := Cursor.node 0 }
      ∧ (position_blank S3_two_slots).map (fun m => m.slot_order_.indexOf 0) = some 0
      ∧ cycle_length auto_peer2 = 3 ∧ blank_pos auto_peer2 = 2
      ∧ (position_blank auto_peer2).map (fun m => m.slot_order_) = some [1, 2, 0]
      ∧ (position_blank auto_peer2).map (fun m => m.slot_order_.indexOf 0) = some 2 := by
  decide

/-- C25 at a failing input: modem 1 with peers 2 and 3 (one-second slots, cycle of 4 s),
modem 3 heard again at 00:00:04.5, tick run at 00:00:05. The loop of `expire_ids` finds
the entry of modem 2 (last heard at 00:00:00) and erases it; no other entry passes the
test. `process_cycle_size_change` then realigns: `next_cycle_time` returns 00:00:06 for
the new cycle of 3 s (cycle 2 of the day) and the cursor goes to the first slot. Back in
`send_poll`, the lines after `expire_ids()` add `cfg.slot_seconds` all the same, so they
end with `next_slot_t_` and the pending wait at 00:00:07, not at the start of a cycle.
(The loop reaches its end only through `++it` on the iterator of the erased node, which
has no defined result: as a whole the tick has none.) -/
theorem evicting_tick_overshoots :
    handle_modem_all_incoming auto_peer23 { src := 3, dest := 0, rate := none } 4500000
        = some auto_peer23_fresh
      ∧ auto_peer23_fresh.cfg_.type = MACType.MAC_AUTO_DECENTRALIZED
      ∧ current_slot auto_peer23_fresh = some (auto_slot auto_cfg 1 0)
      ∧ expire_first { auto_peer23_fresh with
            current_slot_ :=
              cursor_incr auto_peer23_fresh.slot_order_ auto_peer23_fresh.current_slot_ }
          5000000 = some { handle := 2, slot := auto_slot auto_cfg 2 0 }
      ∧ expire_first (expire_erase { auto_peer23_fresh with
            current_slot_ :=
              cursor_incr auto_peer23_fresh.slot_order_ auto_peer23_fresh.current_slot_ }
          { handle := 2, slot := auto_slot auto_cfg 2 0 }) 5000000 = none
      ∧ (next_cycle_time (expire_erase { auto_peer23_fresh with
            current_slot_ :=
              cursor_incr auto_peer23_fresh.slot_order_ auto_peer23_fresh.current_slot_ }
          { handle := 2, slot := auto_slot auto_cfg 2 0 }) 5000000).map (fun r => r.2)
          = some 6000000
      ∧ process_cycle_size_change (expire_erase { auto_peer23_fresh with
            current_slot_ :=
              cursor_incr auto_peer23_fresh.slot_order_ auto_peer23_fresh.current_slot_ }
          { handle := 2, slot := auto_slot auto_cfg 2 0 }) 5000000
          = some auto_peer3_realigned
      ∧ auto_peer3_realigned.id2slot_.length < auto_peer23_fresh.id2slot_.length
      ∧ auto_peer3_realigned.current_slot_ = list_begin auto_peer3_realigned.slot_order_
      ∧ cycle_length auto_peer3_realigned = 3
      ∧ auto_peer3_realigned.cycles_since_day_start_ = 2
      ∧ universal_day 5000000
          + seconds (auto_peer3_realigned.cycles_since_day_start_
              * cycle_length auto_peer3_realigned)
          = 6000000
      ∧ auto_peer3_realigned.next_slot_t_ = 6000000
      ∧ finish_auto_tick auto_peer3_realigned
          = some { auto_peer3_realigned with
              next_slot_t_ := 7000000, timer_ := some 7000000 }
      ∧ send_poll auto_peer23_fresh ErrorCode.success 5000000 = none := by
  decide

/-- C26 at a failing input: modem 1 in auto-discovery mode is started at 1970-01-01
00:00:00 and shut down; then a frame from modem 2 arrives. `shutdown` leaves `cfg_`, so
`handle_modem_all_incoming` admits modem 2 into the empty sequence and
`process_cycle_size_change` restarts the timer; with one slot in the sequence
`position_blank` is not called and nothing else moves the cursor, which stays at `end()`
where `shutdown` put it. The tick that follows dereferences `end()`. -/
theorem admission_into_empty_sequence_cursor :
    startup (idle 5039) auto_cfg 0 = some auto_started
      ∧ (shutdown auto_started).cfg_.type = MACType.MAC_AUTO_DECENTRALIZED
      ∧ (∀ e ∈ (shutdown auto_started).id2slot_, e.slot.src ≠ 2)
      ∧ handle_modem_all_incoming (shutdown auto_started)
            { src := 2, dest := 0, rate := none } 0
          = some auto_revived
      ∧ auto_revived.slot_order_ = [2]
      ∧ auto_revived.current_slot_ = Cursor.end_
      ∧ auto_revived.current_slot_ ≠ list_begin auto_revived.slot_order_
      ∧ auto_revived.timer_is_running_ = true
      ∧ auto_revived.next_slot_t_ = 1000000
      ∧ current_slot auto_revived = none
      ∧ send_poll auto_revived ErrorCode.success 1000000 = none := by
  decide

/-- C27: for a manager in auto-discovery mode whose sequence holds no reference twice,
and a tick at a clock reading at which no entry of the table passes the test of
`expire_ids` (the tick evicts nothing). In every state reached from `startup` by inbound
frames and ticks the tick has a result; and whenever it has one, the table is unchanged,
`next_slot_t_` has grown by exactly `cfg.slot_seconds`, the cursor stood on a node `h` of
the sequence, and if `h` was the last node then `cycles_since_day_start_` has grown by 1,
`position_blank` has put the blank slot back on the position it computes for the new
cycle count and the cursor is on the first slot; otherwise `cycles_since_day_start_` and
the sequence are unchanged and the cursor is on the node after `h`. -/
theorem auto_quiet_tick (m : MACManager) (now : Int)
    (hauto : m.cfg_.type = MACType.MAC_AUTO_DECENTRALIZED) (hnd : m.slot_order_.Nodup)
    (hquiet : ∀ it ∈ m.id2slot_, expired m now it = false) :
    (reachable_auto m → ∃ r, send_poll m ErrorCode.success now = some r)
      ∧ ∀ m' sigs, send_poll m ErrorCode.success now = some (m', sigs) →
          m'.next_slot_t_ = m.next_slot_t_ + seconds m.cfg_.slot_seconds
            ∧ m'.id2slot_ = m.id2slot_
            ∧ m'.timer_ = some m'.next_slot_t_ ∧ m'.timer_is_running_ = true
            ∧ ∃ h, m.current_slot_ = Cursor.node h ∧ h ∈ m.slot_order_
                ∧ (m.slot_order_.getLast? = some h →
                    m'.cycles_since_day_start_ = m.cycles_since_day_start_ + 1
                      ∧ (∃ b, m.blank_it_ = some b
                          ∧ m'.slot_order_ = reinsert m.slot_order_ b
                              (blank_index { m with
                                cycles_since_day_start_ := m.cycles_since_day_start_ + 1 } b))
                      ∧ m'.current_slot_ = list_begin m'.slot_order_)
                ∧ (m.slot_order_.getLast? ≠ some h →
                    m'.cycles_since_day_start_ = m.cycles_since_day_start_
                      ∧ m'.slot_order_ = m.slot_order_
                      ∧ ∃ pre post h', m.slot_order_ = pre ++ h :: h' :: post
                          ∧ m'.current_slot_ = Cursor.node h') := by
  refine ⟨fun hr => auto_quiet_tick_total m now hr hquiet, ?_⟩
  intro m' sigs hres
  obtain ⟨h, S, hc, hin, -, -, -, hfin⟩ := send_poll_auto_some m m' now sigs hauto hres
  obtain ⟨-, k2, -, -, -, k6, k7, k8, k9⟩ := finish_auto_tick_some _ m' hfin
  refine ⟨k6, k2, k7, k8, h, hc, hin, ?_, ?_⟩
  · intro hlast
    rcases k9 with ⟨c1, -⟩ | ⟨-, c2, c3, b, hb, -, c4⟩
    · rcases list_next_nodup m.slot_order_ h hnd hin with ⟨-, hnext⟩ | ⟨hnl, -⟩
      · exact absurd hnext c1
      · exact absurd hlast hnl
    · exact ⟨c2, ⟨b, hb, c4⟩, c3⟩
  · intro hnl
    rcases list_next_nodup m.slot_order_ h hnd hin with ⟨hlast, -⟩ | ⟨-, pre, post, h', ho, hnext⟩
    · exact absurd hlast hnl
    · rcases k9 with ⟨-, c2, c3, c4⟩ | ⟨c1, -⟩
      · exact ⟨c4, c2, pre, post, h', ho, c3.trans hnext⟩
      · simp only [hnext] at c1
        exact absurd c1 (fun q => Cursor.noConfusion q)

/-- Instance of C27, scenario S3 with modem 7 admitted (slots of 10 s, cycle of 30 s): the
tick at 00:00:30 on the first slot moves the cursor on and `next_slot_t_` from 00:00:30
to 00:00:40. -/
theorem auto_quiet_tick_witness :
    (S3_peer7.cfg_.type = MACType.MAC_AUTO_DECENTRALIZED ∧ S3_peer7.slot_order_.Nodup
        ∧ (∀ it ∈ S3_peer7.id2slot_, expired S3_peer7 30000000 it = false)
        ∧ reachable_auto S3_peer7
        ∧ send_poll S3_peer7 ErrorCode.success 30000000
            = some (S3_peer7_ticked,
                [Signal.initiate_transmission { src := 1, dest := -1, rate := some 0 }]))
      ∧ (∃ r, send_poll S3_peer7 ErrorCode.success 30000000 = some r)
      ∧ S3_peer7_ticked.next_slot_t_
          = S3_peer7.next_slot_t_ + seconds S3_peer7.cfg_.slot_seconds :=
  ⟨⟨by decide, by decide, by decide, reachable_S3_peer7, by decide⟩,
   (auto_quiet_tick S3_peer7 30000000 (by decide) (by decide) (by decide)).1
      reachable_S3_peer7,
   ((auto_quiet_tick S3_peer7 30000000 (by decide) (by decide) (by decide)).2
      S3_peer7_ticked
      [Signal.initiate_transmission { src := 1, dest := -1, rate := some 0 }]
      (by decide)).1⟩

/-- C29 at failing inputs: `next_cycle_time` is reached with `cycle_length = 0`, where it
has no defined result, (1) by `remove_slot` on an idle manager, whatever the slot;
(2) by `remove_slot` of the only slot of a started manager; (3) by `add_slot`, on an idle
manager, of a slot with `slot_seconds = 0`; (4) by `startup` in auto-discovery mode with
`cfg.slot_seconds = 0`. -/
theorem next_cycle_time_zero_cycle_reached :
    cycle_length (idle 5039) = 0
      ∧ next_cycle_time (idle 5039) 0 = none
      ∧ remove_slot (idle 5039) S1_slot_a 0 = none
      ∧ startup (idle 5039) S1_cfg_single 0 = some S1_single
      ∧ cycle_length (without_slot S1_single 0) = 0
      ∧ remove_slot S1_single S1_slot_a 5000000 = none
      ∧ cycle_length (with_slot (idle 5039) { S1_slot_a with slot_seconds := 0 }) = 0
      ∧ add_slot (idle 5039) { S1_slot_a with slot_seconds := 0 } 0 = none
      ∧ startup (idle 5039) auto_cfg_zero 0 = none := by
  decide

end MACManager

/-! ## The Internet checksum -/

theorem carry_reduced_le (n : Nat) : carry_reduced n ≤ 65535 := by
  unfold carry_reduced
  split <;> omega

theorem carry_reduced_of_le (n : Nat) (h : n ≤ 65535) : carry_reduced n = n := by
  unfold carry_reduced
  split <;> omega

theorem carry_reduced_step (s : Nat) :
    carry_reduced (s % 65536 + s / 65536) = carry_reduced s := by
  unfold carry_reduced
  split <;> split <;> omega

/-- The second loop of `net_checksum` ends within `fuel` turns when `sum ≤ fuel`, on the
value `carry_reduced sum`, which is below `2^16`. -/
theorem carry_fold_done (fuel : Nat) : ∀ s, s ≤ fuel → carry_fold fuel s = carry_reduced s := by
  induction fuel with
  | zero =>
    intro s hs
    have : s = 0 := by omega
    subst this
    rfl
  | succ n ih =>
    intro s hs
    unfold carry_fold
    split
    · rename_i hc
      rw [ih _ (by omega)]
      exact carry_reduced_step s
    · rename_i hc
      rw [carry_reduced_of_le s (by omega)]

theorem ones_add_eq (a b : Nat) (ha : a ≤ 65535) (hb : b ≤ 65535) :
    ones_add a b = carry_reduced (a + b) := by
  unfold ones_add carry_reduced
  split <;> omega

theorem carry_reduced_add (x y : Nat) :
    carry_reduced (carry_reduced x + y) = carry_reduced (x + y) := by
  unfold carry_reduced
  split <;> split <;> split <;> omega

theorem foldl_ones_add (ws : List Nat) :
    ∀ acc, acc ≤ 65535 → (∀ w ∈ ws, w ≤ 65535) →
      ws.foldl ones_add acc = carry_reduced (acc + ws.sum) := by
  induction ws with
  | nil =>
    intro acc ha _
    simp [carry_reduced_of_le acc ha]
  | cons w rest ih =>
    intro acc ha hw
    have hw0 : w ≤ 65535 := hw w (List.mem_cons_self _ _)
    simp only [List.foldl_cons, List.sum_cons]
    rw [ones_add_eq acc w ha hw0, ih _ (carry_reduced_le _)
      (fun x hx => hw x (List.mem_cons_of_mem _ hx)), carry_reduced_add, Nat.add_assoc]

theorem be_words_bound (d : List Nat) :
    ∀ n, d.length = 2 * n → (∀ b ∈ d, b < 256) →
      (be_words d).length = n ∧ (∀ w ∈ be_words d, w ≤ 65535)
        ∧ (be_words d).sum ≤ 65535 * n := by
  intro n
  induction n generalizing d with
  | zero =>
    intro hlen _
    have : d = [] := List.length_eq_zero.1 (by omega)
    subst this
    simp [be_words]
  | succ k ih =>
    intro hlen hb
    match d, hlen, hb with
    | b0 :: b1 :: rest, hlen, hb =>
      have h0 : b0 < 256 := hb b0 (by simp)
      have h1 : b1 < 256 := hb b1 (by simp)
      have hrest : rest.length = 2 * k := by
        simp only [List.length_cons] at hlen
        omega
      obtain ⟨i1, i2, i3⟩ := ih rest hrest (fun b hbm => hb b (by simp [hbm]))
      refine ⟨by simp [be_words, i1], ?_, ?_⟩
      · intro w hw
        simp only [be_words, List.mem_cons] at hw
        rcases hw with rfl | hw
        · omega
        · exact i2 w hw
      · simp only [be_words, List.sum_cons]
        omega
    | [_], hlen, _ => simp at hlen; omega
    | [], hlen, _ => simp at hlen

/-- On a byte string of even length whose words cannot carry `sum` past `2^32`, the first
loop adds up the big-endian words. -/
theorem net_sum_even (n : Nat) :
    ∀ (d : List Nat) (sum : Nat), d.length = 2 * n → (∀ b ∈ d, b < 256) →
      sum + 65535 * n < 4294967296 → net_sum d sum = sum + (be_words d).sum := by
  induction n with
  | zero =>
    intro d sum hlen _ _
    have : d = [] := List.length_eq_zero.1 (by omega)
    subst this
    simp [net_sum, be_words]
  | succ k ih =>
    intro d sum hlen hb hs
    match d, hlen, hb with
    | b0 :: b1 :: rest, hlen, hb =>
      have h0 : b0 < 256 := hb b0 (by simp)
      have h1 : b1 < 256 := hb b1 (by simp)
      have hrest : rest.length = 2 * k := by
        simp only [List.length_cons] at hlen
        omega
      have hmod : (sum + (b0 * 256 + b1)) % 4294967296 = sum + (b0 * 256 + b1) :=
        Nat.mod_eq_of_lt (by omega)
      simp only [net_sum, be_words, List.sum_cons, hmod]
      rw [ih rest _ hrest (fun b hbm => hb b (by simp [hbm])) (by omega)]
      omega
    | [_], hlen, _ => simp at hlen; omega
    | [], hlen, _ => simp at hlen

theorem be_words_append (n : Nat) :
    ∀ (d : List Nat) (tail : List Nat), d.length = 2 * n →
      be_words (d ++ tail) = be_words d ++ be_words tail := by
  induction n with
  | zero =>
    intro d tail hlen
    have : d = [] := List.length_eq_zero.1 (by omega)
    subst this
    simp [be_words]
  | succ k ih =>
    intro d tail hlen
    match d, hlen with
    | b0 :: b1 :: rest, hlen =>
      have hrest : rest.length = 2 * k := by
        simp only [List.length_cons] at hlen
        omega
      simp only [List.cons_append, be_words, List.append_eq, ih rest tail hrest]
    | [_], hlen => simp at hlen; omega
    | [], hlen => simp at hlen

/-- The checksum of a byte string of even length below `2^17`, in terms of the plain sum
of its words. -/
theorem net_checksum_even (d : List Nat) (n : Nat) (hlen : d.length = 2 * n)
    (hn : n ≤ 65536) (hb : ∀ b ∈ d, b < 256) :
    net_checksum d = 65535 - carry_reduced (be_words d).sum
      ∧ end_around_carry_sum (be_words d) = carry_reduced (be_words d).sum := by
  obtain ⟨-, hw, -⟩ := be_words_bound d n hlen hb
  have hsum := net_sum_even n d 0 hlen hb (by omega)
  simp only [Nat.zero_add] at hsum
  constructor
  · unfold net_checksum
    simp only [hsum]
    rw [carry_fold_done _ _ (Nat.le_refl _)]
    have := carry_reduced_le (be_words d).sum
    omega
  · unfold end_around_carry_sum
    rw [foldl_ones_add _ 0 (by omega) hw, Nat.zero_add]

theorem carry_reduced_complement (S : Nat) :
    carry_reduced (S + (65535 - carry_reduced S)) = 65535 := by
  unfold carry_reduced
  split <;> split <;> omega

/-- C30: for every byte string `d` of even length at most 65534, `net_checksum d` is the
16-bit ones' complement of the end-around-carry sum of the big-endian 16-bit words of
`d`, it is a 16-bit value, and `d` followed by the high and the low byte of
`net_checksum d` has checksum 0. -/
theorem net_checksum_spec (d : List Nat) (hb : ∀ b ∈ d, b < 256)
    (heven : d.length % 2 = 0) (hlen : d.length ≤ 65534) :
    net_checksum d = ones_complement (end_around_carry_sum (be_words d))
      ∧ net_checksum d < 65536
      ∧ net_checksum (d ++ [net_checksum d / 256, net_checksum d % 256]) = 0 := by
  have hd : d.length = 2 * (d.length / 2) := by omega
  obtain ⟨h1, h2⟩ := net_checksum_even d (d.length / 2) hd (by omega) hb
  have hle := carry_reduced_le (be_words d).sum
  have hc : net_checksum d < 65536 := by omega
  refine ⟨by rw [h1, h2]; rfl, hc, ?_⟩
  have hlen' : (d ++ [net_checksum d / 256, net_checksum d % 256]).length
      = 2 * (d.length / 2 + 1) := by
    simp only [List.length_append, List.length_cons, List.length_nil]
    omega
  have hb' : ∀ b ∈ d ++ [net_checksum d / 256, net_checksum d % 256], b < 256 := by
    intro b hbm
    simp only [List.mem_append, List.mem_cons, List.mem_singleton, List.not_mem_nil,
      or_false] at hbm
    rcases hbm with hbm | rfl | rfl
    · exact hb b hbm
    · omega
    · omega
  obtain ⟨h3, -⟩ := net_checksum_even _ (d.length / 2 + 1) hlen' (by omega) hb'
  rw [h3, be_words_append (d.length / 2) d _ hd]
  have hword : net_checksum d / 256 * 256 + net_checksum d % 256 = net_checksum d := by
    omega
  simp only [be_words, List.sum_append, List.sum_cons, List.sum_nil, Nat.add_zero, hword]
  rw [h1, carry_reduced_complement]

/-- Instance of C30: the four bytes `45 00 00 1c`. -/
theorem net_checksum_spec_witness :
    ((∀ b ∈ [69, 0, 0, 28], b < 256) ∧ [69, 0, 0, 28].length % 2 = 0
        ∧ [69, 0, 0, 28].length ≤ 65534)
      ∧ net_checksum [69, 0, 0, 28]
          = ones_complement (end_around_carry_sum (be_words [69, 0, 0, 28]))
      ∧ net_checksum [69, 0, 0, 28] < 65536
      ∧ net_checksum ([69, 0, 0, 28]
          ++ [net_checksum [69, 0, 0, 28] / 256, net_checksum [69, 0, 0, 28] % 256]) = 0 :=
  ⟨⟨by decide, by decide, by decide⟩,
   net_checksum_spec [69, 0, 0, 28] (by decide) (by decide) (by decide)⟩

end MAC
